import Mathlib

/-!
# LogstreamerDirectoryInput: the reconcile loop, its equality test, the scan and Run

A shallow embedding of `logstreamer_directory_input.go`: `Equals`, `loadInputs`,
`logDirWalkFunc`, `loadLogstreamerFile` with its hook `prepCommonTypedConfig`, and `Run`.

* Go maps with string keys are association lists (`GoMap`).  A Go map holds at most
  one value per key; that representation invariant is `mapWF`.  The order in which
  `range` visits a map is not specified by Go, so every `range` over the running set
  is routed through a `RangeOrder` supplied by the environment.
* Calls made on the host (`RemoveInputRunner`, `AddInputRunner`, `LogMessage`,
  `LogError`) are recorded, in program order, in a list of `HostCall`.
* A runtime panic (slice index out of range, method call on a nil maker) is an explicit
  result, never hidden.
-/

namespace Logstreamer

/-! ## Go maps -/

/-- A Go `map[string]β`, as the list of its key/value pairs. -/
abbrev GoMap (β : Type) := List (String × β)

/-- The keys held by a map. -/
def mapKeys {β : Type} (m : GoMap β) : List String := m.map Prod.fst

/-- Representation invariant of a Go map: one value per key. -/
def mapWF {β : Type} (m : GoMap β) : Prop := (mapKeys m).Nodup

instance {β : Type} (m : GoMap β) : Decidable (mapWF m) := by
  unfold mapWF; infer_instance

/-- The comma-ok lookup `v, ok := m[k]`. -/
def mapGet {β : Type} (m : GoMap β) (k : String) : Option β :=
  (m.find? (fun p => decide (p.1 = k))).map Prod.snd

/-- The index expression `m[k]`: the zero value when the key is absent (also on a nil map). -/
def mapIndex {β : Type} (zero : β) (m : GoMap β) (k : String) : β :=
  (mapGet m k).getD zero

/-- The builtin `delete(m, k)`. -/
def mapDelete {β : Type} (m : GoMap β) (k : String) : GoMap β :=
  m.filter (fun p => !decide (p.1 = k))

/-- The assignment `m[k] = v`. -/
def mapSet {β : Type} (m : GoMap β) (k : String) (v : β) : GoMap β :=
  (k, v) :: mapDelete m k

/-! ## Configuration records -/

/-- Modelled from the spec: the declaration of `LogstreamerInputConfig` is not part of
this repository (it lives in the host's logstreamer package).  The fields are the ones
`Equals` reads, plus `OldestDuration`, which `Equals` never reads.  `Priority` and
`Differentiator` are slices of strings, `Translation` is a map of maps whose inner
values are integers. -/
structure LogstreamerInputConfig where
  Hostname : String
  LogDirectory : String
  JournalDirectory : String
  FileMatch : String
  Priority : List String
  Differentiator : List String
  OldestDuration : String
  Translation : GoMap (GoMap Int)
  RescanInterval : String
  Splitter : String
  InitialTail : Bool
  CheckDataInterval : String
deriving DecidableEq, Repr

/-- One value per key at both levels of a `Translation` table. -/
def translationWF (t : GoMap (GoMap Int)) : Prop :=
  mapWF t ∧ ∀ p ∈ t, mapWF p.2

instance (t : GoMap (GoMap Int)) : Decidable (translationWF t) := by
  unfold translationWF; infer_instance

/-- The loop `for i, v := range xs { if other[i] != v { return false } }` of lines 59-63
and 67-71, started at index `i`.  `some true`: the loop ran to its end; `some false`: it
executed `return false`; `none`: `other[i]` was out of range (a runtime panic). -/
def rangeCompare (other : List String) : Nat → List String → Option Bool
  | _, [] => some true
  | i, v :: rest =>
    match other.get? i with
    | none => none
    | some w => if w ≠ v then some false else rangeCompare other (i + 1) rest

/-- The nested loop of lines 75-81: `true` when it runs to its end, `false` when it
executes `return false`.  Neither map lookup can fail: a missing outer key yields a nil
inner map, a missing inner key yields `0`. -/
def translationLoop (running other : GoMap (GoMap Int)) : Bool :=
  running.all (fun iv => iv.2.all (fun yz =>
    !decide (mapIndex 0 (mapIndex [] other iv.1) yz.1 ≠ yz.2)))

/-- `LogstreamerDirectoryInput.Equals` (lines 43-96).  `none` is a runtime panic. -/
def Equals (runningEntry otherEntry : LogstreamerInputConfig) : Option Bool :=
  if runningEntry.Hostname ≠ otherEntry.Hostname then some false
  else if runningEntry.LogDirectory ≠ otherEntry.LogDirectory then some false
  else if runningEntry.JournalDirectory ≠ otherEntry.JournalDirectory then some false
  else if runningEntry.FileMatch ≠ otherEntry.FileMatch then some false
  else if runningEntry.Priority.length ≠ otherEntry.Priority.length then some false
  else match rangeCompare otherEntry.Priority 0 runningEntry.Priority with
  | none => none
  | some false => some false
  | some true =>
  if runningEntry.Differentiator.length ≠ otherEntry.Differentiator.length then some false
  else match rangeCompare otherEntry.Differentiator 0 runningEntry.Differentiator with
  | none => none
  | some false => some false
  | some true =>
  if runningEntry.Translation.length ≠ otherEntry.Translation.length then some false
  else if translationLoop runningEntry.Translation otherEntry.Translation = false then some false
  else if runningEntry.RescanInterval ≠ otherEntry.RescanInterval then some false
  else if runningEntry.CheckDataInterval ≠ otherEntry.CheckDataInterval then some false
  else if runningEntry.Splitter ≠ otherEntry.Splitter then some false
  else if runningEntry.InitialTail ≠ otherEntry.InitialTail then some false
  else some true

/-! ## Structural equality, as the specification words it -/

/-- Same keys and same values: every pair of either map is a pair of the other. -/
def innerMapEq (a b : GoMap Int) : Bool :=
  a.all (fun p => decide (mapGet b p.1 = some p.2)) &&
  b.all (fun p => decide (mapGet a p.1 = some p.2))

/-- Same outer keys, and under each outer key the same inner keys and values. -/
def translationEq (a b : GoMap (GoMap Int)) : Bool :=
  a.all (fun p => match mapGet b p.1 with
    | some w => innerMapEq p.2 w
    | none => false) &&
  b.all (fun p => match mapGet a p.1 with
    | some w => innerMapEq w p.2
    | none => false)

/-- Structural equality of two configurations over the compared fields: every scalar
matches, the two sequences match in length and element by element, and the translation
tables hold the same outer keys, inner keys and inner values. -/
def StructurallyEqual (a b : LogstreamerInputConfig) : Bool :=
  decide (a.Hostname = b.Hostname) && decide (a.LogDirectory = b.LogDirectory) &&
  decide (a.JournalDirectory = b.JournalDirectory) && decide (a.FileMatch = b.FileMatch) &&
  decide (a.RescanInterval = b.RescanInterval) &&
  decide (a.CheckDataInterval = b.CheckDataInterval) &&
  decide (a.Splitter = b.Splitter) && decide (a.InitialTail = b.InitialTail) &&
  decide (a.Priority = b.Priority) && decide (a.Differentiator = b.Differentiator) &&
  translationEq a.Translation b.Translation

/-- A configuration with every field at its zero value. -/
def zeroConfig : LogstreamerInputConfig :=
  { Hostname := "", LogDirectory := "", JournalDirectory := "", FileMatch := "",
    Priority := [], Differentiator := [], OldestDuration := "", Translation := [],
    RescanInterval := "", Splitter := "", InitialTail := false, CheckDataInterval := "" }

/-! ## Entries, host calls and the environment of one pass -/

/-- Modelled from the spec: `InputRunner` is an interface of the host, not declared in
this repository.  A handle is an identity (`id`, standing for the pointer) together with
the worker name its `Name()` method returns. -/
structure InputRunner where
  id : Nat
  Name : String
deriving DecidableEq, Repr

/-- `LogstreamerEntry` (lines 12-17).  The `maker` field is left out: no statement of
`loadInputs` reads it. -/
structure LogstreamerEntry where
  ir : InputRunner
  config : LogstreamerInputConfig
  fileName : String
deriving DecidableEq, Repr

/-- A call made by `loadInputs` on the host.  `AddInputRunner` carries the error the
host answered with (`none` is nil). -/
inductive HostCall where
  | RemoveInputRunner (ir : InputRunner)
  | AddInputRunner (ir : InputRunner) (err : Option String)
  | LogMessage (msg : String)
  | LogError (msg : String)
deriving DecidableEq, Repr

/-- The orders in which the two `range` loops over `lsdi.inputs` visit it: line 167
(`pruneLoop`) and line 184 (`conflictLoop`, once per specified key). -/
structure RangeOrder where
  pruneLoop : GoMap LogstreamerEntry → GoMap LogstreamerEntry
  conflictLoop : String → GoMap LogstreamerEntry → GoMap LogstreamerEntry

/-- A range order only reorders: it visits each pair of the map exactly once. -/
def RangeOrder.Valid (o : RangeOrder) : Prop :=
  (∀ m, (o.pruneLoop m).Perm m) ∧ ∀ name m, (o.conflictLoop name m).Perm m

/-- The range order that visits a map in the order of its list. -/
def listOrder : RangeOrder := { pruneLoop := fun m => m, conflictLoop := fun _ m => m }

/-- What the world outside `loadInputs` does during one pass: the entries that
`filepath.Walk` with `logDirWalkFunc` stored in `lsdi.specified` (in the order in which
line 179 will visit them), the error `filepath.Walk` returned, the answer of the host to
each `AddInputRunner` call (it may depend on every call made so far in the pass), and the
range orders.  The diagnostics `logDirWalkFunc` logs during the walk belong to the scan
and are not recorded.  A scan in which `logDirWalkFunc` panics (see `walkNodes`) does not
reach line 166 and is described by no `PassEnv`. -/
structure PassEnv where
  walked : GoMap LogstreamerEntry
  walkErr : Option String
  AddInputRunner : List HostCall → InputRunner → Option String
  order : RangeOrder

/-- The two maps of `LogstreamerDirectoryInput` (lines 28-39).  `inputs` is keyed by the
key under which line 211 stores an entry, which is the key of `specified`.  The other
fields (`stopChan`, `logDir`, `ir`, `h`, `pConfig`) are handles on the host. -/
structure LogstreamerDirectoryInput where
  inputs : GoMap LogstreamerEntry
  specified : GoMap LogstreamerEntry
deriving DecidableEq, Repr

/-- `Init` (lines 104-111): an empty running set. -/
def Init : LogstreamerDirectoryInput := { inputs := [], specified := [] }

/-- The variables `loadInputs` updates while it runs: the running set, the calls made so
far, the named result `err` and the local `dups`. -/
structure Frame where
  inputs : GoMap LogstreamerEntry
  calls : List HostCall
  err : Option String
  dups : Bool
deriving DecidableEq, Repr

/-- How an iteration of the loop of line 179 ends. -/
inductive Flow where
  | next
  | ret
  | panic
deriving DecidableEq, Repr

/-! ## loadInputs -/

/-- The three statements that stop a running worker (lines 169-171, 188-190, 201-203):
`RemoveInputRunner` on its handle, `delete` of its key, and the `Removed:` message. -/
def stopFrame (fr : Frame) (name : String) (ir : InputRunner) : Frame :=
  { fr with
    inputs := mapDelete fr.inputs name
    calls := fr.calls ++
      [HostCall.RemoveInputRunner ir, HostCall.LogMessage ("Removed: " ++ name)] }

/-- The loop of lines 167-173 over the visiting order `todo`. -/
def pruneLoop (specified : GoMap LogstreamerEntry) :
    List (String × LogstreamerEntry) → Frame → Frame
  | [], fr => fr
  | (name, entry) :: rest, fr =>
    match mapGet specified name with
    | some _ => pruneLoop specified rest fr
    | none => pruneLoop specified rest (stopFrame fr name entry.ir)

/-- The error built at line 191. -/
def duplicateNameError (runningEntryInputName name : String) : String :=
  "Duplicate Name: Input with name [" ++ runningEntryInputName ++
    "] already exists. Not loading input file: " ++ name

/-- The condition of line 185. -/
def isDuplicate (newEntry : LogstreamerEntry) (running : String × LogstreamerEntry) : Bool :=
  decide (newEntry.ir.Name = running.2.ir.Name) &&
  decide (newEntry.fileName ≠ running.2.fileName)

/-- Lines 207-212: start a new input. -/
def startInput (env : PassEnv) (name : String) (newEntry : LogstreamerEntry)
    (fr : Frame) : Frame :=
  match env.AddInputRunner fr.calls newEntry.ir with
  | some e =>
    { fr with
      calls := fr.calls ++
        [HostCall.AddInputRunner newEntry.ir (some e),
         HostCall.LogError ("creating input '" ++ name ++ "': " ++ e)]
      err := some e }
  | none =>
    { fr with
      inputs := mapSet fr.inputs name newEntry
      calls := fr.calls ++
        [HostCall.AddInputRunner newEntry.ir none, HostCall.LogMessage ("Added: " ++ name)]
      err := none }

/-- One iteration of the loop of line 179 (lines 180-212). -/
def loopBody (env : PassEnv) (name : String) (newEntry : LogstreamerEntry)
    (fr : Frame) : Flow × Frame :=
  match (env.order.conflictLoop name fr.inputs).find? (isDuplicate newEntry) with
  | some (runningInputName, runningInput) =>
    (Flow.ret,
      { stopFrame fr runningInputName runningInput.ir with
        err := some (duplicateNameError runningInput.ir.Name name)
        dups := true })
  | none =>
    match mapGet fr.inputs name with
    | some runningEntry =>
      match Equals runningEntry.config newEntry.config with
      | none => (Flow.panic, fr)
      | some eq =>
        if (eq && decide (runningEntry.ir.Name = newEntry.ir.Name)) && !fr.dups then
          (Flow.next, fr)
        else
          (Flow.next, startInput env name newEntry (stopFrame fr name runningEntry.ir))
    | none => (Flow.next, startInput env name newEntry fr)

/-- The loop of lines 179-213 over the entries still to visit.  `Flow.next` in the result
means the loop ran to its end. -/
def specifiedLoop (env : PassEnv) : List (String × LogstreamerEntry) → Frame → Flow × Frame
  | [], fr => (Flow.next, fr)
  | (name, newEntry) :: rest, fr =>
    match loopBody env name newEntry fr with
    | (Flow.next, fr1) => specifiedLoop env rest fr1
    | stopped => stopped

/-- The frame at line 166, when the walk has succeeded. -/
def entryFrame (inputs : GoMap LogstreamerEntry) : Frame :=
  { inputs := inputs, calls := [], err := none, dups := false }

/-- Lines 166-173 from the frame at line 166. -/
def prunePhase (env : PassEnv) (inputs : GoMap LogstreamerEntry) : Frame :=
  pruneLoop env.walked (env.order.pruneLoop inputs) (entryFrame inputs)

/-- Lines 166-214: the reconcile phase of `loadInputs`. -/
def reconcile (env : PassEnv) (inputs : GoMap LogstreamerEntry) : Flow × Frame :=
  specifiedLoop env env.walked (prunePhase env inputs)

/-- What one call of `loadInputs` leaves behind: the plugin state, the calls made on the
host, the returned `err`, the last value of `dups`, and whether it panicked. -/
structure PassResult where
  lsdi : LogstreamerDirectoryInput
  calls : List HostCall
  err : Option String
  dups : Bool
  panicked : Bool
deriving DecidableEq, Repr

/-- `loadInputs` (lines 155-215). -/
def loadInputs (env : PassEnv) (lsdi : LogstreamerDirectoryInput) : PassResult :=
  match env.walkErr with
  | some e =>
    { lsdi := { lsdi with specified := env.walked }
      calls := [], err := some e, dups := false, panicked := false }
  | none =>
    let r := reconcile env lsdi.inputs
    { lsdi := { inputs := r.2.inputs, specified := env.walked }
      calls := r.2.calls, err := r.2.err, dups := r.2.dups
      panicked := decide (r.1 = Flow.panic) }

/-- The closed form of `Equals` (see `Equals_eq`): it accepts exactly when
the compared scalars and both slices are equal, the translation tables have the same
number of outer keys and the loop of lines 75-81 runs to its end. -/
def equalsAccepts (a b : LogstreamerInputConfig) : Bool :=
  decide (a.Hostname = b.Hostname) && decide (a.LogDirectory = b.LogDirectory) &&
  decide (a.JournalDirectory = b.JournalDirectory) && decide (a.FileMatch = b.FileMatch) &&
  decide (a.Priority = b.Priority) && decide (a.Differentiator = b.Differentiator) &&
  decide (a.Translation.length = b.Translation.length) &&
  translationLoop a.Translation b.Translation &&
  decide (a.RescanInterval = b.RescanInterval) &&
  decide (a.CheckDataInterval = b.CheckDataInterval) &&
  decide (a.Splitter = b.Splitter) && decide (a.InitialTail = b.InitialTail)

/-! ## The typed-common-configuration hook -/

/-- Modelled from the spec: `RetryOptions` is declared by the host, not by this
repository.  The literal of lines 315-319 names `MaxDelay`, `Delay` and `MaxRetries`;
`MaxJitter` stands for what the literal leaves at its zero value. -/
structure RetryOptions where
  MaxDelay : String
  Delay : String
  MaxJitter : String
  MaxRetries : Int
deriving DecidableEq, Repr

/-- Modelled from the spec: `CommonInputConfig` is declared by the host, not by this
repository.  `CanExit` is a `*bool` (`none` is nil), `Retries` a `RetryOptions` value, and
`other` stands for every remaining field, of a type `ρ` the hook never looks into. -/
structure CommonInputConfig (ρ : Type) where
  other : ρ
  CanExit : Option Bool
  Retries : RetryOptions
deriving DecidableEq, Repr

/-- The closure `prepCommonTypedConfig` of lines 309-325, as a function of what
`mutMaker.OrigPrepCommonTypedConfig()` returned. -/
def prepCommonTypedConfig {ρ : Type} (orig : Except String (CommonInputConfig ρ)) :
    Except String (CommonInputConfig ρ) :=
  match orig with
  | Except.error err => Except.error err
  | Except.ok commonTypedConfig =>
    let commonInput : CommonInputConfig ρ :=
      { commonTypedConfig with
        Retries := { MaxDelay := "30s", Delay := "250ms", MaxJitter := "", MaxRetries := -1 } }
    let commonInput : CommonInputConfig ρ :=
      if commonInput.CanExit = none then { commonInput with CanExit := some true }
      else commonInput
    Except.ok commonInput

/-- The retry policy the hook installs (lines 315-319). -/
def managedRetries : RetryOptions :=
  { MaxDelay := "30s", Delay := "250ms", MaxJitter := "", MaxRetries := -1 }

/-! ## Concrete inputs -/

/-- A configuration whose translation table maps `Jan` only. -/
def shortTable : LogstreamerInputConfig :=
  { zeroConfig with Translation := [("Month", [("Jan", 1)])] }

/-- The same configuration after `Feb` was added to the `Month` table. -/
def longTable : LogstreamerInputConfig :=
  { zeroConfig with Translation := [("Month", [("Jan", 1), ("Feb", 2)])] }

/-- A worker named `name` with handle identity `id`, loaded from `file`. -/
def mkEntry (id : Nat) (name file : String) (config : LogstreamerInputConfig) :
    LogstreamerEntry :=
  { ir := { id := id, Name := name }, config := config, fileName := file }

/-- A pass over one file, `a.toml` declaring worker `A`, on a host that rejects every
registration. -/
def rejectingPass : PassEnv :=
  { walked := [("a.toml", mkEntry 1 "A" "a.toml" zeroConfig)]
    walkErr := none
    AddInputRunner := fun _ _ => some "out of resources"
    order := listOrder }

/-- A common configuration in which the user set a retry policy of their own. -/
def userRetries : CommonInputConfig Unit :=
  { other := (), CanExit := some false,
    Retries := { MaxDelay := "5s", Delay := "1s", MaxJitter := "", MaxRetries := 3 } }

/-! ## Invariants, the host registry and sequences of passes -/

/-- Every entry is stored under the path of the file it was loaded from, as
`logDirWalkFunc` stores them (lines 270-271). -/
def filedByPath (m : GoMap LogstreamerEntry) : Prop := ∀ p ∈ m, p.2.fileName = p.1

instance (m : GoMap LogstreamerEntry) : Decidable (filedByPath m) := by
  unfold filedByPath; infer_instance

/-- Invariant I1: no two entries of the map have the same worker name. -/
def uniqueNames (m : GoMap LogstreamerEntry) : Prop :=
  (m.map (fun p => p.2.ir.Name)).Nodup

instance (m : GoMap LogstreamerEntry) : Decidable (uniqueNames m) := by
  unfold uniqueNames; infer_instance

/-- The handles of the entries of a map. -/
def runners (m : GoMap LogstreamerEntry) : List InputRunner := m.map (fun p => p.2.ir)

/-- The handles passed to `RemoveInputRunner`, in call order. -/
def removedRunners (calls : List HostCall) : List InputRunner :=
  calls.filterMap (fun c => match c with
    | HostCall.RemoveInputRunner ir => some ir
    | _ => none)

/-- The handles passed to `AddInputRunner`, in call order, whatever the host answered. -/
def addedRunners (calls : List HostCall) : List InputRunner :=
  calls.filterMap (fun c => match c with
    | HostCall.AddInputRunner ir _ => some ir
    | _ => none)

/-- The `AddInputRunner` calls the host answered with an error. -/
def failedAdds (calls : List HostCall) : List InputRunner :=
  calls.filterMap (fun c => match c with
    | HostCall.AddInputRunner ir (some _) => some ir
    | _ => none)

/-- The registry of the host: a successful `AddInputRunner` registers the handle, a
failed one registers nothing, `RemoveInputRunner` unregisters it. -/
def hostStep (registry : List InputRunner) : HostCall → List InputRunner
  | HostCall.AddInputRunner ir none => ir :: registry
  | HostCall.AddInputRunner _ (some _) => registry
  | HostCall.RemoveInputRunner ir => registry.erase ir
  | HostCall.LogMessage _ => registry
  | HostCall.LogError _ => registry

/-- The registry after a sequence of calls. -/
def hostRegistry (registry : List InputRunner) (calls : List HostCall) : List InputRunner :=
  calls.foldl hostStep registry

/-- A sequence of `loadInputs` calls, one per environment, on the plugin state and the
host registry.  The sequence goes on after a pass that returned an error, so it covers
more than what `Run` can do. -/
def runPasses : List PassEnv → LogstreamerDirectoryInput × List InputRunner →
    LogstreamerDirectoryInput × List InputRunner
  | [], s => s
  | env :: rest, s =>
    runPasses rest ((loadInputs env s.1).lsdi, hostRegistry s.2 (loadInputs env s.1).calls)

/-- A running set as the code builds it: one value per key, every entry stored under its
file path, and no two entries with the same worker name. -/
def Sound (m : GoMap LogstreamerEntry) : Prop := mapWF m ∧ filedByPath m ∧ uniqueNames m

instance (m : GoMap LogstreamerEntry) : Decidable (Sound m) := by
  unfold Sound; infer_instance

/-- Invariant I2 on a frame of a pass that started with the host registry `registry`:
the registered handles are the handles of the running entries, one for one. -/
def RegistryMatches (registry : List InputRunner) (fr : Frame) : Prop :=
  (hostRegistry registry fr.calls).Perm (runners fr.inputs)

/-- A running set holding worker `A`, loaded from `old.toml`. -/
def runningOld : GoMap LogstreamerEntry := [("old.toml", mkEntry 1 "A" "old.toml" zeroConfig)]

/-- A pass in which `old.toml` is gone and `new.toml` declares the same worker `A`. -/
def movedFilePass : PassEnv :=
  { walked := [("new.toml", mkEntry 2 "A" "new.toml" zeroConfig)]
    walkErr := none
    AddInputRunner := fun _ _ => none
    order := listOrder }

/-- A running set holding worker `A`, loaded from `new.toml`. -/
def runningNew : GoMap LogstreamerEntry := [("new.toml", mkEntry 2 "A" "new.toml" zeroConfig)]

/-- A pass in which `new.toml` still declares worker `A`, with a changed configuration,
`other.toml` declares `A` too, and the host rejects the handle made for `new.toml`. -/
def changedAndDuplicatePass : PassEnv :=
  { walked := [("new.toml", mkEntry 3 "A" "new.toml" shortTable),
               ("other.toml", mkEntry 4 "A" "other.toml" zeroConfig)]
    walkErr := none
    AddInputRunner := fun _ ir => if ir.id = 3 then some "rejected" else none
    order := listOrder }

/-- A pass in which `new.toml` is unchanged, `other.toml` declares `A` too and `b.toml`
declares another worker. -/
def duplicatePass : PassEnv :=
  { walked := [("b.toml", mkEntry 5 "B" "b.toml" zeroConfig),
               ("other.toml", mkEntry 4 "A" "other.toml" zeroConfig),
               ("new.toml", mkEntry 3 "A" "new.toml" zeroConfig)]
    walkErr := none
    AddInputRunner := fun _ _ => none
    order := listOrder }

/-- Two passes in a row: the moved-file pass, then the pass with a changed file and a
duplicate. -/
def samplePasses : List PassEnv := [movedFilePass, changedAndDuplicatePass]

/-- A pass in which `new.toml` and `b.toml` declare two different workers. -/
def twoWorkersPass : PassEnv :=
  { walked := [("b.toml", mkEntry 5 "B" "b.toml" zeroConfig),
               ("new.toml", mkEntry 6 "A" "new.toml" longTable)]
    walkErr := none
    AddInputRunner := fun _ _ => none
    order := listOrder }

/-- The configuration of `new.toml` after a priority list was added to it. -/
def withPriority : LogstreamerInputConfig := { zeroConfig with Priority := ["Year", "Month"] }

/-- What the reconcile loop has reached after visiting the entries `done` of the
specified set `spec` without a conflict and without a failed registration: `dups` and
`err` are unset, the running set is a map whose keys are keys of `spec`, and under the
key of each visited entry it holds an entry with the same worker name whose
configuration `Equals` accepts against the visited one. -/
def Converged (spec done : GoMap LogstreamerEntry) (fr : Frame) : Prop :=
  fr.dups = false ∧ fr.err = none ∧ mapWF fr.inputs ∧
  (∀ k ∈ mapKeys fr.inputs, k ∈ mapKeys spec) ∧
  ∀ p ∈ done, ∃ e, mapGet fr.inputs p.1 = some e ∧ e.ir.Name = p.2.ir.Name ∧
    equalsAccepts e.config p.2.config = true

/-- A pass over two files that declare two different workers, on a host that accepts
every registration. -/
def acceptingPass : PassEnv :=
  { walked := [("a.toml", mkEntry 1 "A" "a.toml" zeroConfig),
               ("b.toml", mkEntry 5 "B" "b.toml" longTable)]
    walkErr := none
    AddInputRunner := fun _ _ => none
    order := listOrder }

/-- A pass over one valid file declaring worker `A`. -/
def singleFilePass : PassEnv :=
  { walked := [("a.toml", mkEntry 1 "A" "a.toml" zeroConfig)]
    walkErr := none
    AddInputRunner := fun _ _ => none
    order := listOrder }

/-- An unchanged scan result: the same file paths and, under each path, the same worker
name and a structurally equal configuration. -/
def Unchanged (a b : GoMap LogstreamerEntry) : Prop :=
  (∀ k, k ∈ mapKeys a ↔ k ∈ mapKeys b) ∧
  ∀ p ∈ a, ∀ q ∈ b, p.1 = q.1 →
    q.2.ir.Name = p.2.ir.Name ∧ StructurallyEqual p.2.config q.2.config = true

/-- A pass over `a.toml` and `b.toml` on a host that rejects the handle named `A` and
accepts the others. -/
def rejectsAPass : PassEnv :=
  { walked := [("a.toml", mkEntry 1 "A" "a.toml" zeroConfig),
               ("b.toml", mkEntry 5 "B" "b.toml" longTable)]
    walkErr := none
    AddInputRunner := fun _ ir => if ir.Name = "A" then some "rejected" else none
    order := listOrder }

/-- The next scan of the same two unchanged files: new handles, same names, same
configurations. -/
def rescanPass : PassEnv :=
  { walked := [("b.toml", mkEntry 9 "B" "b.toml" longTable),
               ("a.toml", mkEntry 8 "A" "a.toml" zeroConfig)]
    walkErr := none
    AddInputRunner := fun _ _ => none
    order := listOrder }

/-- A translation table and the same table with its two outer keys inserted in the other
order. -/
def tableMonthYear : GoMap (GoMap Int) :=
  [("Month", [("Jan", 1), ("Feb", 2)]), ("Year", [("missing", 9999)])]

/-- The table of `tableMonthYear`, outer keys in the other order. -/
def tableYearMonth : GoMap (GoMap Int) :=
  [("Year", [("missing", 9999)]), ("Month", [("Jan", 1), ("Feb", 2)])]

/-- A pass whose scan found no file at all. -/
def emptyScanPass : PassEnv :=
  { walked := []
    walkErr := none
    AddInputRunner := fun _ _ => none
    order := listOrder }

/-! ## Run -/

/-- What the `select` of line 141 receives: a tick of the ticker, which carries the
environment of the pass it triggers, or the closing of `stopChan` by `Stop` (the receive
then yields `ok = false`; nothing is ever sent on `stopChan`). -/
inductive RunEvent where
  | tick (env : PassEnv)
  | stop

/-- The state of a call of `Run`: the plugin state, the passes executed so far, every
call made on the host so far, the named result `err`, whether `Run` has returned, and
whether it panicked.  While `returned` is `false` and no panic occurred, `Run` is
waiting in the `select` of line 141. -/
structure RunState where
  lsdi : LogstreamerDirectoryInput
  passes : List PassResult
  calls : List HostCall
  err : Option String
  returned : Bool
  panicked : Bool

/-- The loop of lines 140-148 over the events still to come. -/
def runLoop : List RunEvent → RunState → RunState
  | [], st => st
  | RunEvent.stop :: _, st => { st with returned := true }
  | RunEvent.tick env :: rest, st =>
    let st1 : RunState :=
      { lsdi := (loadInputs env st.lsdi).lsdi
        passes := st.passes ++ [loadInputs env st.lsdi]
        calls := st.calls ++ (loadInputs env st.lsdi).calls
        err := (loadInputs env st.lsdi).err
        returned := false
        panicked := (loadInputs env st.lsdi).panicked }
    if (loadInputs env st.lsdi).panicked then st1
    else if (loadInputs env st.lsdi).err ≠ none then { st1 with returned := true }
    else runLoop rest st1

/-- `Run` (lines 130-151): `first` is the environment of the pass of line 133. -/
def Run (first : PassEnv) (events : List RunEvent) (lsdi : LogstreamerDirectoryInput) :
    RunState :=
  let st1 : RunState :=
    { lsdi := (loadInputs first lsdi).lsdi
      passes := [loadInputs first lsdi]
      calls := (loadInputs first lsdi).calls
      err := (loadInputs first lsdi).err
      returned := false
      panicked := (loadInputs first lsdi).panicked }
  if (loadInputs first lsdi).panicked then st1
  else if (loadInputs first lsdi).err ≠ none then { st1 with returned := true }
  else runLoop events st1

/-- The passes the control loop is specified to run: one for each environment in turn,
and none after the first pass that returns an error. -/
def prescribedPasses : List PassEnv → LogstreamerDirectoryInput → List PassResult
  | [], _ => []
  | env :: rest, lsdi =>
    loadInputs env lsdi ::
      (if (loadInputs env lsdi).err = none then prescribedPasses rest (loadInputs env lsdi).lsdi
       else [])

/-- The bookkeeping of a call of `Run` is consistent: the calls made are those of the
passes executed, and the named result and the plugin state are those the last pass
left; no panic occurred. -/
def RunConsistent (st : RunState) : Prop :=
  st.calls = st.passes.flatMap (fun r => r.calls) ∧
  (∃ r, st.passes.getLast? = some r ∧ st.err = r.err ∧ st.lsdi = r.lsdi) ∧
  st.panicked = false

/-! ## The directory scan -/

/-- Modelled from the spec: a decoded section (`toml.Primitive`), as what it declares: the
name, the type and the category that a maker the host builds from it reports
(`maker.Name()`, `maker.Type()`, `maker.Category()`).  `id` tells two sections with the
same declarations apart. -/
structure Primitive where
  id : Nat
  makerName : String
  makerType : String
  makerCategory : String
deriving DecidableEq, Repr

/-- The zero value of `toml.Primitive`, which `section` holds before the loop of line
286. -/
def zeroPrimitive : Primitive := { id := 0, makerName := "", makerType := "", makerCategory := "" }

/-- The two pipeline configurations `NewPluginMaker` is called with: the one of the plugin
(`lsdi.pConfig`, line 301) and a new one made by `NewPipelineConfig(nil)` (line 336). -/
inductive PipelineConfig where
  | plugin
  | fresh
deriving DecidableEq, Repr

/-- The maker `loadLogstreamerFile` returns inside its entry: the section it was built
from, the name given by `SetName` (line 307), and which hooks were installed on it
(`SetPrepCommonTypedConfig` at line 326, `SetPrepConfig` at line 260). -/
structure MutableMaker where
  sectionPrim : Primitive
  name : String
  prepCommonTypedConfigSet : Bool
  prepConfigSet : Bool
deriving DecidableEq, Repr

/-- The three ways `loadLogstreamerFile` fails: the error of `toml.DecodeFile` (line
284), the error "No `LogstreamerInput` section." (line 297), and
"can't create plugin maker: " followed by the error of `NewPluginMaker` (line 303). -/
inductive LoadFileError where
  | decode (err : String)
  | noSection
  | makerFailed (err : String)
deriving DecidableEq, Repr

/-- What the file system and the host answer during the scan: the sections
`toml.DecodeFile` decodes from a path (in the order in which line 286 visits them), the
error of `NewPluginMaker(name, pConfig, section)` (nil when the host makes a maker; with
an error the maker it returns is nil), and what `OrigPrepConfig` and `MakeRunner` return
for a maker.  The type assertions of lines 251, 259, 268 and 306 are on values the host
builds for a `LogstreamerInput` section and are taken to hold. -/
structure ScanWorld where
  DecodeFile : String → Except String (GoMap Primitive)
  NewPluginMaker : String → PipelineConfig → Primitive → Option String
  OrigPrepConfig : MutableMaker → Except String LogstreamerInputConfig
  MakeRunner : MutableMaker → Except String InputRunner

/-- `getConfigFileInfo` (lines 334-342).  Line 337 drops the error of `NewPluginMaker`, so
when the host makes no maker for the section, line 338 calls `Type()` on the nil maker:
the result `none` is that nil dereference, a panic. -/
def getConfigFileInfo (world : ScanWorld) (name : String) (configFile : Primitive) :
    Option (String × String × String) :=
  match world.NewPluginMaker name PipelineConfig.fresh configFile with
  | some _ => none
  | none =>
    if configFile.makerType ≠ "" then
      some (configFile.makerName, configFile.makerType, configFile.makerCategory)
    else some ("", "", "")

/-- The local variables of `loadLogstreamerFile` that the loop of line 286 assigns. -/
structure SelectVars where
  ok : Bool
  sectionPrim : Primitive
  path : String
deriving DecidableEq, Repr

/-- The loop of lines 286-294 over the sections still to visit; `none` is the panic of
`getConfigFileInfo`. -/
def selectLoop (world : ScanWorld) : List (String × Primitive) → SelectVars → Option SelectVars
  | [], vars => some vars
  | (name, conf) :: rest, vars =>
    match getConfigFileInfo world name conf with
    | none => none
    | some (confName, confType, _) =>
      if confType = "LogstreamerInput" then
        selectLoop world rest { ok := true, sectionPrim := conf, path := confName }
      else selectLoop world rest vars

/-- `loadLogstreamerFile` (lines 275-332).  The entry it returns holds only the maker;
`none` is the panic of `getConfigFileInfo` inside the loop of line 286. -/
def loadLogstreamerFile (world : ScanWorld) (path : String) :
    Option (Except LoadFileError MutableMaker) :=
  match world.DecodeFile path with
  | Except.error err => some (Except.error (LoadFileError.decode err))
  | Except.ok unparsedConfig =>
    match selectLoop world unparsedConfig
        { ok := false, sectionPrim := zeroPrimitive, path := path } with
    | none => none
    | some vars =>
      if !vars.ok then some (Except.error LoadFileError.noSection)
      else
        match world.NewPluginMaker "LogstreamerInput" PipelineConfig.plugin vars.sectionPrim with
        | some err => some (Except.error (LoadFileError.makerFailed err))
        | none =>
          some (Except.ok
            { sectionPrim := vars.sectionPrim, name := vars.path,
              prepCommonTypedConfigSet := true, prepConfigSet := false })

/-- The loop of `filepath.Ext` of the Go library, from the end of the path: `rev` holds
the bytes not yet looked at, last first, and `acc` the bytes already passed. -/
def extLoop : List Char → List Char → List Char
  | [], _ => []
  | c :: rev, acc =>
    if c = '/' then []
    else if c = '.' then c :: acc
    else extLoop rev (c :: acc)

/-- `filepath.Ext` of the Go library: the suffix beginning at the final dot of the final
element of the path, empty if there is no dot. -/
def Ext (path : String) : String := String.mk (extLoop path.data.reverse [])

/-- The part of `os.FileInfo` that `logDirWalkFunc` reads. -/
structure FileInfo where
  IsDir : Bool
deriving DecidableEq, Repr

/-- What a call of `logDirWalkFunc` that returns leaves: the specified set, the errors it
logged with `LogError`, the handles it marked transient, and the error it returned to
`filepath.Walk`. -/
structure WalkResult where
  specified : GoMap LogstreamerEntry
  logged : List String
  transient : List InputRunner
  ret : Option String
deriving DecidableEq, Repr

/-- The text of a `LoadFileError`, as `fmt.Errorf` prints it. -/
def LoadFileError.text : LoadFileError → String
  | LoadFileError.decode err => err
  | LoadFileError.noSection => "No `LogstreamerInput` section."
  | LoadFileError.makerFailed err => "can't create plugin maker: " ++ err

/-- `logDirWalkFunc` (lines 221-273); `none` is the panic of `loadLogstreamerFile` at
line 239, which nothing recovers. -/
def logDirWalkFunc (world : ScanWorld) (specified : GoMap LogstreamerEntry) (path : String)
    (info : Option FileInfo) (err : Option String) : Option WalkResult :=
  match err with
  | some e =>
    some { specified := specified, logged := ["walking '" ++ path ++ "': " ++ e],
           transient := [], ret := none }
  | none =>
    match info with
    | none => some { specified := specified, logged := [], transient := [], ret := none }
    | some fi =>
      if fi.IsDir || decide (Ext path ≠ ".toml") then
        some { specified := specified, logged := [], transient := [], ret := none }
      else
        match loadLogstreamerFile world path with
        | none => none
        | some (Except.error e) =>
          some { specified := specified
                 logged := ["loading logstreamer file '" ++ path ++ "': " ++ e.text]
                 transient := [], ret := none }
        | some (Except.ok maker) =>
          match world.OrigPrepConfig maker with
          | Except.error e =>
            some { specified := specified, logged := ["prepping config: " ++ e],
                   transient := [], ret := none }
          | Except.ok config =>
            match world.MakeRunner { maker with prepConfigSet := true } with
            | Except.error e =>
              some { specified := specified, logged := ["making runner: " ++ e],
                     transient := [], ret := none }
            | Except.ok runner =>
              some { specified := mapSet specified path
                       { ir := runner, config := config, fileName := path }
                     logged := [], transient := [runner], ret := none }

/-- One node `filepath.Walk` visits: its path, its file info and the error of the walk
step. -/
structure WalkNode where
  path : String
  info : Option FileInfo
  err : Option String

/-- The specified set after `filepath.Walk` has called `logDirWalkFunc` on the nodes it
visits, in order, from the specified set `specified`; `none` when one of the calls
panics. -/
def walkNodes (world : ScanWorld) : List WalkNode → GoMap LogstreamerEntry →
    Option (GoMap LogstreamerEntry)
  | [], specified => some specified
  | node :: rest, specified =>
    match logDirWalkFunc world specified node.path node.info node.err with
    | none => none
    | some res => walkNodes world rest res.specified

/-- The sections of the sample file `a.toml`: a `TokenSplitter` section named `lines` and a
`LogstreamerInput` section named `syslog`. -/
def sampleSections : GoMap Primitive :=
  [("lines", { id := 1, makerName := "lines", makerType := "TokenSplitter",
               makerCategory := "Splitter" }),
   ("syslog", { id := 2, makerName := "syslog", makerType := "LogstreamerInput",
                makerCategory := "Input" })]

/-- The sections of the sample file `c.toml`: one section `hekad`, which declares no type
of its own, so that its type is its name; no plugin type `hekad` is registered with the
host. -/
def hekadSections : GoMap Primitive :=
  [("hekad", { id := 3, makerName := "hekad", makerType := "hekad", makerCategory := "" })]

/-- The sections of the sample file `d.toml`: the `hekad` section and a `LogstreamerInput`
section named `syslog`. -/
def mixedSections : GoMap Primitive :=
  [("syslog", { id := 2, makerName := "syslog", makerType := "LogstreamerInput",
                makerCategory := "Input" }),
   ("hekad", { id := 3, makerName := "hekad", makerType := "hekad", makerCategory := "" })]

/-- A scan world with the files `a.toml`, `c.toml` and `d.toml` in `logstreamers.d`; the
host makes a maker for every section but those of type `hekad`, and every runner is
made. -/
def sampleWorld : ScanWorld :=
  { DecodeFile := fun path =>
      if path = "logstreamers.d/a.toml" then Except.ok sampleSections
      else if path = "logstreamers.d/c.toml" then Except.ok hekadSections
      else if path = "logstreamers.d/d.toml" then Except.ok mixedSections
      else Except.error "open: no such file"
    NewPluginMaker := fun _ _ conf =>
      if conf.makerType = "hekad" then some "No registered plugin type: hekad" else none
    OrigPrepConfig := fun _ => Except.ok zeroConfig
    MakeRunner := fun maker => Except.ok { id := 11, Name := maker.name } }

/-! ## What a pass without conflict does to each specified entry -/

/-- Whether line 196 lets the entry running under the key of `p` keep running. -/
def keepsRunning (running : GoMap LogstreamerEntry) (p : String × LogstreamerEntry) : Bool :=
  match mapGet running p.1 with
  | some e => equalsAccepts e.config p.2.config && decide (e.ir.Name = p.2.ir.Name)
  | none => false

/-- The handle stopped on behalf of the specified entry `p` (lines 201-203). -/
def stoppedFor (running : GoMap LogstreamerEntry) (p : String × LogstreamerEntry) :
    List InputRunner :=
  match mapGet running p.1 with
  | some e => if keepsRunning running p then [] else [e.ir]
  | none => []

/-- The handle passed to `AddInputRunner` on behalf of the specified entry `p` (line
207). -/
def startedFor (running : GoMap LogstreamerEntry) (p : String × LogstreamerEntry) :
    List InputRunner :=
  if keepsRunning running p then [] else [p.2.ir]

/-- The entry left under the key of the specified entry `p`, on a host that answers
`AddInputRunner` by the handle alone. -/
def settledEntry (host : InputRunner → Option String) (running : GoMap LogstreamerEntry)
    (p : String × LogstreamerEntry) : Option LogstreamerEntry :=
  if keepsRunning running p then mapGet running p.1
  else
    match host p.2.ir with
    | none => some p.2
    | some _ => none

/-- The frame `fr` of the reconcile loop after the entries `done` were visited without
conflict from the frame `start`, on a host that answers by the handle alone: under each
visited key lies the settled entry, the other keys are untouched, and the handles stopped
and started are those of the visited entries, in order. -/
def Settled (host : InputRunner → Option String) (start : Frame)
    (done : GoMap LogstreamerEntry) (fr : Frame) : Prop :=
  fr.dups = false ∧ mapWF fr.inputs ∧
  (∀ p ∈ done, mapGet fr.inputs p.1 = settledEntry host start.inputs p) ∧
  (∀ k, k ∉ mapKeys done → mapGet fr.inputs k = mapGet start.inputs k) ∧
  removedRunners fr.calls =
    removedRunners start.calls ++ done.flatMap (stoppedFor start.inputs) ∧
  addedRunners fr.calls = addedRunners start.calls ++ done.flatMap (startedFor start.inputs)

/-- Three files: `b.toml` declares `B`; `a.toml` and `other.toml` both declare `A`.
`b.toml` is visited first. -/
def conflictLastPass : PassEnv :=
  { walked := [("b.toml", mkEntry 5 "B" "b.toml" zeroConfig),
               ("a.toml", mkEntry 1 "A" "a.toml" zeroConfig),
               ("other.toml", mkEntry 4 "A" "other.toml" zeroConfig)]
    walkErr := none
    AddInputRunner := fun _ _ => none
    order := listOrder }

/-- The same three files, `b.toml` visited last. -/
def conflictFirstPass : PassEnv :=
  { walked := [("a.toml", mkEntry 1 "A" "a.toml" zeroConfig),
               ("other.toml", mkEntry 4 "A" "other.toml" zeroConfig),
               ("b.toml", mkEntry 5 "B" "b.toml" zeroConfig)]
    walkErr := none
    AddInputRunner := fun _ _ => none
    order := listOrder }

/-- The pass of `rejectsAPass` with its two files visited in the other order. -/
def rejectsAPassSwapped : PassEnv :=
  { walked := [("b.toml", mkEntry 5 "B" "b.toml" longTable),
               ("a.toml", mkEntry 1 "A" "a.toml" zeroConfig)]
    walkErr := none
    AddInputRunner := fun _ ir => if ir.Name = "A" then some "rejected" else none
    order := listOrder }

/-- The host of `rejectsAPass`: it rejects the handles named `A`. -/
def rejectsA (ir : InputRunner) : Option String :=
  if ir.Name = "A" then some "rejected" else none

/-- A running set holding worker `B`, loaded from `b.toml` with the zero
configuration. -/
def runningB : GoMap LogstreamerEntry := [("b.toml", mkEntry 9 "B" "b.toml" zeroConfig)]

/-- A pass in which `new.toml` declares `A` with a priority list and `other.toml`, visited
first, declares `A` too. -/
def updateWithDuplicatePass : PassEnv :=
  { walked := [("other.toml", mkEntry 4 "A" "other.toml" zeroConfig),
               ("new.toml", mkEntry 7 "A" "new.toml" withPriority)]
    walkErr := none
    AddInputRunner := fun _ _ => none
    order := listOrder }

/-- The two files of `updateWithDuplicatePass`, `new.toml` visited first. -/
def updateThenDuplicatePass : PassEnv :=
  { walked := [("new.toml", mkEntry 7 "A" "new.toml" withPriority),
               ("other.toml", mkEntry 4 "A" "other.toml" zeroConfig)]
    walkErr := none
    AddInputRunner := fun _ _ => none
    order := listOrder }

/-- A pass in which `new.toml` declares `A` with its configuration unchanged and
`other.toml`, visited first, declares `A` too. -/
def unchangedWithDuplicatePass : PassEnv :=
  { walked := [("other.toml", mkEntry 4 "A" "other.toml" zeroConfig),
               ("new.toml", mkEntry 8 "A" "new.toml" zeroConfig)]
    walkErr := none
    AddInputRunner := fun _ _ => none
    order := listOrder }

/-- A pass in which `new.toml` declares `A` with a priority list, between two files that
declare the workers `B` and `C`. -/
def updateAmongOthersPass : PassEnv :=
  { walked := [("b.toml", mkEntry 5 "B" "b.toml" zeroConfig),
               ("new.toml", mkEntry 7 "A" "new.toml" withPriority),
               ("c.toml", mkEntry 6 "C" "c.toml" longTable)]
    walkErr := none
    AddInputRunner := fun _ _ => none
    order := listOrder }

/-- A pass in which `new.toml` declares `A` with its configuration unchanged and `b.toml`
declares another worker, `B`. -/
def unchangedAmongOthersPass : PassEnv :=
  { walked := [("b.toml", mkEntry 5 "B" "b.toml" zeroConfig),
               ("new.toml", mkEntry 8 "A" "new.toml" zeroConfig)]
    walkErr := none
    AddInputRunner := fun _ _ => none
    order := listOrder }

/-- The frame of a pass in which the entry `old`, running under `file`, was kept: no
handle was stopped, every handle passed to `AddInputRunner` is that of an entry of
`others` stored under another key, and `old` is still running under `file`. -/
def KeptRunning (file : String) (old : LogstreamerEntry) (others : GoMap LogstreamerEntry)
    (fr : Frame) : Prop :=
  removedRunners fr.calls = [] ∧
  (∀ ir ∈ addedRunners fr.calls, ∃ q ∈ others, q.1 ≠ file ∧ q.2.ir = ir) ∧
  mapGet fr.inputs file = some old

/-- The frame of a pass in which the entry `old`, running under `file`, was replaced by
`new`: the only handle stopped is that of `old`, the calls hold the stop of `old`
followed at once by `AddInputRunner` on the handle of `new`, and `new` is running
under `file` if the host accepted that call. -/
def Replaced (file : String) (old new : LogstreamerEntry) (fr : Frame) : Prop :=
  removedRunners fr.calls = [old.ir] ∧
  ∃ pre post r,
    fr.calls = pre ++ [HostCall.RemoveInputRunner old.ir,
      HostCall.LogMessage ("Removed: " ++ file), HostCall.AddInputRunner new.ir r] ++ post ∧
    (r = none → mapGet fr.inputs file = some new)

/-- What the reconcile loop has reached, without conflict, after visiting the entries
`done` from the running set that holds only `old`, under `file`: the keys of the running
set are `file` and visited keys; before `file` is visited, and after it if line 196
accepts `new` against `old`, `old` was kept; otherwise `old` was replaced by `new`. -/
def UpdateReached (file : String) (old new : LogstreamerEntry)
    (done : GoMap LogstreamerEntry) (fr : Frame) : Prop :=
  fr.dups = false ∧ mapWF fr.inputs ∧
  (∀ k ∈ mapKeys fr.inputs, k = file ∨ k ∈ mapKeys done) ∧
  (file ∉ mapKeys done ∨ equalsAccepts old.config new.config = true →
    KeptRunning file old done fr) ∧
  (file ∈ mapKeys done → equalsAccepts old.config new.config = false →
    Replaced file old new fr)

/-! # Theorems -/

/-! ## Facts about `Equals` -/

theorem get?_append_length (pre : List String) (w : String) (ys : List String) :
    (pre ++ w :: ys).get? pre.length = some w := by
  induction pre with
  | nil => rfl
  | cons p pre ih => simpa using ih

theorem rangeCompare_append (xs : List String) :
    ∀ (pre ys : List String), ys.length = xs.length →
      rangeCompare (pre ++ ys) pre.length xs = some (decide (ys = xs)) := by
  induction xs with
  | nil =>
    intro pre ys h
    have : ys = [] := List.length_eq_zero.mp h
    subst this
    simp [rangeCompare]
  | cons v rest ih =>
    intro pre ys h
    cases ys with
    | nil => simp at h
    | cons w ys1 =>
      have hlen : ys1.length = rest.length := by simpa using h
      have hget : (pre ++ w :: ys1).get? pre.length = some w := get?_append_length pre w ys1
      have hstep := ih (pre ++ [w]) ys1 hlen
      simp only [List.append_assoc, List.singleton_append, List.length_append,
        List.length_singleton] at hstep
      by_cases hwv : w = v
      · subst hwv
        rw [rangeCompare, hget]
        simp [hstep]
      · rw [rangeCompare, hget]
        simp [hwv]

theorem rangeCompare_zero (other xs : List String) (h : xs.length = other.length) :
    rangeCompare other 0 xs = some (decide (other = xs)) := by
  simpa using rangeCompare_append xs [] other h.symm

theorem Equals_eq (a b : LogstreamerInputConfig) : Equals a b = some (equalsAccepts a b) := by
  unfold Equals equalsAccepts
  by_cases h1 : a.Hostname = b.Hostname <;> simp only [h1, ne_eq, not_true_eq_false, not_false_eq_true, if_true, if_false, decide_True, decide_False, Bool.true_and, Bool.false_and]
  by_cases h2 : a.LogDirectory = b.LogDirectory <;> simp only [h2, ne_eq, not_true_eq_false, not_false_eq_true, if_true, if_false, decide_True, decide_False, Bool.true_and, Bool.false_and]
  by_cases h3 : a.JournalDirectory = b.JournalDirectory <;> simp only [h3, ne_eq, not_true_eq_false, not_false_eq_true, if_true, if_false, decide_True, decide_False, Bool.true_and, Bool.false_and]
  by_cases h4 : a.FileMatch = b.FileMatch <;> simp only [h4, ne_eq, not_true_eq_false, not_false_eq_true, if_true, if_false, decide_True, decide_False, Bool.true_and, Bool.false_and]
  by_cases h5 : a.Priority.length = b.Priority.length
  swap
  · have : a.Priority ≠ b.Priority := fun h => h5 (by rw [h])
    simp [h5, this]
  rw [rangeCompare_zero _ _ h5]
  by_cases h6 : b.Priority = a.Priority
  swap
  · have : a.Priority ≠ b.Priority := fun h => h6 h.symm
    simp [h5, h6, this]
  by_cases h7 : a.Differentiator.length = b.Differentiator.length
  swap
  · have : a.Differentiator ≠ b.Differentiator := fun h => h7 (by rw [h])
    simp [h5, h6, h7, this]
  rw [rangeCompare_zero _ _ h7]
  by_cases h8 : b.Differentiator = a.Differentiator
  swap
  · have : a.Differentiator ≠ b.Differentiator := fun h => h8 h.symm
    simp [h5, h6, h7, h8, this]
  simp only [h5, h6, h7, h8, ne_eq, not_true_eq_false, if_false, decide_True, Bool.true_and]
  by_cases h9 : a.Translation.length = b.Translation.length <;> simp only [h9, ne_eq, not_true_eq_false, not_false_eq_true, if_true, if_false, decide_True, decide_False, Bool.true_and, Bool.false_and]
  cases h10 : translationLoop a.Translation b.Translation <;> simp only [if_true, if_false, Bool.true_and, Bool.false_and]
  split_ifs <;> simp_all

/-! ## Equals against structural equality -/

/-- C1, on the code: `Equals` is not structural equality.  The running table maps `Month`
to `{Jan: 1}`, the other one maps `Month` to `{Jan: 1, Feb: 2}`; both are well-formed Go
maps with one outer key.  The loop of lines 75-81 only looks up the keys of the running
table in the other one, so `Equals` returns `true`, although the inner keys differ. -/
theorem Equals_accepts_grown_translation :
    translationWF shortTable.Translation ∧ translationWF longTable.Translation ∧
    Equals shortTable longTable = some true ∧
    StructurallyEqual shortTable longTable = false := by
  decide

/-! ## Registration failures -/

/-- C2, on the code: a failed `AddInputRunner` leaks into the result of `loadInputs`.
From the empty running set, with one file declaring `A` and a host that rejects the
registration, no conflict is detected (`dups` stays `false`), the entry is left out of
the running set and the failure is logged, but the named result `err` assigned at line
207 is what the bare `return` of line 214 returns. -/
theorem loadInputs_returns_registration_error :
    (loadInputs rejectingPass Init).err = some "out of resources" ∧
    (loadInputs rejectingPass Init).dups = false ∧
    (loadInputs rejectingPass Init).panicked = false ∧
    (loadInputs rejectingPass Init).lsdi.inputs = [] ∧
    (loadInputs rejectingPass Init).calls =
      [HostCall.AddInputRunner { id := 1, Name := "A" } (some "out of resources"),
       HostCall.LogError "creating input 'a.toml': out of resources"] := by
  decide

/-! ## The retry policy installed by the hook -/

/-- C7, counterexample: a configuration that specified its own retry policy
(`5s`, `1s`, 3 retries) does not keep it; the hook returns the managed policy. -/
theorem prepCommonTypedConfig_overwrites_user_retries :
    prepCommonTypedConfig (Except.ok userRetries) =
      Except.ok { userRetries with Retries := managedRetries } ∧
    userRetries.Retries ≠ managedRetries :=
  ⟨rfl, by decide⟩

/-- C7, amended: whatever the original preparation step returned, the hook returns a
configuration whose `Retries` is `{MaxDelay "30s", Delay "250ms", MaxRetries -1}`; this
holds whether or not the configuration specified retry settings.  When the original
preparation step fails, the hook returns that error. -/
theorem prepCommonTypedConfig_retries {ρ : Type} (c : CommonInputConfig ρ) (e : String) :
    (∃ c1, prepCommonTypedConfig (Except.ok c) = Except.ok c1 ∧
      c1.Retries = { MaxDelay := "30s", Delay := "250ms", MaxJitter := "", MaxRetries := -1 }) ∧
    prepCommonTypedConfig (Except.error e : Except String (CommonInputConfig ρ)) =
      Except.error e := by
  refine ⟨?_, rfl⟩
  unfold prepCommonTypedConfig
  by_cases h : c.CanExit = none <;> simp [h]

/-! ## Facts about Go maps -/

theorem mem_mapDelete {β : Type} {m : GoMap β} {k : String} {p : String × β} :
    p ∈ mapDelete m k ↔ p ∈ m ∧ p.1 ≠ k := by
  simp [mapDelete]

theorem mapDelete_sublist {β : Type} (m : GoMap β) (k : String) :
    (mapDelete m k).Sublist m := by
  unfold mapDelete
  exact List.filter_sublist m

theorem mapWF_mapDelete {β : Type} {m : GoMap β} (h : mapWF m) (k : String) :
    mapWF (mapDelete m k) := by
  unfold mapWF mapKeys at *
  exact h.sublist ((mapDelete_sublist m k).map Prod.fst)

theorem not_mem_mapKeys_mapDelete {β : Type} (m : GoMap β) (k : String) :
    k ∉ mapKeys (mapDelete m k) := by
  simp [mapKeys, mapDelete]

theorem mapWF_mapSet {β : Type} {m : GoMap β} (h : mapWF m) (k : String) (v : β) :
    mapWF (mapSet m k v) := by
  have h1 := mapWF_mapDelete h k
  have h2 := not_mem_mapKeys_mapDelete m k
  unfold mapWF mapKeys mapSet at *
  exact List.nodup_cons.mpr ⟨h2, h1⟩

theorem mapGet_eq_none_iff {β : Type} {m : GoMap β} {k : String} :
    mapGet m k = none ↔ k ∉ mapKeys m := by
  simp only [mapGet, mapKeys, Option.map_eq_none', List.find?_eq_none, List.mem_map, not_exists,
    not_and, decide_eq_true_eq, Prod.forall]

theorem mem_of_mapGet_eq_some {β : Type} {m : GoMap β} {k : String} {v : β}
    (h : mapGet m k = some v) : (k, v) ∈ m := by
  unfold mapGet at h
  rcases hf : m.find? (fun p => decide (p.1 = k)) with _ | p
  · simp [hf] at h
  · have hk := List.find?_some hf
    have hm := List.mem_of_find?_eq_some hf
    simp only [hf, Option.map_some', Option.some.injEq] at h
    simp only [decide_eq_true_eq] at hk
    have : p = (k, v) := by
      cases p
      simp_all
    exact this ▸ hm

theorem mapGet_eq_some_of_mem {β : Type} {m : GoMap β} (hwf : mapWF m) {k : String} {v : β}
    (h : (k, v) ∈ m) : mapGet m k = some v := by
  induction m with
  | nil => simp at h
  | cons p m ih =>
    unfold mapWF mapKeys at hwf
    simp only [List.map_cons, List.nodup_cons, List.mem_map, not_exists, not_and] at hwf
    rcases List.mem_cons.mp h with h1 | h1
    · subst h1
      simp [mapGet]
    · have hne : p.1 ≠ k := fun hpk => hwf.1 (k, v) h1 hpk.symm
      have := ih hwf.2 h1
      unfold mapGet at this ⊢
      simp only [List.find?_cons, hne, decide_False]
      exact this

theorem mapDelete_eq_self {β : Type} {m : GoMap β} {k : String} (h : k ∉ mapKeys m) :
    mapDelete m k = m := by
  unfold mapDelete
  rw [List.filter_eq_self]
  intro p hp
  have : p.1 ≠ k := fun hk => h (by rw [← hk]; exact List.mem_map_of_mem Prod.fst hp)
  simp [this]

theorem mapGet_cons {β : Type} (p : String × β) (m : GoMap β) (j : String) :
    mapGet (p :: m) j = if p.1 = j then some p.2 else mapGet m j := by
  unfold mapGet
  by_cases h : p.1 = j <;> simp [List.find?_cons, h]

theorem mapDelete_cons {β : Type} (p : String × β) (m : GoMap β) (k : String) :
    mapDelete (p :: m) k = if p.1 = k then mapDelete m k else p :: mapDelete m k := by
  unfold mapDelete
  by_cases h : p.1 = k <;> simp [List.filter_cons, h]

theorem mapGet_mapDelete_ne {β : Type} (m : GoMap β) {k j : String} (h : j ≠ k) :
    mapGet (mapDelete m k) j = mapGet m j := by
  induction m with
  | nil => rfl
  | cons p m ih =>
    rw [mapDelete_cons, mapGet_cons]
    by_cases hp : p.1 = k
    · have hj : p.1 ≠ j := fun hpj => h (hpj.symm.trans hp)
      have hkj : k ≠ j := fun e => h e.symm
      simp [hp, hkj, ih]
    · simp only [hp, if_false, mapGet_cons, ih]

theorem mapGet_mapDelete_self {β : Type} (m : GoMap β) (k : String) :
    mapGet (mapDelete m k) k = none :=
  mapGet_eq_none_iff.mpr (not_mem_mapKeys_mapDelete m k)

theorem mapGet_mapSet_self {β : Type} (m : GoMap β) (k : String) (v : β) :
    mapGet (mapSet m k v) k = some v := by
  simp [mapGet, mapSet]

theorem mapGet_mapSet_ne {β : Type} (m : GoMap β) {k j : String} (v : β) (h : j ≠ k) :
    mapGet (mapSet m k v) j = mapGet m j := by
  have hk : k ≠ j := fun e => h e.symm
  unfold mapSet
  rw [mapGet_cons]
  simp only [hk, if_false]
  exact mapGet_mapDelete_ne m h

theorem mem_mapKeys_iff {β : Type} {m : GoMap β} {k : String} :
    k ∈ mapKeys m ↔ ∃ v, (k, v) ∈ m := by
  simp [mapKeys]

/-! ## One iteration of the reconcile loop, case by case -/

theorem mem_conflictLoop {env : PassEnv} (hord : env.order.Valid) (name : String)
    (m : GoMap LogstreamerEntry) (p : String × LogstreamerEntry) :
    p ∈ env.order.conflictLoop name m ↔ p ∈ m :=
  (hord.2 name m).mem_iff

theorem startInput_cases (env : PassEnv) (name : String) (n : LogstreamerEntry) (fr : Frame) :
    (∃ e, env.AddInputRunner fr.calls n.ir = some e ∧
      startInput env name n fr =
        { fr with
          calls := fr.calls ++
            [HostCall.AddInputRunner n.ir (some e),
             HostCall.LogError ("creating input '" ++ name ++ "': " ++ e)]
          err := some e }) ∨
    (env.AddInputRunner fr.calls n.ir = none ∧
      startInput env name n fr =
        { fr with
          inputs := mapSet fr.inputs name n
          calls := fr.calls ++
            [HostCall.AddInputRunner n.ir none, HostCall.LogMessage ("Added: " ++ name)]
          err := none }) := by
  unfold startInput
  cases h : env.AddInputRunner fr.calls n.ir with
  | none => right; exact ⟨rfl, rfl⟩
  | some e => left; exact ⟨e, rfl, rfl⟩

theorem loopBody_cases {env : PassEnv} (hord : env.order.Valid) (name : String)
    (n : LogstreamerEntry) (fr : Frame) :
    (∃ p, p ∈ fr.inputs ∧ isDuplicate n p = true ∧
      loopBody env name n fr =
        (Flow.ret,
          { stopFrame fr p.1 p.2.ir with
            err := some (duplicateNameError p.2.ir.Name name), dups := true })) ∨
    ((∀ p ∈ fr.inputs, isDuplicate n p = false) ∧
      ((∃ e, mapGet fr.inputs name = some e ∧ equalsAccepts e.config n.config = true ∧
          e.ir.Name = n.ir.Name ∧ fr.dups = false ∧
          loopBody env name n fr = (Flow.next, fr)) ∨
       (∃ e, mapGet fr.inputs name = some e ∧
          ((equalsAccepts e.config n.config && decide (e.ir.Name = n.ir.Name)) &&
            !fr.dups) = false ∧
          loopBody env name n fr =
            (Flow.next, startInput env name n (stopFrame fr name e.ir))) ∨
       (mapGet fr.inputs name = none ∧
          loopBody env name n fr = (Flow.next, startInput env name n fr)))) := by
  unfold loopBody
  cases hf : (env.order.conflictLoop name fr.inputs).find? (isDuplicate n) with
  | some p =>
    left
    refine ⟨p, ?_, List.find?_some hf, rfl⟩
    exact (mem_conflictLoop hord name fr.inputs p).mp (List.mem_of_find?_eq_some hf)
  | none =>
    right
    refine ⟨?_, ?_⟩
    · intro p hp
      have := List.find?_eq_none.mp hf p ((mem_conflictLoop hord name fr.inputs p).mpr hp)
      simpa using this
    · cases hg : mapGet fr.inputs name with
      | none => right; right; exact ⟨rfl, rfl⟩
      | some e =>
        simp only [Equals_eq]
        cases hc : ((equalsAccepts e.config n.config && decide (e.ir.Name = n.ir.Name)) &&
            !fr.dups) with
        | false => right; left; exact ⟨e, rfl, hc, by simp [hc]⟩
        | true =>
          left
          have hc1 := hc
          simp only [Bool.and_eq_true, decide_eq_true_eq, Bool.not_eq_true'] at hc1
          exact ⟨e, rfl, hc1.1.1, hc1.1.2, hc1.2, by simp [hc]⟩

/-- The reconcile loop never panics: `Equals` always returns. -/
theorem loopBody_ne_panic {env : PassEnv} (name : String) (n : LogstreamerEntry) (fr : Frame) :
    (loopBody env name n fr).1 ≠ Flow.panic := by
  unfold loopBody
  cases (env.order.conflictLoop name fr.inputs).find? (isDuplicate n) with
  | some p => simp
  | none =>
    cases mapGet fr.inputs name with
    | none => simp
    | some e =>
      simp only [Equals_eq]
      split <;> simp

/-- Invariant rule for the loop of line 179: what every iteration preserves holds of the
frame the loop ends with, however it ends. -/
theorem specifiedLoop_induct (env : PassEnv) (P : Frame → Prop)
    (spec : List (String × LogstreamerEntry))
    (hstep : ∀ p ∈ spec, ∀ fr, P fr → P (loopBody env p.1 p.2 fr).2) :
    ∀ fr, P fr → P (specifiedLoop env spec fr).2 := by
  induction spec with
  | nil => intro fr h; exact h
  | cons p rest ih =>
    intro fr h
    have h1 := hstep p (List.mem_cons_self _ _) fr h
    obtain ⟨name, n⟩ := p
    unfold specifiedLoop
    rcases hb : loopBody env name n fr with ⟨flow, fr1⟩
    rw [hb] at h1
    cases flow with
    | next => exact ih (fun q hq => hstep q (List.mem_cons_of_mem _ hq)) fr1 h1
    | ret => exact h1
    | panic => exact h1

/-- Invariant rule for the loop of line 167. -/
theorem pruneLoop_induct (specified : GoMap LogstreamerEntry) (P : Frame → Prop)
    (todo : List (String × LogstreamerEntry))
    (hstep : ∀ p ∈ todo, ∀ fr, P fr → P (stopFrame fr p.1 p.2.ir)) :
    ∀ fr, P fr → P (pruneLoop specified todo fr) := by
  induction todo with
  | nil => intro fr h; exact h
  | cons p rest ih =>
    intro fr h
    obtain ⟨name, entry⟩ := p
    unfold pruneLoop
    cases mapGet specified name with
    | some _ => exact ih (fun q hq => hstep q (List.mem_cons_of_mem _ hq)) fr h
    | none =>
      exact ih (fun q hq => hstep q (List.mem_cons_of_mem _ hq)) _
        (hstep (name, entry) (List.mem_cons_self _ _) fr h)

/-! ## The prune step -/

theorem listOrder_valid : listOrder.Valid :=
  ⟨fun _ => List.Perm.refl _, fun _ _ => List.Perm.refl _⟩

theorem mem_mapKeys_cons {β : Type} (p : String × β) (m : GoMap β) (k : String) :
    k ∈ mapKeys (p :: m) ↔ k = p.1 ∨ k ∈ mapKeys m := by
  unfold mapKeys
  exact List.mem_cons

theorem mem_mapKeys_of_mapGet {β : Type} {m : GoMap β} {k : String} {v : β}
    (h : mapGet m k = some v) : k ∈ mapKeys m := by
  by_contra hne
  rw [mapGet_eq_none_iff.mpr hne] at h
  exact Option.noConfusion h

theorem pruneLoop_inputs (specified : GoMap LogstreamerEntry)
    (todo : List (String × LogstreamerEntry)) :
    ∀ fr, (pruneLoop specified todo fr).inputs =
      fr.inputs.filter (fun p => decide (p.1 ∈ mapKeys specified ∨ p.1 ∉ mapKeys todo)) := by
  induction todo with
  | nil => intro fr; simp [pruneLoop, mapKeys]
  | cons q rest ih =>
    intro fr
    obtain ⟨name, entry⟩ := q
    unfold pruneLoop
    cases hg : mapGet specified name with
    | some v =>
      have hin : name ∈ mapKeys specified := mem_mapKeys_of_mapGet hg
      simp only [ih]
      apply List.filter_congr
      intro p _
      apply decide_eq_decide.mpr
      rw [mem_mapKeys_cons]
      by_cases hp : p.1 = name
      · simp [hp, hin]
      · simp [hp]
    | none =>
      have hout : name ∉ mapKeys specified := mapGet_eq_none_iff.mp hg
      simp only [ih, stopFrame, mapDelete, List.filter_filter]
      apply List.filter_congr
      intro p _
      rw [Bool.eq_iff_iff]
      simp only [Bool.and_eq_true, decide_eq_true_eq, Bool.not_eq_true', decide_eq_false_iff_not,
        mem_mapKeys_cons]
      by_cases hp : p.1 = name
      · simp [hp, hout]
      · simp [hp]

theorem pruneLoop_removed (specified : GoMap LogstreamerEntry)
    (todo : List (String × LogstreamerEntry)) :
    ∀ fr, removedRunners (pruneLoop specified todo fr).calls =
      removedRunners fr.calls ++
        runners (todo.filter (fun p => decide (p.1 ∉ mapKeys specified))) := by
  induction todo with
  | nil => intro fr; simp [pruneLoop, runners]
  | cons q rest ih =>
    intro fr
    obtain ⟨name, entry⟩ := q
    unfold pruneLoop
    cases hg : mapGet specified name with
    | some v =>
      have hin : name ∈ mapKeys specified := mem_mapKeys_of_mapGet hg
      simp only [ih, List.filter_cons, hin, not_true_eq_false, decide_False,
        Bool.false_eq_true, if_false]
    | none =>
      have hout : name ∉ mapKeys specified := mapGet_eq_none_iff.mp hg
      simp only [ih, List.filter_cons, hout, not_false_eq_true, decide_True, if_true]
      simp [stopFrame, removedRunners, runners, List.filterMap_append]

theorem pruneLoop_added (specified : GoMap LogstreamerEntry)
    (todo : List (String × LogstreamerEntry)) (fr : Frame) :
    addedRunners (pruneLoop specified todo fr).calls = addedRunners fr.calls := by
  apply pruneLoop_induct specified (fun f => addedRunners f.calls = addedRunners fr.calls)
  · intro p _ f hf
    simp [stopFrame, addedRunners, List.filterMap_append] at hf ⊢
    exact hf
  · rfl

theorem prunePhase_inputs {env : PassEnv} (hord : env.order.Valid)
    (inputs : GoMap LogstreamerEntry) :
    (prunePhase env inputs).inputs =
      inputs.filter (fun p => decide (p.1 ∈ mapKeys env.walked)) := by
  have hperm := hord.1 inputs
  unfold prunePhase
  rw [pruneLoop_inputs]
  apply List.filter_congr
  intro p hp
  have : p.1 ∈ mapKeys (env.order.pruneLoop inputs) :=
    List.mem_map_of_mem Prod.fst (hperm.mem_iff.mpr hp)
  simp [entryFrame, this]

theorem prunePhase_locals (env : PassEnv) (inputs : GoMap LogstreamerEntry) :
    (prunePhase env inputs).dups = false ∧ (prunePhase env inputs).err = none := by
  unfold prunePhase
  apply pruneLoop_induct env.walked (fun f => f.dups = false ∧ f.err = none)
  · intro p _ f hf
    exact hf
  · exact ⟨rfl, rfl⟩

/-- C8, counterexample: the running set holds worker `A` loaded from `old.toml`; the scan
holds `new.toml`, which declares a worker with the same name `A`.  The prune step stops
and deletes the running `A`, although an entry of the specified set has its worker
name. -/
theorem prune_stops_worker_whose_name_is_specified :
    (∃ p ∈ runningOld, ∃ q ∈ movedFilePass.walked, q.2.ir.Name = p.2.ir.Name) ∧
    (prunePhase movedFilePass runningOld).inputs = [] ∧
    (prunePhase movedFilePass runningOld).calls =
      [HostCall.RemoveInputRunner { id := 1, Name := "A" },
       HostCall.LogMessage "Removed: old.toml"] := by
  decide

/-- C8, amended: the prune step matches by the key under which an entry is stored, which
is its file path.  For every running set, every specified set and every visiting order,
the running entries left by the prune step are exactly those whose key is a key of the
specified set, `RemoveInputRunner` is called exactly on the handles of the others, once
each, and the step makes no `AddInputRunner` call. -/
theorem prunePhase_by_key (env : PassEnv) (inputs : GoMap LogstreamerEntry)
    (hord : env.order.Valid) :
    (prunePhase env inputs).inputs =
      inputs.filter (fun p => decide (p.1 ∈ mapKeys env.walked)) ∧
    (removedRunners (prunePhase env inputs).calls).Perm
      (runners (inputs.filter (fun p => decide (p.1 ∉ mapKeys env.walked)))) ∧
    addedRunners (prunePhase env inputs).calls = [] := by
  have hperm := hord.1 inputs
  refine ⟨prunePhase_inputs hord inputs, ?_, ?_⟩
  · unfold prunePhase
    rw [pruneLoop_removed]
    simp only [entryFrame, removedRunners, List.filterMap_nil, List.nil_append, runners]
    exact (hperm.filter _).map _
  · unfold prunePhase
    rw [pruneLoop_added]
    rfl

/-- C8, witness: the amended statement at the moved-file pass. -/
theorem prunePhase_by_key_witness :
    listOrder.Valid ∧
    (prunePhase movedFilePass runningOld).inputs =
      runningOld.filter (fun p => decide (p.1 ∈ mapKeys movedFilePass.walked)) ∧
    (removedRunners (prunePhase movedFilePass runningOld).calls).Perm
      (runners (runningOld.filter (fun p => decide (p.1 ∉ mapKeys movedFilePass.walked)))) ∧
    addedRunners (prunePhase movedFilePass runningOld).calls = [] :=
  ⟨listOrder_valid, prunePhase_by_key movedFilePass runningOld listOrder_valid⟩

/-! ## Invariants I1 and I2 -/

theorem sound_mapDelete {m : GoMap LogstreamerEntry} (h : Sound m) (k : String) :
    Sound (mapDelete m k) := by
  obtain ⟨hwf, hfile, hnames⟩ := h
  refine ⟨mapWF_mapDelete hwf k, ?_, ?_⟩
  · intro p hp
    exact hfile p (mem_mapDelete.mp hp).1
  · unfold uniqueNames at *
    exact hnames.sublist ((mapDelete_sublist m k).map _)

theorem sound_mapSet {m : GoMap LogstreamerEntry} (h : Sound m) {k : String}
    {n : LogstreamerEntry} (hn : n.fileName = k)
    (hdup : ∀ p ∈ m, isDuplicate n p = false) : Sound (mapSet m k n) := by
  have hdel := sound_mapDelete h k
  obtain ⟨hwf, hfile, _⟩ := h
  refine ⟨mapWF_mapSet hwf k n, ?_, ?_⟩
  · intro p hp
    rcases List.mem_cons.mp hp with h1 | h1
    · subst h1; exact hn
    · exact hdel.2.1 p h1
  · unfold uniqueNames mapSet
    rw [List.map_cons, List.nodup_cons]
    refine ⟨?_, hdel.2.2⟩
    intro hmem
    obtain ⟨p, hp, hname⟩ := List.mem_map.mp hmem
    have hpm := mem_mapDelete.mp hp
    have hd := hdup p hpm.1
    have hfp := hfile p hpm.1
    simp only [isDuplicate, Bool.and_eq_false_imp, decide_eq_true_eq,
      decide_eq_false_iff_not, ne_eq, not_not] at hd
    have := hd hname.symm
    exact hpm.2 (by rw [← hfp, ← this, hn])

theorem sound_startInput (env : PassEnv) {name : String} {n : LogstreamerEntry} {fr : Frame}
    (h : Sound fr.inputs) (hn : n.fileName = name)
    (hdup : ∀ p ∈ fr.inputs, isDuplicate n p = false) :
    Sound (startInput env name n fr).inputs := by
  rcases startInput_cases env name n fr with ⟨e, _, heq⟩ | ⟨_, heq⟩
  · rw [heq]; exact h
  · rw [heq]; exact sound_mapSet h hn hdup

theorem loopBody_sound {env : PassEnv} (hord : env.order.Valid) {name : String}
    {n : LogstreamerEntry} (hn : n.fileName = name) {fr : Frame} (h : Sound fr.inputs) :
    Sound (loopBody env name n fr).2.inputs := by
  rcases loopBody_cases hord name n fr with
    ⟨p, _, _, heq⟩ | ⟨hdup, ⟨e, _, _, _, _, heq⟩ | ⟨e, _, _, heq⟩ | ⟨_, heq⟩⟩
  · rw [heq]; exact sound_mapDelete h p.1
  · rw [heq]; exact h
  · rw [heq]
    apply sound_startInput env (sound_mapDelete h name) hn
    intro p hp
    exact hdup p (mem_mapDelete.mp hp).1
  · rw [heq]; exact sound_startInput env h hn hdup

theorem hostRegistry_append (registry : List InputRunner) (a b : List HostCall) :
    hostRegistry registry (a ++ b) = hostRegistry (hostRegistry registry a) b := by
  unfold hostRegistry
  exact List.foldl_append _ _ _ _

theorem runners_mapDelete_perm {m : GoMap LogstreamerEntry} (hwf : mapWF m) {k : String}
    {e : LogstreamerEntry} (h : (k, e) ∈ m) :
    (runners (mapDelete m k)).Perm ((runners m).erase e.ir) := by
  induction m with
  | nil => simp at h
  | cons p m ih =>
    have hwf1 : k ∈ mapKeys m → p.1 ≠ k := by
      intro hk hpk
      unfold mapWF mapKeys at hwf
      rw [List.map_cons, List.nodup_cons] at hwf
      exact hwf.1 (hpk ▸ hk)
    have hwf2 : mapWF m := by
      unfold mapWF mapKeys at hwf ⊢
      rw [List.map_cons, List.nodup_cons] at hwf
      exact hwf.2
    rw [mapDelete_cons]
    by_cases hpk : p.1 = k
    · have hnot : k ∉ mapKeys m := fun hk => hwf1 hk hpk
      have hpe : p = (k, e) := by
        rcases List.mem_cons.mp h with h1 | h1
        · exact h1.symm
        · exact absurd (mem_mapKeys_iff.mpr ⟨e, h1⟩) hnot
      subst hpe
      simp [mapDelete_eq_self hnot, runners]
    · have hmem : (k, e) ∈ m := by
        rcases List.mem_cons.mp h with h1 | h1
        · exact absurd (by rw [← h1]) hpk
        · exact h1
      have ih1 := ih hwf2 hmem
      simp only [hpk, if_false]
      unfold runners at *
      rw [List.map_cons, List.map_cons]
      by_cases hir : p.2.ir = e.ir
      · rw [hir, List.erase_cons_head]
        have hin : e.ir ∈ m.map (fun p => p.2.ir) := List.mem_map.mpr ⟨(k, e), hmem, rfl⟩
        exact ((List.Perm.cons e.ir ih1).trans (List.perm_cons_erase hin).symm)
      · rw [List.erase_cons_tail (by simpa using hir)]
        exact List.Perm.cons _ ih1

theorem registry_stopFrame {registry : List InputRunner} {fr : Frame} (hwf : mapWF fr.inputs)
    {k : String} {e : LogstreamerEntry} (h : (k, e) ∈ fr.inputs)
    (hreg : RegistryMatches registry fr) : RegistryMatches registry (stopFrame fr k e.ir) := by
  unfold RegistryMatches at *
  simp only [stopFrame, hostRegistry_append]
  have : hostRegistry (hostRegistry registry fr.calls)
      [HostCall.RemoveInputRunner e.ir, HostCall.LogMessage ("Removed: " ++ k)] =
      (hostRegistry registry fr.calls).erase e.ir := rfl
  rw [this]
  exact (hreg.erase e.ir).trans (runners_mapDelete_perm hwf h).symm

theorem registry_startInput (env : PassEnv) {registry : List InputRunner} {fr : Frame}
    {name : String} (n : LogstreamerEntry) (hnone : mapGet fr.inputs name = none)
    (hreg : RegistryMatches registry fr) :
    RegistryMatches registry (startInput env name n fr) := by
  unfold RegistryMatches at *
  rcases startInput_cases env name n fr with ⟨e, _, heq⟩ | ⟨_, heq⟩
  · rw [heq]
    simp only [hostRegistry_append]
    exact hreg
  · rw [heq]
    simp only [hostRegistry_append]
    have : hostRegistry (hostRegistry registry fr.calls)
        [HostCall.AddInputRunner n.ir none, HostCall.LogMessage ("Added: " ++ name)] =
        n.ir :: hostRegistry registry fr.calls := rfl
    rw [this]
    unfold mapSet
    rw [mapDelete_eq_self (mapGet_eq_none_iff.mp hnone)]
    exact List.Perm.cons _ hreg

theorem loopBody_registry {env : PassEnv} (hord : env.order.Valid) (name : String)
    (n : LogstreamerEntry) {registry : List InputRunner} {fr : Frame} (hwf : mapWF fr.inputs)
    (hreg : RegistryMatches registry fr) :
    RegistryMatches registry (loopBody env name n fr).2 := by
  rcases loopBody_cases hord name n fr with
    ⟨p, hp, _, heq⟩ | ⟨_, ⟨e, _, _, _, _, heq⟩ | ⟨e, hget, _, heq⟩ | ⟨hget, heq⟩⟩
  · rw [heq]
    exact registry_stopFrame hwf hp hreg
  · rw [heq]; exact hreg
  · rw [heq]
    apply registry_startInput env n
    · exact mapGet_mapDelete_self fr.inputs name
    · exact registry_stopFrame hwf (mem_of_mapGet_eq_some hget) hreg
  · rw [heq]; exact registry_startInput env n hget hreg

theorem pruneLoop_invariants (specified : GoMap LogstreamerEntry)
    (registry : List InputRunner) (todo : List (String × LogstreamerEntry)) :
    ∀ fr, (mapKeys todo).Nodup → (∀ p ∈ todo, p ∈ fr.inputs) → Sound fr.inputs →
      RegistryMatches registry fr →
      Sound (pruneLoop specified todo fr).inputs ∧
        RegistryMatches registry (pruneLoop specified todo fr) := by
  induction todo with
  | nil => intro fr _ _ hs hr; exact ⟨hs, hr⟩
  | cons q rest ih =>
    intro fr hnd hmem hs hr
    obtain ⟨name, entry⟩ := q
    have hnd1 : name ∉ mapKeys rest ∧ (mapKeys rest).Nodup := by
      unfold mapKeys at hnd ⊢
      rw [List.map_cons, List.nodup_cons] at hnd
      exact hnd
    unfold pruneLoop
    cases mapGet specified name with
    | some _ =>
      exact ih fr hnd1.2 (fun p hp => hmem p (List.mem_cons_of_mem _ hp)) hs hr
    | none =>
      apply ih _ hnd1.2
      · intro p hp
        apply mem_mapDelete.mpr
        refine ⟨hmem p (List.mem_cons_of_mem _ hp), ?_⟩
        intro hpn
        exact hnd1.1 (hpn ▸ List.mem_map_of_mem Prod.fst hp)
      · exact sound_mapDelete hs name
      · exact registry_stopFrame hs.1 (hmem (name, entry) (List.mem_cons_self _ _)) hr

theorem prunePhase_invariants {env : PassEnv} (hord : env.order.Valid)
    {inputs : GoMap LogstreamerEntry} {registry : List InputRunner} (hs : Sound inputs)
    (hr : registry.Perm (runners inputs)) :
    Sound (prunePhase env inputs).inputs ∧ RegistryMatches registry (prunePhase env inputs) := by
  unfold prunePhase
  have hperm := hord.1 inputs
  apply pruneLoop_invariants
  · have : (mapKeys (env.order.pruneLoop inputs)).Perm (mapKeys inputs) := hperm.map _
    exact this.nodup_iff.mpr hs.1
  · intro p hp
    exact hperm.mem_iff.mp hp
  · exact hs
  · exact hr

theorem specifiedLoop_invariants {env : PassEnv} (hord : env.order.Valid)
    (registry : List InputRunner) (spec : List (String × LogstreamerEntry))
    (hfile : filedByPath spec) (fr : Frame) (hs : Sound fr.inputs)
    (hr : RegistryMatches registry fr) :
    Sound (specifiedLoop env spec fr).2.inputs ∧
      RegistryMatches registry (specifiedLoop env spec fr).2 := by
  apply specifiedLoop_induct env (fun f => Sound f.inputs ∧ RegistryMatches registry f) spec
  · intro p hp f hf
    exact ⟨loopBody_sound hord (hfile p hp) hf.1, loopBody_registry hord p.1 p.2 hf.1.1 hf.2⟩
  · exact ⟨hs, hr⟩

theorem filedByPath_take {m : GoMap LogstreamerEntry} (h : filedByPath m) (k : Nat) :
    filedByPath (m.take k) :=
  fun p hp => h p (List.mem_of_mem_take hp)

theorem loadInputs_invariants {env : PassEnv} (hord : env.order.Valid)
    (hfile : filedByPath env.walked) {lsdi : LogstreamerDirectoryInput}
    {registry : List InputRunner} (hs : Sound lsdi.inputs)
    (hr : registry.Perm (runners lsdi.inputs)) :
    Sound (loadInputs env lsdi).lsdi.inputs ∧
      (hostRegistry registry (loadInputs env lsdi).calls).Perm
        (runners (loadInputs env lsdi).lsdi.inputs) := by
  unfold loadInputs
  cases env.walkErr with
  | some e => exact ⟨hs, hr⟩
  | none =>
    have hp := prunePhase_invariants hord hs hr
    exact specifiedLoop_invariants hord registry env.walked hfile _ hp.1 hp.2

theorem runPasses_invariants (envs : List PassEnv) :
    ∀ (s : LogstreamerDirectoryInput × List InputRunner),
      (∀ e ∈ envs, filedByPath e.walked) → (∀ e ∈ envs, e.order.Valid) →
      Sound s.1.inputs → s.2.Perm (runners s.1.inputs) →
      Sound (runPasses envs s).1.inputs ∧
        (runPasses envs s).2.Perm (runners (runPasses envs s).1.inputs) := by
  induction envs with
  | nil => intro s _ _ hs hr; exact ⟨hs, hr⟩
  | cons env rest ih =>
    intro s hfile hord hs hr
    unfold runPasses
    have h1 := loadInputs_invariants (hord env (List.mem_cons_self _ _))
      (hfile env (List.mem_cons_self _ _)) hs hr
    exact ih _ (fun e he => hfile e (List.mem_cons_of_mem _ he))
      (fun e he => hord e (List.mem_cons_of_mem _ he)) h1.1 h1.2

theorem sound_Init : Sound Init.inputs := by decide

/-- The loop of line 179 is sequential: visiting `a ++ b` is visiting `a` and, when that
ran to its end, visiting `b` from the frame it left. -/
theorem specifiedLoop_append (env : PassEnv) (a b : List (String × LogstreamerEntry)) :
    ∀ fr, specifiedLoop env (a ++ b) fr =
      match specifiedLoop env a fr with
      | (Flow.next, fr1) => specifiedLoop env b fr1
      | stopped => stopped := by
  induction a with
  | nil => intro fr; simp [specifiedLoop]
  | cons p rest ih =>
    intro fr
    obtain ⟨name, n⟩ := p
    simp only [List.cons_append, specifiedLoop]
    rcases hb : loopBody env name n fr with ⟨flow, fr1⟩
    cases flow <;> simp [ih]

/-- C4: invariant I1 holds in every reachable state.  From the empty running set of
`Init`, after any sequence of passes whose scan results store each entry under its own
file path, whatever the visiting orders of the maps and the answers of the host: no two
entries of the running set have the same worker name after the sequence, after any
number `k` of iterations of the reconcile loop of one more pass (so after each single
insertion), and after that pass, whether or not it returned an error. -/
theorem uniqueNames_reachable (envs : List PassEnv) (env : PassEnv) (k : Nat)
    (hfile : ∀ e ∈ env :: envs, filedByPath e.walked)
    (hord : ∀ e ∈ env :: envs, e.order.Valid) :
    uniqueNames (runPasses envs (Init, [])).1.inputs ∧
    uniqueNames (specifiedLoop env (env.walked.take k)
      (prunePhase env (runPasses envs (Init, [])).1.inputs)).2.inputs ∧
    uniqueNames (loadInputs env (runPasses envs (Init, [])).1).lsdi.inputs := by
  have h0 := runPasses_invariants envs (Init, [])
    (fun e he => hfile e (List.mem_cons_of_mem _ he))
    (fun e he => hord e (List.mem_cons_of_mem _ he)) sound_Init (List.Perm.refl _)
  have hv := hord env (List.mem_cons_self _ _)
  have hf := hfile env (List.mem_cons_self _ _)
  have hp : Sound (prunePhase env (runPasses envs (Init, [])).1.inputs).inputs ∧
      RegistryMatches (runPasses envs (Init, [])).2
        (prunePhase env (runPasses envs (Init, [])).1.inputs) :=
    prunePhase_invariants hv h0.1 h0.2
  refine ⟨h0.1.2.2, ?_, ?_⟩
  · exact (specifiedLoop_invariants hv _ _ (filedByPath_take hf k) _ hp.1 hp.2).1.2.2
  · exact (loadInputs_invariants hv hf h0.1 h0.2).1.2.2

/-- C4, witness: the invariant after the two sample passes and at every stage of a third
pass that adds a second worker. -/
theorem uniqueNames_reachable_witness :
    (∀ e ∈ twoWorkersPass :: samplePasses, filedByPath e.walked) ∧
    (∀ e ∈ twoWorkersPass :: samplePasses, e.order.Valid) ∧
    uniqueNames (runPasses samplePasses (Init, [])).1.inputs ∧
    uniqueNames (specifiedLoop twoWorkersPass (twoWorkersPass.walked.take 1)
      (prunePhase twoWorkersPass (runPasses samplePasses (Init, [])).1.inputs)).2.inputs ∧
    uniqueNames (loadInputs twoWorkersPass (runPasses samplePasses (Init, [])).1).lsdi.inputs :=
  have hfile : ∀ e ∈ twoWorkersPass :: samplePasses, filedByPath e.walked := by
    intro e he
    simp only [samplePasses, List.mem_cons, List.mem_singleton, List.not_mem_nil, or_false] at he
    rcases he with rfl | rfl | rfl <;> decide
  have hord : ∀ e ∈ twoWorkersPass :: samplePasses, e.order.Valid := by
    intro e he
    simp only [samplePasses, List.mem_cons, List.mem_singleton, List.not_mem_nil, or_false] at he
    rcases he with rfl | rfl | rfl <;> exact listOrder_valid
  ⟨hfile, hord, uniqueNames_reachable samplePasses twoWorkersPass 1 hfile hord⟩

/-- C5: invariant I2 over the explicit host registry.  From the empty running set and the
empty registry, after any sequence of passes (each returning nil or an error) whose scan
results store each entry under its own file path, the handles registered and not yet
removed are exactly the handles of the running entries, one for one, and none is
registered twice. -/
theorem registry_matches_running (envs : List PassEnv)
    (hfile : ∀ e ∈ envs, filedByPath e.walked) (hord : ∀ e ∈ envs, e.order.Valid) :
    (runPasses envs (Init, [])).2.Perm (runners (runPasses envs (Init, [])).1.inputs) ∧
    (runPasses envs (Init, [])).2.Nodup := by
  have h0 := runPasses_invariants envs (Init, []) hfile hord sound_Init (List.Perm.refl _)
  refine ⟨h0.2, h0.2.nodup_iff.mpr ?_⟩
  have hn := h0.1.2.2
  unfold uniqueNames at hn
  unfold runners
  have hmap : (runPasses envs (Init, [])).1.inputs.map (fun p => p.2.ir.Name) =
      ((runPasses envs (Init, [])).1.inputs.map (fun p => p.2.ir)).map InputRunner.Name := by
    rw [List.map_map]; rfl
  rw [hmap] at hn
  exact List.Nodup.of_map _ hn

/-- C5, witness: the registry after the two sample passes followed by the two-worker
pass. -/
theorem registry_matches_running_witness :
    (∀ e ∈ samplePasses ++ [twoWorkersPass], filedByPath e.walked) ∧
    (∀ e ∈ samplePasses ++ [twoWorkersPass], e.order.Valid) ∧
    (runPasses (samplePasses ++ [twoWorkersPass]) (Init, [])).2.Perm
      (runners (runPasses (samplePasses ++ [twoWorkersPass]) (Init, [])).1.inputs) ∧
    (runPasses (samplePasses ++ [twoWorkersPass]) (Init, [])).2.Nodup :=
  have hfile : ∀ e ∈ samplePasses ++ [twoWorkersPass], filedByPath e.walked := by
    intro e he
    simp only [samplePasses, List.cons_append, List.nil_append, List.mem_cons,
      List.mem_singleton, List.not_mem_nil, or_false] at he
    rcases he with rfl | rfl | rfl <;> decide
  have hord : ∀ e ∈ samplePasses ++ [twoWorkersPass], e.order.Valid := by
    intro e he
    simp only [samplePasses, List.cons_append, List.nil_append, List.mem_cons,
      List.mem_singleton, List.not_mem_nil, or_false] at he
    rcases he with rfl | rfl | rfl <;> exact listOrder_valid
  ⟨hfile, hord, registry_matches_running (samplePasses ++ [twoWorkersPass]) hfile hord⟩

/-! ## The conflict policy -/

/-- C3, counterexample: the running set is `{A from new.toml}`; the scan holds `new.toml`,
still declaring `A` but with a changed configuration, and `other.toml`, which declares
`A` too; `new.toml` is visited first and the host rejects its handle.  The pass stops
the running `A`, calls `AddInputRunner` on the entries of both files, returns nil, and
ends with `A` running from `other.toml`. -/
theorem changed_file_lets_duplicate_start :
    (loadInputs changedAndDuplicatePass { inputs := runningNew, specified := [] }).err = none ∧
    (loadInputs changedAndDuplicatePass { inputs := runningNew, specified := [] }).lsdi.inputs =
      [("other.toml", mkEntry 4 "A" "other.toml" zeroConfig)] ∧
    addedRunners
      (loadInputs changedAndDuplicatePass { inputs := runningNew, specified := [] }).calls =
      [{ id := 3, Name := "A" }, { id := 4, Name := "A" }] := by
  decide

/-! ## Equals on structurally equal configurations -/

theorem innerMapEq_get {v w : GoMap Int} (h : innerMapEq v w = true) (y : String) :
    mapGet v y = mapGet w y := by
  unfold innerMapEq at h
  simp only [Bool.and_eq_true, List.all_eq_true, decide_eq_true_eq] at h
  cases hv : mapGet v y with
  | some z => exact (h.1 (y, z) (mem_of_mapGet_eq_some hv)).symm
  | none =>
    cases hw : mapGet w y with
    | none => rfl
    | some z =>
      have := h.2 (y, z) (mem_of_mapGet_eq_some hw)
      rw [hv] at this
      exact this

theorem translationEq_index {a b : GoMap (GoMap Int)} (h : translationEq a b = true)
    (i y : String) :
    mapIndex 0 (mapIndex [] a i) y = mapIndex 0 (mapIndex [] b i) y := by
  unfold translationEq at h
  simp only [Bool.and_eq_true, List.all_eq_true] at h
  unfold mapIndex
  cases ha : mapGet a i with
  | some v =>
    have h1 := h.1 (i, v) (mem_of_mapGet_eq_some ha)
    cases hb : mapGet b i with
    | none => simp [hb] at h1
    | some w =>
      simp only [hb] at h1
      simp only [Option.getD_some, innerMapEq_get h1 y]
  | none =>
    cases hb : mapGet b i with
    | none => rfl
    | some w =>
      have h2 := h.2 (i, w) (mem_of_mapGet_eq_some hb)
      simp [ha] at h2

theorem translationEq_keys {a b : GoMap (GoMap Int)} (h : translationEq a b = true) :
    mapKeys a ⊆ mapKeys b ∧ mapKeys b ⊆ mapKeys a := by
  unfold translationEq at h
  simp only [Bool.and_eq_true, List.all_eq_true] at h
  constructor
  · intro k hk
    obtain ⟨v, hv⟩ := mem_mapKeys_iff.mp hk
    have h1 := h.1 (k, v) hv
    cases hb : mapGet b k with
    | none => simp [hb] at h1
    | some w => exact mem_mapKeys_of_mapGet hb
  · intro k hk
    obtain ⟨v, hv⟩ := mem_mapKeys_iff.mp hk
    have h2 := h.2 (k, v) hv
    cases ha : mapGet a k with
    | none => simp [ha] at h2
    | some w => exact mem_mapKeys_of_mapGet ha

theorem translationEq_length {a b : GoMap (GoMap Int)} (h : translationEq a b = true)
    (ha : mapWF a) (hb : mapWF b) : a.length = b.length := by
  have hk := translationEq_keys h
  have h1 := (List.subperm_of_subset ha hk.1).length_le
  have h2 := (List.subperm_of_subset hb hk.2).length_le
  simp only [mapKeys, List.length_map] at h1 h2
  exact le_antisymm h1 h2

theorem translationLoop_iff (r o : GoMap (GoMap Int)) :
    translationLoop r o = true ↔
      ∀ iv ∈ r, ∀ yz ∈ iv.2, mapIndex 0 (mapIndex [] o iv.1) yz.1 = yz.2 := by
  simp [translationLoop]

theorem translationLoop_self {t : GoMap (GoMap Int)} (h : translationWF t) :
    translationLoop t t = true := by
  rw [translationLoop_iff]
  intro iv hiv yz hyz
  have h1 : mapGet t iv.1 = some iv.2 := mapGet_eq_some_of_mem h.1 hiv
  have h2 : mapGet iv.2 yz.1 = some yz.2 := mapGet_eq_some_of_mem (h.2 iv hiv) hyz
  simp [mapIndex, h1, h2]

theorem equalsAccepts_refl {c : LogstreamerInputConfig} (h : translationWF c.Translation) :
    equalsAccepts c c = true := by
  simp [equalsAccepts, translationLoop_self h]

/-- What `Equals` accepts against a configuration, it accepts against every structurally
equal one. -/
theorem equalsAccepts_congr {r a b : LogstreamerInputConfig}
    (hab : StructurallyEqual a b = true) (ha : mapWF a.Translation) (hb : mapWF b.Translation)
    (hra : equalsAccepts r a = true) : equalsAccepts r b = true := by
  unfold StructurallyEqual at hab
  simp only [Bool.and_eq_true, decide_eq_true_eq] at hab
  obtain ⟨⟨⟨⟨⟨⟨⟨⟨⟨⟨h1, h2⟩, h3⟩, h4⟩, h5⟩, h6⟩, h7⟩, h8⟩, h9⟩, h10⟩, h11⟩ := hab
  have hlen := translationEq_length h11 ha hb
  have hloop : translationLoop r.Translation a.Translation = true →
      translationLoop r.Translation b.Translation = true := by
    rw [translationLoop_iff, translationLoop_iff]
    intro h iv hiv yz hyz
    rw [← translationEq_index h11]
    exact h iv hiv yz hyz
  unfold equalsAccepts at *
  simp only [Bool.and_eq_true, decide_eq_true_eq] at hra ⊢
  obtain ⟨⟨⟨⟨⟨⟨⟨⟨⟨⟨⟨g1, g2⟩, g3⟩, g4⟩, g5⟩, g6⟩, g7⟩, g8⟩, g9⟩, g10⟩, g11⟩, g12⟩ := hra
  refine ⟨⟨⟨⟨⟨⟨⟨⟨⟨⟨⟨?_, ?_⟩, ?_⟩, ?_⟩, ?_⟩, ?_⟩, ?_⟩, ?_⟩, ?_⟩, ?_⟩, ?_⟩, ?_⟩
  · exact g1.trans h1
  · exact g2.trans h2
  · exact g3.trans h3
  · exact g4.trans h4
  · exact g5.trans h9
  · exact g6.trans h10
  · exact g7.trans hlen
  · exact hloop g8
  · exact g9.trans h5
  · exact g10.trans h6
  · exact g11.trans h7
  · exact g12.trans h8

/-- `Equals` accepts every pair of structurally equal configurations. -/
theorem equalsAccepts_of_structurallyEqual {a b : LogstreamerInputConfig}
    (hab : StructurallyEqual a b = true) (ha : translationWF a.Translation)
    (hb : mapWF b.Translation) : equalsAccepts a b = true :=
  equalsAccepts_congr hab ha.1 hb (equalsAccepts_refl ha)

theorem equalsAccepts_sequences {a b : LogstreamerInputConfig}
    (h : equalsAccepts a b = true) :
    a.Priority = b.Priority ∧ a.Differentiator = b.Differentiator := by
  unfold equalsAccepts at h
  simp only [Bool.and_eq_true, decide_eq_true_eq] at h
  exact ⟨h.1.1.1.1.1.1.1.2, h.1.1.1.1.1.1.2⟩

/-! ## Convergence of a pass without conflict and without failed registration -/

theorem failedAdds_append (a b : List HostCall) :
    failedAdds (a ++ b) = failedAdds a ++ failedAdds b := by
  unfold failedAdds
  exact List.filterMap_append _ _ _

theorem startInput_good (env : PassEnv) (name : String) (n : LogstreamerEntry) (fr : Frame)
    (hfail : failedAdds (startInput env name n fr).calls = []) :
    failedAdds fr.calls = [] ∧
    (startInput env name n fr).inputs = mapSet fr.inputs name n ∧
    (startInput env name n fr).dups = fr.dups ∧ (startInput env name n fr).err = none := by
  rcases startInput_cases env name n fr with ⟨e, _, heq⟩ | ⟨_, heq⟩
  · rw [heq] at hfail
    simp [failedAdds_append, failedAdds] at hfail
  · rw [heq] at hfail ⊢
    simp only [failedAdds_append, List.append_eq_nil] at hfail
    exact ⟨hfail.1, rfl, rfl, rfl⟩

theorem mem_mapSet {β : Type} {m : GoMap β} {k : String} {v : β} {p : String × β}
    (h : p ∈ mapSet m k v) : p ∈ m ∨ p = (k, v) := by
  rcases List.mem_cons.mp h with h1 | h1
  · exact Or.inr h1
  · exact Or.inl (mem_mapDelete.mp h1).1

theorem loopBody_next_good {env : PassEnv} (hord : env.order.Valid) (name : String)
    (n : LogstreamerEntry) (fr : Frame) (hwf : mapWF fr.inputs) (hdups : fr.dups = false)
    (herr : fr.err = none) (hcfg : translationWF n.config.Translation)
    (hnext : (loopBody env name n fr).1 = Flow.next)
    (hfail : failedAdds (loopBody env name n fr).2.calls = []) :
    (∀ p ∈ fr.inputs, isDuplicate n p = false) ∧
    failedAdds fr.calls = [] ∧
    (loopBody env name n fr).2.dups = false ∧ (loopBody env name n fr).2.err = none ∧
    mapWF (loopBody env name n fr).2.inputs ∧
    (∀ k, k ≠ name → mapGet (loopBody env name n fr).2.inputs k = mapGet fr.inputs k) ∧
    (∃ e, mapGet (loopBody env name n fr).2.inputs name = some e ∧ e.ir.Name = n.ir.Name ∧
      equalsAccepts e.config n.config = true) ∧
    (∀ p ∈ (loopBody env name n fr).2.inputs, p ∈ fr.inputs ∨ p = (name, n)) := by
  rcases loopBody_cases hord name n fr with
    ⟨p, _, _, heq⟩ | ⟨hdup, ⟨e, hget, hacc, hnm, _, heq⟩ | ⟨e, _, _, heq⟩ | ⟨_, heq⟩⟩
  · rw [heq] at hnext
    exact Flow.noConfusion hnext
  · rw [heq] at hfail ⊢
    exact ⟨hdup, hfail, hdups, herr, hwf, fun _ _ => rfl, ⟨e, hget, hnm, hacc⟩,
      fun p hp => Or.inl hp⟩
  · rw [heq] at hfail ⊢
    obtain ⟨h1, h2, h3, h4⟩ := startInput_good env name n _ hfail
    simp only [stopFrame, failedAdds_append, List.append_eq_nil] at h1
    refine ⟨hdup, h1.1, ?_, h4, ?_, ?_, ?_, ?_⟩
    · rw [h3]; exact hdups
    · rw [h2]; exact mapWF_mapSet (mapWF_mapDelete hwf name) name n
    · intro k hk
      rw [h2, mapGet_mapSet_ne _ _ hk]
      exact mapGet_mapDelete_ne _ hk
    · exact ⟨n, by rw [h2]; exact mapGet_mapSet_self _ _ _, rfl, equalsAccepts_refl hcfg⟩
    · intro p hp
      rw [h2] at hp
      rcases mem_mapSet hp with h5 | h5
      · exact Or.inl (mem_mapDelete.mp h5).1
      · exact Or.inr h5
  · rw [heq] at hfail ⊢
    obtain ⟨h1, h2, h3, h4⟩ := startInput_good env name n _ hfail
    refine ⟨hdup, h1, ?_, h4, ?_, ?_, ?_, ?_⟩
    · rw [h3]; exact hdups
    · rw [h2]; exact mapWF_mapSet hwf name n
    · intro k hk
      rw [h2, mapGet_mapSet_ne _ _ hk]
    · exact ⟨n, by rw [h2]; exact mapGet_mapSet_self _ _ _, rfl, equalsAccepts_refl hcfg⟩
    · intro p hp
      rw [h2] at hp
      exact mem_mapSet hp

/-- The loop of line 179 either runs to its end or returns with `dups` set. -/
theorem specifiedLoop_flow {env : PassEnv} (hord : env.order.Valid)
    (spec : List (String × LogstreamerEntry)) :
    ∀ fr, (specifiedLoop env spec fr).1 = Flow.next ∨
      ((specifiedLoop env spec fr).1 = Flow.ret ∧ (specifiedLoop env spec fr).2.dups = true) := by
  induction spec with
  | nil => intro fr; exact Or.inl rfl
  | cons p rest ih =>
    intro fr
    obtain ⟨name, n⟩ := p
    unfold specifiedLoop
    rcases loopBody_cases hord name n fr with
      ⟨p, _, _, heq⟩ | ⟨_, ⟨e, _, _, _, _, heq⟩ | ⟨e, _, _, heq⟩ | ⟨_, heq⟩⟩
    · rw [heq]; exact Or.inr ⟨rfl, rfl⟩
    · rw [heq]; exact ih _
    · rw [heq]; exact ih _
    · rw [heq]; exact ih _

/-- Induction over the loop of line 179 with the list of entries already visited. -/
theorem specifiedLoop_prefix_induct (env : PassEnv) (spec : List (String × LogstreamerEntry))
    (Q : List (String × LogstreamerEntry) → Frame → Prop)
    (hstep : ∀ done p rest fr, done ++ p :: rest = spec → Q done fr →
      (loopBody env p.1 p.2 fr).1 = Flow.next → Q (done ++ [p]) (loopBody env p.1 p.2 fr).2) :
    ∀ rest done fr, done ++ rest = spec → Q done fr →
      (specifiedLoop env rest fr).1 = Flow.next → Q spec (specifiedLoop env rest fr).2 := by
  intro rest
  induction rest with
  | nil =>
    intro done fr hsplit hq _
    rw [List.append_nil] at hsplit
    rw [← hsplit]
    exact hq
  | cons p rest ih =>
    intro done fr hsplit hq hnext
    have h1 := hstep done p rest fr hsplit hq
    obtain ⟨name, n⟩ := p
    unfold specifiedLoop at hnext ⊢
    rcases hb : loopBody env name n fr with ⟨flow, fr1⟩
    rw [hb] at hnext h1
    cases flow with
    | next =>
      simp only at hnext ⊢
      exact ih (done ++ [(name, n)]) fr1 (by simp [← hsplit]) (h1 rfl) hnext
    | ret => simp at hnext
    | panic => simp at hnext

theorem loopBody_calls_prefix {env : PassEnv} (hord : env.order.Valid) (name : String)
    (n : LogstreamerEntry) (fr : Frame) :
    ∃ t, (loopBody env name n fr).2.calls = fr.calls ++ t := by
  rcases loopBody_cases hord name n fr with
    ⟨p, _, _, heq⟩ | ⟨_, ⟨e, _, _, _, _, heq⟩ | ⟨e, _, _, heq⟩ | ⟨_, heq⟩⟩
  · rw [heq]; exact ⟨_, rfl⟩
  · rw [heq]; exact ⟨[], by simp⟩
  · rw [heq]
    rcases startInput_cases env name n (stopFrame fr name e.ir) with ⟨e1, _, h1⟩ | ⟨_, h1⟩ <;>
    · rw [h1]
      simp only [stopFrame, List.append_assoc]
      exact ⟨_, rfl⟩
  · rw [heq]
    rcases startInput_cases env name n fr with ⟨e1, _, h1⟩ | ⟨_, h1⟩ <;>
    · rw [h1]
      exact ⟨_, rfl⟩

theorem specifiedLoop_calls_prefix {env : PassEnv} (hord : env.order.Valid)
    (spec : List (String × LogstreamerEntry)) (fr : Frame) :
    ∃ t, (specifiedLoop env spec fr).2.calls = fr.calls ++ t := by
  apply specifiedLoop_induct env (fun f => ∃ t, f.calls = fr.calls ++ t) spec
  · intro p _ f hf
    obtain ⟨t, ht⟩ := hf
    obtain ⟨t1, ht1⟩ := loopBody_calls_prefix hord p.1 p.2 f
    exact ⟨t ++ t1, by rw [ht1, ht, List.append_assoc]⟩
  · exact ⟨[], by simp⟩

theorem split_facts {spec done rest : List (String × LogstreamerEntry)}
    {p : String × LogstreamerEntry} (hsplit : done ++ p :: rest = spec) (hspec : mapWF spec) :
    p ∈ spec ∧ (∀ q ∈ done, q ∈ spec) ∧ ∀ q ∈ done, q.1 ≠ p.1 := by
  subst hsplit
  refine ⟨by simp, fun q hq => by simp [hq], ?_⟩
  intro q hq hqp
  unfold mapWF mapKeys at hspec
  rw [List.map_append, List.map_cons] at hspec
  have := (List.nodup_append.mp hspec).2.2
  exact this (List.mem_map_of_mem Prod.fst hq) (by simp [hqp])

theorem converged_next {env : PassEnv} (hord : env.order.Valid)
    {spec done rest : List (String × LogstreamerEntry)} {p : String × LogstreamerEntry}
    {fr : Frame} (hsplit : done ++ p :: rest = spec) (hspec : mapWF spec)
    (hcfg : translationWF p.2.config.Translation) (hconv : Converged spec done fr)
    (hnext : (loopBody env p.1 p.2 fr).1 = Flow.next)
    (hfail : failedAdds (loopBody env p.1 p.2 fr).2.calls = []) :
    Converged spec (done ++ [p]) (loopBody env p.1 p.2 fr).2 := by
  obtain ⟨hd, he, hwf, hkeys, hdone⟩ := hconv
  obtain ⟨hp, _, hne⟩ := split_facts hsplit hspec
  obtain ⟨_, _, g1, g2, g3, g4, g5, g6⟩ :=
    loopBody_next_good hord p.1 p.2 fr hwf hd he hcfg hnext hfail
  refine ⟨g1, g2, g3, ?_, ?_⟩
  · intro k hk
    obtain ⟨v, hv⟩ := mem_mapKeys_iff.mp hk
    rcases g6 (k, v) hv with h1 | h1
    · exact hkeys k (mem_mapKeys_iff.mpr ⟨v, h1⟩)
    · have : k = p.1 := congrArg Prod.fst h1
      rw [this]
      exact List.mem_map_of_mem Prod.fst hp
  · intro q hq
    rcases List.mem_append.mp hq with h1 | h1
    · rw [g4 q.1 (hne q h1)]
      exact hdone q h1
    · rw [List.mem_singleton.mp h1]
      exact g5

/-- A reconcile phase that detects no conflict and in which no registration fails runs
to its end and converges on the specified set. -/
theorem reconcile_converged {env : PassEnv} (hord : env.order.Valid)
    {inputs : GoMap LogstreamerEntry} (hwf : mapWF inputs) (hspec : mapWF env.walked)
    (hcfg : ∀ p ∈ env.walked, translationWF p.2.config.Translation)
    (hdups : (reconcile env inputs).2.dups = false)
    (hfail : failedAdds (reconcile env inputs).2.calls = []) :
    (reconcile env inputs).1 = Flow.next ∧
      Converged env.walked env.walked (reconcile env inputs).2 := by
  have hnext : (reconcile env inputs).1 = Flow.next := by
    rcases specifiedLoop_flow hord env.walked (prunePhase env inputs) with h | h
    · exact h
    · unfold reconcile at hdups
      rw [h.2] at hdups
      exact absurd hdups (by decide)
  refine ⟨hnext, ?_⟩
  have hstart : Converged env.walked [] (prunePhase env inputs) := by
    obtain ⟨h1, h2⟩ := prunePhase_locals env inputs
    refine ⟨h1, h2, ?_, ?_, ?_⟩
    · rw [prunePhase_inputs hord]
      unfold mapWF mapKeys at hwf ⊢
      exact hwf.sublist ((List.filter_sublist _).map Prod.fst)
    · intro k hk
      rw [prunePhase_inputs hord] at hk
      obtain ⟨v, hv⟩ := mem_mapKeys_iff.mp hk
      have := (List.mem_filter.mp hv).2
      simpa using this
    · intro p hp
      exact absurd hp (List.not_mem_nil _)
  have hq := specifiedLoop_prefix_induct env env.walked
    (fun done fr => failedAdds fr.calls = [] → Converged env.walked done fr)
    (by
      intro done p rest fr hsplit hq hn hf
      obtain ⟨t, ht⟩ := loopBody_calls_prefix hord p.1 p.2 fr
      have hf0 : failedAdds fr.calls = [] := by
        rw [ht, failedAdds_append] at hf
        exact (List.append_eq_nil.mp hf).1
      exact converged_next hord hsplit hspec
        (hcfg p (split_facts hsplit hspec).1) (hq hf0) hn hf)
    env.walked [] (prunePhase env inputs) rfl (fun _ => hstart) hnext
  exact hq hfail

/-- C10: convergence of a successful pass.  For every running set and every specified
set, if the pass detects no conflict and every `AddInputRunner` call succeeds, then
`loadInputs` returns nil and the running set has exactly one entry per specified file
and nothing else, each with the worker name of the specified entry of that file and a
configuration that `Equals` accepts against it. -/
theorem loadInputs_converges (env : PassEnv) (lsdi : LogstreamerDirectoryInput)
    (hord : env.order.Valid) (hwalkErr : env.walkErr = none)
    (hwf : mapWF lsdi.inputs) (hspec : mapWF env.walked)
    (hcfg : ∀ p ∈ env.walked, translationWF p.2.config.Translation)
    (hdups : (loadInputs env lsdi).dups = false)
    (hfail : failedAdds (loadInputs env lsdi).calls = []) :
    (loadInputs env lsdi).err = none ∧ (loadInputs env lsdi).panicked = false ∧
    mapWF (loadInputs env lsdi).lsdi.inputs ∧
    (∀ k, k ∈ mapKeys (loadInputs env lsdi).lsdi.inputs ↔ k ∈ mapKeys env.walked) ∧
    ∀ p ∈ env.walked, ∃ e, mapGet (loadInputs env lsdi).lsdi.inputs p.1 = some e ∧
      e.ir.Name = p.2.ir.Name ∧ Equals e.config p.2.config = some true := by
  simp only [loadInputs, hwalkErr] at hdups hfail ⊢
  obtain ⟨hnext, hd, he, hw, hkeys, hall⟩ := reconcile_converged hord hwf hspec hcfg hdups hfail
  refine ⟨he, by simp [hnext], hw, ?_, ?_⟩
  · intro k
    constructor
    · exact hkeys k
    · intro hk
      obtain ⟨v, hv⟩ := mem_mapKeys_iff.mp hk
      obtain ⟨e, hget, _⟩ := hall (k, v) hv
      exact mem_mapKeys_of_mapGet hget
  · intro p hp
    obtain ⟨e, hget, hname, hacc⟩ := hall p hp
    exact ⟨e, hget, hname, by rw [Equals_eq, hacc]⟩

/-- C10, witness: from the empty running set and one valid file declaring worker `A`,
the running set afterwards holds exactly `A`. -/
theorem loadInputs_converges_witness :
    listOrder.Valid ∧ mapWF Init.inputs ∧ mapWF singleFilePass.walked ∧
    (loadInputs singleFilePass Init).dups = false ∧
    failedAdds (loadInputs singleFilePass Init).calls = [] ∧
    (loadInputs singleFilePass Init).lsdi.inputs =
      [("a.toml", mkEntry 1 "A" "a.toml" zeroConfig)] ∧
    ((loadInputs singleFilePass Init).err = none ∧
      (loadInputs singleFilePass Init).panicked = false ∧
      mapWF (loadInputs singleFilePass Init).lsdi.inputs ∧
      (∀ k, k ∈ mapKeys (loadInputs singleFilePass Init).lsdi.inputs ↔
        k ∈ mapKeys singleFilePass.walked) ∧
      ∀ p ∈ singleFilePass.walked, ∃ e,
        mapGet (loadInputs singleFilePass Init).lsdi.inputs p.1 = some e ∧
        e.ir.Name = p.2.ir.Name ∧ Equals e.config p.2.config = some true) :=
  ⟨listOrder_valid, by decide, by decide, by decide, by decide, by decide,
    loadInputs_converges singleFilePass Init listOrder_valid rfl (by decide) (by decide)
      (by decide) (by decide) (by decide)⟩

/-! ## Idempotence -/

theorem distinct_next {env : PassEnv} (hord : env.order.Valid)
    {spec done rest : List (String × LogstreamerEntry)} {p : String × LogstreamerEntry}
    {fr : Frame} (hsplit : done ++ p :: rest = spec) (hspec : mapWF spec)
    (hcfg : translationWF p.2.config.Translation) (hfile : p.2.fileName = p.1)
    (hconv : Converged spec done fr) (hfiled : filedByPath fr.inputs)
    (hnames : (done.map (fun q => q.2.ir.Name)).Nodup)
    (hnext : (loopBody env p.1 p.2 fr).1 = Flow.next)
    (hfail : failedAdds (loopBody env p.1 p.2 fr).2.calls = []) :
    filedByPath (loopBody env p.1 p.2 fr).2.inputs ∧
      ((done ++ [p]).map (fun q => q.2.ir.Name)).Nodup := by
  obtain ⟨hd, he, hwf, _, hdone⟩ := hconv
  obtain ⟨_, _, hne⟩ := split_facts hsplit hspec
  obtain ⟨hdup, _, _, _, _, _, _, g6⟩ :=
    loopBody_next_good hord p.1 p.2 fr hwf hd he hcfg hnext hfail
  constructor
  · intro q hq
    rcases g6 q hq with h1 | h1
    · exact hfiled q h1
    · rw [h1]; exact hfile
  · rw [List.map_append, List.nodup_append]
    refine ⟨hnames, by simp, ?_⟩
    intro a ha hb
    simp only [List.map_cons, List.map_nil, List.mem_singleton] at hb
    obtain ⟨q, hq, hqa⟩ := List.mem_map.mp ha
    obtain ⟨e, hget, hname, _⟩ := hdone q hq
    have hmem := mem_of_mapGet_eq_some hget
    have hnd := hdup (q.1, e) hmem
    have hfe : e.fileName = q.1 := hfiled (q.1, e) hmem
    simp only [isDuplicate, Bool.and_eq_false_imp, decide_eq_true_eq,
      decide_eq_false_iff_not, ne_eq, not_not] at hnd
    have h3 : p.2.ir.Name = e.ir.Name := by rw [hname, ← hb]; exact hqa.symm
    have h4 := hnd h3
    exact hne q hq (by rw [← hfe, ← h4, hfile])

/-- After a reconcile phase without conflict and without failed registration, the running
entries are stored under their file paths and the specified worker names are pairwise
different. -/
theorem reconcile_distinct {env : PassEnv} (hord : env.order.Valid)
    {inputs : GoMap LogstreamerEntry} (hwf : mapWF inputs) (hfiled : filedByPath inputs)
    (hspec : mapWF env.walked) (hfile : filedByPath env.walked)
    (hcfg : ∀ p ∈ env.walked, translationWF p.2.config.Translation)
    (hdups : (reconcile env inputs).2.dups = false)
    (hfail : failedAdds (reconcile env inputs).2.calls = []) :
    filedByPath (reconcile env inputs).2.inputs ∧
      (env.walked.map (fun q => q.2.ir.Name)).Nodup := by
  obtain ⟨hnext, _⟩ := reconcile_converged hord hwf hspec hcfg hdups hfail
  have hstart : Converged env.walked [] (prunePhase env inputs) ∧
      filedByPath (prunePhase env inputs).inputs := by
    obtain ⟨h1, h2⟩ := prunePhase_locals env inputs
    refine ⟨⟨h1, h2, ?_, ?_, ?_⟩, ?_⟩
    · rw [prunePhase_inputs hord]
      unfold mapWF mapKeys at hwf ⊢
      exact hwf.sublist ((List.filter_sublist _).map Prod.fst)
    · intro k hk
      rw [prunePhase_inputs hord] at hk
      obtain ⟨v, hv⟩ := mem_mapKeys_iff.mp hk
      have := (List.mem_filter.mp hv).2
      simpa using this
    · intro p hp
      exact absurd hp (List.not_mem_nil _)
    · intro p hp
      rw [prunePhase_inputs hord] at hp
      exact hfiled p (List.mem_filter.mp hp).1
  have hq := specifiedLoop_prefix_induct env env.walked
    (fun done fr => failedAdds fr.calls = [] →
      Converged env.walked done fr ∧ filedByPath fr.inputs ∧
        (done.map (fun q => q.2.ir.Name)).Nodup)
    (by
      intro done p rest fr hsplit hq hn hf
      obtain ⟨t, ht⟩ := loopBody_calls_prefix hord p.1 p.2 fr
      have hf0 : failedAdds fr.calls = [] := by
        rw [ht, failedAdds_append] at hf
        exact (List.append_eq_nil.mp hf).1
      obtain ⟨c1, c2, c3⟩ := hq hf0
      have hp := (split_facts hsplit hspec).1
      have hd := distinct_next hord hsplit hspec (hcfg p hp) (hfile p hp) c1 c2 c3 hn hf
      exact ⟨converged_next hord hsplit hspec (hcfg p hp) c1 hn hf, hd.1, hd.2⟩)
    env.walked [] (prunePhase env inputs) rfl
    (fun _ => ⟨hstart.1, hstart.2, List.nodup_nil⟩) hnext
  exact (hq hfail).2

theorem pruneLoop_noop (specified : GoMap LogstreamerEntry)
    (todo : List (String × LogstreamerEntry)) (fr : Frame)
    (h : ∀ p ∈ todo, p.1 ∈ mapKeys specified) : pruneLoop specified todo fr = fr := by
  induction todo with
  | nil => rfl
  | cons q rest ih =>
    obtain ⟨name, entry⟩ := q
    unfold pruneLoop
    cases hg : mapGet specified name with
    | some v => exact ih (fun p hp => h p (List.mem_cons_of_mem _ hp))
    | none =>
      exact absurd (h (name, entry) (List.mem_cons_self _ _)) (mapGet_eq_none_iff.mp hg)

theorem specifiedLoop_noop {env : PassEnv} (hord : env.order.Valid)
    (spec : List (String × LogstreamerEntry)) (fr : Frame) (hdups : fr.dups = false)
    (h : ∀ p ∈ spec, (∀ q ∈ fr.inputs, isDuplicate p.2 q = false) ∧
      ∃ e, mapGet fr.inputs p.1 = some e ∧ equalsAccepts e.config p.2.config = true ∧
        e.ir.Name = p.2.ir.Name) :
    specifiedLoop env spec fr = (Flow.next, fr) := by
  induction spec with
  | nil => rfl
  | cons p rest ih =>
    obtain ⟨name, n⟩ := p
    obtain ⟨hnd, e, hget, hacc, hname⟩ := h (name, n) (List.mem_cons_self _ _)
    have hbody : loopBody env name n fr = (Flow.next, fr) := by
      rcases loopBody_cases hord name n fr with
        ⟨q, hq, hdup, _⟩ | ⟨_, ⟨_, _, _, _, _, heq⟩ | ⟨e1, hget1, hc, _⟩ | ⟨hget1, _⟩⟩
      · rw [hnd q hq] at hdup
        exact absurd hdup (by decide)
      · exact heq
      · rw [hget] at hget1
        have he : e = e1 := Option.some.inj hget1
        subst he
        simp [hacc, hname, hdups] at hc
      · rw [hget] at hget1
        exact Option.noConfusion hget1
    unfold specifiedLoop
    rw [hbody]
    exact ih (fun q hq => h q (List.mem_cons_of_mem _ hq))

/-- C6, counterexample: two files; the host rejects `A` and accepts `B`, so the first pass
returns nil with only `B` running.  The second pass, on the unchanged scan result, calls
`AddInputRunner` again for `A` and the running set changes. -/
theorem second_pass_retries_rejected_worker :
    Unchanged rejectsAPass.walked rescanPass.walked ∧
    (loadInputs rejectsAPass Init).err = none ∧
    addedRunners (loadInputs rescanPass (loadInputs rejectsAPass Init).lsdi).calls =
      [{ id := 8, Name := "A" }] ∧
    (loadInputs rescanPass (loadInputs rejectsAPass Init).lsdi).lsdi.inputs ≠
      (loadInputs rejectsAPass Init).lsdi.inputs := by
  refine ⟨⟨?_, ?_⟩, by decide, by decide, by decide⟩
  · intro k
    simp [rejectsAPass, rescanPass, mapKeys]
    tauto
  · decide

/-- C6, amended: idempotence after a pass that succeeded.  For every running set whose
entries are stored under their file paths and every scan result, if the first pass
detects no conflict and none of its `AddInputRunner` calls fails, then a second pass on
an unchanged scan result (same file paths, same worker names, structurally equal
configs) makes no call on the host at all, so no `RemoveInputRunner` and no
`AddInputRunner` call, returns nil, and leaves the running set identical. -/
theorem second_pass_is_idle (env1 env2 : PassEnv) (lsdi : LogstreamerDirectoryInput)
    (hord1 : env1.order.Valid) (hord2 : env2.order.Valid)
    (hwalk1 : env1.walkErr = none) (hwalk2 : env2.walkErr = none)
    (hwf : mapWF lsdi.inputs) (hfiled : filedByPath lsdi.inputs)
    (hspec1 : mapWF env1.walked) (hfile1 : filedByPath env1.walked)
    (hcfg1 : ∀ p ∈ env1.walked, translationWF p.2.config.Translation)
    (hfile2 : filedByPath env2.walked)
    (hcfg2 : ∀ p ∈ env2.walked, translationWF p.2.config.Translation)
    (hsame : Unchanged env1.walked env2.walked)
    (hdups : (loadInputs env1 lsdi).dups = false)
    (hfail : failedAdds (loadInputs env1 lsdi).calls = []) :
    (loadInputs env2 (loadInputs env1 lsdi).lsdi).calls = [] ∧
    (loadInputs env2 (loadInputs env1 lsdi).lsdi).err = none ∧
    (loadInputs env2 (loadInputs env1 lsdi).lsdi).lsdi.inputs =
      (loadInputs env1 lsdi).lsdi.inputs := by
  simp only [loadInputs, hwalk1] at hdups hfail
  obtain ⟨_, _, _, hw, hkeys, hall⟩ :=
    reconcile_converged hord1 hwf hspec1 hcfg1 hdups hfail
  obtain ⟨hfiledR, hnames⟩ :=
    reconcile_distinct hord1 hwf hfiled hspec1 hfile1 hcfg1 hdups hfail
  have hprune : prunePhase env2 (reconcile env1 lsdi.inputs).2.inputs =
      entryFrame (reconcile env1 lsdi.inputs).2.inputs := by
    unfold prunePhase
    apply pruneLoop_noop
    intro p hp
    have h1 := (hord2.1 _).mem_iff.mp hp
    exact (hsame.1 p.1).mp (hkeys p.1 (List.mem_map_of_mem Prod.fst h1))
  have hloop : specifiedLoop env2 env2.walked (entryFrame (reconcile env1 lsdi.inputs).2.inputs) =
      (Flow.next, entryFrame (reconcile env1 lsdi.inputs).2.inputs) := by
    apply specifiedLoop_noop hord2 _ _ rfl
    intro q hq
    obtain ⟨v, hv⟩ := mem_mapKeys_iff.mp
      ((hsame.1 q.1).mpr (List.mem_map_of_mem Prod.fst hq))
    obtain ⟨hqname, hqcfg⟩ := hsame.2 (q.1, v) hv q hq rfl
    obtain ⟨e, hget, hname, hacc⟩ := hall (q.1, v) hv
    constructor
    · intro r hr
      simp only [entryFrame] at hr
      obtain ⟨v1, hv1⟩ := mem_mapKeys_iff.mp (hkeys r.1 (List.mem_map_of_mem Prod.fst hr))
      obtain ⟨e1, hget1, hname1, _⟩ := hall (r.1, v1) hv1
      have hr1 : mapGet (reconcile env1 lsdi.inputs).2.inputs r.1 = some r.2 :=
        mapGet_eq_some_of_mem hw hr
      rw [hget1] at hr1
      have he1 : e1 = r.2 := Option.some.inj hr1
      subst he1
      simp only [isDuplicate, Bool.and_eq_false_imp, decide_eq_true_eq,
        decide_eq_false_iff_not, ne_eq, not_not]
      intro hsameName
      have hvv : v.ir.Name = v1.ir.Name := by
        rw [← hqname, hsameName, hname1]
      have hpair : (q.1, v) = (r.1, v1) :=
        List.inj_on_of_nodup_map hnames hv hv1 hvv
      have hk : q.1 = r.1 := (Prod.mk.inj hpair).1
      rw [hfile2 q hq, hfiledR r hr, hk]
    · refine ⟨e, hget, ?_, ?_⟩
      · exact equalsAccepts_congr hqcfg (hcfg1 _ hv).1 (hcfg2 q hq).1 hacc
      · rw [hname, hqname]
  have hrec : reconcile env2 (reconcile env1 lsdi.inputs).2.inputs =
      (Flow.next, entryFrame (reconcile env1 lsdi.inputs).2.inputs) := by
    rw [reconcile, hprune, hloop]
  simp only [loadInputs, hwalk1, hwalk2, hrec]
  exact ⟨rfl, rfl, rfl⟩

/-- C6, witness: both workers are accepted in the first pass; the rescan of the two
unchanged files makes no call and leaves the running set as it was. -/
theorem second_pass_is_idle_witness :
    listOrder.Valid ∧ Unchanged acceptingPass.walked rescanPass.walked ∧
    (loadInputs acceptingPass Init).dups = false ∧
    failedAdds (loadInputs acceptingPass Init).calls = [] ∧
    (loadInputs rescanPass (loadInputs acceptingPass Init).lsdi).calls = [] ∧
    (loadInputs rescanPass (loadInputs acceptingPass Init).lsdi).err = none ∧
    (loadInputs rescanPass (loadInputs acceptingPass Init).lsdi).lsdi.inputs =
      (loadInputs acceptingPass Init).lsdi.inputs :=
  have hsame : Unchanged acceptingPass.walked rescanPass.walked := by
    refine ⟨?_, by decide⟩
    intro k
    simp [acceptingPass, rescanPass, mapKeys]
    tauto
  ⟨listOrder_valid, hsame, by decide, by decide,
    second_pass_is_idle acceptingPass rescanPass Init listOrder_valid listOrder_valid rfl rfl
      (by decide) (by decide) (by decide) (by decide) (by decide) (by decide) (by decide)
      hsame (by decide) (by decide)⟩

/-! ## The conflict policy with other files in the scan -/

theorem addedRunners_append (a b : List HostCall) :
    addedRunners (a ++ b) = addedRunners a ++ addedRunners b := by
  unfold addedRunners
  exact List.filterMap_append _ _ _

theorem removedRunners_append (a b : List HostCall) :
    removedRunners (a ++ b) = removedRunners a ++ removedRunners b := by
  unfold removedRunners
  exact List.filterMap_append _ _ _

theorem startInput_effect (env : PassEnv) (name : String) (n : LogstreamerEntry) (fr : Frame) :
    (startInput env name n fr).dups = fr.dups ∧
    ((startInput env name n fr).inputs = fr.inputs ∨
      (startInput env name n fr).inputs = mapSet fr.inputs name n) ∧
    addedRunners (startInput env name n fr).calls = addedRunners fr.calls ++ [n.ir] ∧
    removedRunners (startInput env name n fr).calls = removedRunners fr.calls := by
  rcases startInput_cases env name n fr with ⟨e, _, heq⟩ | ⟨_, heq⟩
  · rw [heq]
    exact ⟨rfl, Or.inl rfl, by simp [addedRunners_append, addedRunners],
      by simp [removedRunners_append, removedRunners]⟩
  · rw [heq]
    exact ⟨rfl, Or.inr rfl, by simp [addedRunners_append, addedRunners],
      by simp [removedRunners_append, removedRunners]⟩

/-- What an iteration that goes on to the next entry may have changed. -/
theorem loopBody_next_effect {env : PassEnv} (hord : env.order.Valid) (name : String)
    (n : LogstreamerEntry) (fr : Frame) (hwf : mapWF fr.inputs)
    (hnext : (loopBody env name n fr).1 = Flow.next) :
    (∀ p ∈ fr.inputs, isDuplicate n p = false) ∧
    (loopBody env name n fr).2.dups = fr.dups ∧
    mapWF (loopBody env name n fr).2.inputs ∧
    (∀ p ∈ (loopBody env name n fr).2.inputs, p ∈ fr.inputs ∨ p = (name, n)) ∧
    (∀ q ∈ fr.inputs, q.1 ≠ name → q ∈ (loopBody env name n fr).2.inputs) ∧
    (∀ ir ∈ addedRunners (loopBody env name n fr).2.calls,
      ir ∈ addedRunners fr.calls ∨ ir = n.ir) ∧
    (∀ ir ∈ removedRunners fr.calls, ir ∈ removedRunners (loopBody env name n fr).2.calls) := by
  rcases loopBody_cases hord name n fr with
    ⟨p, _, _, heq⟩ | ⟨hdup, ⟨e, _, _, _, _, heq⟩ | ⟨e, _, _, heq⟩ | ⟨_, heq⟩⟩
  · rw [heq] at hnext
    exact Flow.noConfusion hnext
  · rw [heq]
    exact ⟨hdup, rfl, hwf, fun p hp => Or.inl hp, fun q hq _ => hq,
      fun ir hir => Or.inl hir, fun ir hir => hir⟩
  · rw [heq]
    obtain ⟨h1, h2, h3, h4⟩ := startInput_effect env name n (stopFrame fr name e.ir)
    refine ⟨hdup, h1, ?_, ?_, ?_, ?_, ?_⟩
    · rcases h2 with h2 | h2 <;> rw [h2]
      · exact mapWF_mapDelete hwf name
      · exact mapWF_mapSet (mapWF_mapDelete hwf name) name n
    · intro p hp
      rcases h2 with h2 | h2 <;> rw [h2] at hp
      · exact Or.inl (mem_mapDelete.mp hp).1
      · rcases mem_mapSet hp with h5 | h5
        · exact Or.inl (mem_mapDelete.mp h5).1
        · exact Or.inr h5
    · intro q hq hne
      have hq1 : q ∈ mapDelete fr.inputs name := mem_mapDelete.mpr ⟨hq, hne⟩
      rcases h2 with h2 | h2 <;> rw [h2]
      · exact hq1
      · exact List.mem_cons_of_mem _ (mem_mapDelete.mpr ⟨hq1, hne⟩)
    · intro ir hir
      rw [h3] at hir
      simp only [stopFrame, addedRunners_append, List.mem_append, List.mem_singleton] at hir
      rcases hir with (h5 | h5) | h5
      · exact Or.inl h5
      · simp [addedRunners] at h5
      · exact Or.inr h5
    · intro ir hir
      rw [h4]
      simp only [stopFrame, removedRunners_append, List.mem_append]
      exact Or.inl hir
  · rw [heq]
    obtain ⟨h1, h2, h3, h4⟩ := startInput_effect env name n fr
    refine ⟨hdup, h1, ?_, ?_, ?_, ?_, ?_⟩
    · rcases h2 with h2 | h2 <;> rw [h2]
      · exact hwf
      · exact mapWF_mapSet hwf name n
    · intro p hp
      rcases h2 with h2 | h2 <;> rw [h2] at hp
      · exact Or.inl hp
      · exact mem_mapSet hp
    · intro q hq hne
      rcases h2 with h2 | h2 <;> rw [h2]
      · exact hq
      · exact List.mem_cons_of_mem _ (mem_mapDelete.mpr ⟨hq, hne⟩)
    · intro ir hir
      rw [h3] at hir
      rcases List.mem_append.mp hir with h5 | h5
      · exact Or.inl h5
      · exact Or.inr (List.mem_singleton.mp h5)
    · intro ir hir
      rw [h4]
      exact hir

theorem isDuplicate_eq_true {n : LogstreamerEntry} {p : String × LogstreamerEntry} :
    isDuplicate n p = true ↔ n.ir.Name = p.2.ir.Name ∧ n.fileName ≠ p.2.fileName := by
  simp [isDuplicate]

theorem isDuplicate_eq_false {n : LogstreamerEntry} {p : String × LogstreamerEntry} :
    isDuplicate n p = false ↔ (n.ir.Name = p.2.ir.Name → n.fileName = p.2.fileName) := by
  simp [isDuplicate]

/-- The reconcile loop from a frame in which the only running entry named like `old` is
`old` itself, stored under `file1`: if an entry with that name from another file is
still to be visited, the loop returns at that conflict. -/
theorem specifiedLoop_conflict {env : PassEnv} (hord : env.order.Valid)
    (spec : GoMap LogstreamerEntry) (hspec : mapWF spec) (hfile : filedByPath spec)
    (old new1 : LogstreamerEntry) (file1 : String) (hold : old.fileName = file1)
    (hmem1 : (file1, new1) ∈ spec) (hname1 : new1.ir.Name = old.ir.Name)
    (hacc : equalsAccepts old.config new1.config = true)
    (hother : ∀ p ∈ spec, ∀ q ∈ spec, p.2.ir.Name = q.2.ir.Name →
      p.2.ir.Name ≠ old.ir.Name → p = q) :
    ∀ (rest : List (String × LogstreamerEntry)) (fr : Frame),
      (∀ p ∈ rest, p ∈ spec) →
      (∃ q ∈ rest, q.2.ir.Name = old.ir.Name ∧ q.1 ≠ file1) →
      (file1, old) ∈ fr.inputs →
      (∀ p ∈ fr.inputs, p = (file1, old) ∨ (p ∈ spec ∧ p.2.ir.Name ≠ old.ir.Name)) →
      mapWF fr.inputs → fr.dups = false →
      (∀ ir ∈ addedRunners fr.calls, ir.Name ≠ old.ir.Name) →
      (specifiedLoop env rest fr).1 = Flow.ret ∧
      (specifiedLoop env rest fr).2.dups = true ∧
      (∃ f, (specifiedLoop env rest fr).2.err = some (duplicateNameError old.ir.Name f)) ∧
      old.ir ∈ removedRunners (specifiedLoop env rest fr).2.calls ∧
      (∀ p ∈ (specifiedLoop env rest fr).2.inputs, p.2.ir.Name ≠ old.ir.Name) ∧
      (∀ ir ∈ addedRunners (specifiedLoop env rest fr).2.calls, ir.Name ≠ old.ir.Name) := by
  intro rest
  induction rest with
  | nil =>
    intro fr _ hq
    obtain ⟨q, hq, _⟩ := hq
    exact absurd hq (List.not_mem_nil _)
  | cons head rest ih =>
    intro fr hsub hq hin hrun hwf hdups hadd
    obtain ⟨k, n⟩ := head
    have hkn : (k, n) ∈ spec := hsub (k, n) (List.mem_cons_self _ _)
    have hnfile : n.fileName = k := hfile (k, n) hkn
    have hgetOld : mapGet fr.inputs file1 = some old := mapGet_eq_some_of_mem hwf hin
    unfold specifiedLoop
    rcases loopBody_cases hord k n fr with
      ⟨p, hp, hdup, heq⟩ | ⟨hdup, hbranch⟩
    · rw [heq]
      have hd := isDuplicate_eq_true.mp hdup
      rcases hrun p hp with hpo | ⟨hps, hpn⟩
      · subst hpo
        refine ⟨rfl, rfl, ⟨k, rfl⟩, ?_, ?_, ?_⟩
        · simp [stopFrame, removedRunners_append, removedRunners]
        · intro q hq1
          have hq2 := mem_mapDelete.mp hq1
          rcases hrun q hq2.1 with h | h
          · exact absurd (by rw [h]) hq2.2
          · exact h.2
        · intro ir hir
          apply hadd ir
          simpa [stopFrame, addedRunners_append, addedRunners] using hir
      · have hpk : p = (k, n) := hother p hps (k, n) hkn hd.1.symm hpn
        rw [hpk] at hd
        exact absurd rfl hd.2
    · have hrest : ∀ p ∈ rest, p ∈ spec := fun p hp => hsub p (List.mem_cons_of_mem _ hp)
      by_cases hk : k = file1
      · -- the unchanged file of the running worker: it keeps running
        subst hk
        have hn : n = new1 := by
          have e1 := mapGet_eq_some_of_mem hspec hkn
          have e2 := mapGet_eq_some_of_mem hspec hmem1
          rw [e1] at e2
          exact Option.some.inj e2
        subst hn
        have hq1 : ∃ q ∈ rest, q.2.ir.Name = old.ir.Name ∧ q.1 ≠ k := by
          obtain ⟨q, hqm, hqn, hqk⟩ := hq
          rcases List.mem_cons.mp hqm with h | h
          · exact absurd (by rw [h]) hqk
          · exact ⟨q, h, hqn, hqk⟩
        rcases hbranch with ⟨e, _, _, _, _, heq⟩ | ⟨e, hget, hc, _⟩ | ⟨hget, _⟩
        · rw [heq]
          exact ih fr hrest hq1 hin hrun hwf hdups hadd
        · rw [hgetOld] at hget
          have he : old = e := Option.some.inj hget
          subst he
          simp [hacc, hname1, hdups] at hc
        · rw [hgetOld] at hget
          exact Option.noConfusion hget
      · -- another file: by the conflict test it declares another worker name
        have hnn : n.ir.Name ≠ old.ir.Name := by
          intro h
          have := isDuplicate_eq_false.mp (hdup (file1, old) hin) h
          exact hk (by rw [← hnfile, this, hold])
        have hnext : (loopBody env k n fr).1 = Flow.next := by
          rcases hbranch with ⟨e, _, _, _, _, heq⟩ | ⟨e, _, _, heq⟩ | ⟨_, heq⟩ <;> rw [heq]
        obtain ⟨_, g1, g2, g3, g4, g5, _⟩ := loopBody_next_effect hord k n fr hwf hnext
        have hq1 : ∃ q ∈ rest, q.2.ir.Name = old.ir.Name ∧ q.1 ≠ file1 := by
          obtain ⟨q, hqm, hqn, hqk⟩ := hq
          rcases List.mem_cons.mp hqm with h | h
          · exact absurd (by rw [h] at hqn; exact hqn) hnn
          · exact ⟨q, h, hqn, hqk⟩
        rcases hb : loopBody env k n fr with ⟨flow, fr1⟩
        rw [hb] at hnext g1 g2 g3 g4 g5
        simp only at hnext g1 g2 g3 g4 g5
        subst hnext
        simp only
        apply ih fr1 hrest hq1
        · exact g4 (file1, old) hin (fun h => hk h.symm)
        · intro p hp
          rcases g3 p hp with h | h
          · exact hrun p h
          · exact Or.inr ⟨h ▸ hkn, by rw [h]; exact hnn⟩
        · exact g2
        · rw [g1]; exact hdups
        · intro ir hir
          rcases g5 ir hir with h | h
          · exact hadd ir h
          · rw [h]; exact hnn

/-- C3, amended: the running set is `{A loaded from file1}`; the scan result contains
`file1`, still declaring `A` with a configuration that `Equals` accepts against the
running one, and a different file `file2` that also declares `A`; no worker name other
than `A` is declared by two files.  Then, whatever the order in which the specified
entries are visited and whatever the host answers, the pass returns the duplicate-name
error for `A`, `RemoveInputRunner` is called on the existing `A`, the resulting running
set holds no entry named `A`, and no `AddInputRunner` call is made on the entry of
either file, nor on any handle named `A`. -/
theorem conflict_stops_running_worker (env : PassEnv) (lsdi : LogstreamerDirectoryInput)
    (old new1 new2 : LogstreamerEntry) (file1 file2 : String)
    (hord : env.order.Valid) (hwalkErr : env.walkErr = none)
    (hspec : mapWF env.walked) (hfile : filedByPath env.walked)
    (hrunning : lsdi.inputs = [(file1, old)]) (hold : old.fileName = file1)
    (hmem1 : (file1, new1) ∈ env.walked) (hmem2 : (file2, new2) ∈ env.walked)
    (hne : file1 ≠ file2)
    (hname1 : new1.ir.Name = old.ir.Name) (hname2 : new2.ir.Name = old.ir.Name)
    (hsame : Equals old.config new1.config = some true)
    (hother : ∀ p ∈ env.walked, ∀ q ∈ env.walked, p.2.ir.Name = q.2.ir.Name →
      p.2.ir.Name ≠ old.ir.Name → p = q) :
    (∃ f, (loadInputs env lsdi).err = some (duplicateNameError old.ir.Name f)) ∧
    (loadInputs env lsdi).dups = true ∧
    (loadInputs env lsdi).panicked = false ∧
    old.ir ∈ removedRunners (loadInputs env lsdi).calls ∧
    (∀ p ∈ (loadInputs env lsdi).lsdi.inputs, p.2.ir.Name ≠ old.ir.Name) ∧
    new1.ir ∉ addedRunners (loadInputs env lsdi).calls ∧
    new2.ir ∉ addedRunners (loadInputs env lsdi).calls ∧
    (∀ ir ∈ addedRunners (loadInputs env lsdi).calls, ir.Name ≠ old.ir.Name) := by
  have hacc : equalsAccepts old.config new1.config = true := by
    rw [Equals_eq] at hsame
    exact Option.some.inj hsame
  have hprune : prunePhase env [(file1, old)] = entryFrame [(file1, old)] := by
    unfold prunePhase
    apply pruneLoop_noop
    intro p hp
    have h1 := (hord.1 _).mem_iff.mp hp
    rw [List.mem_singleton.mp h1]
    exact mem_mapKeys_iff.mpr ⟨new1, hmem1⟩
  have hloop := specifiedLoop_conflict hord env.walked hspec hfile old new1 file1 hold hmem1
    hname1 hacc hother env.walked (entryFrame [(file1, old)]) (fun p hp => hp)
    ⟨(file2, new2), hmem2, hname2, fun h => hne h.symm⟩
    (List.mem_singleton.mpr rfl) (fun p hp => Or.inl (List.mem_singleton.mp hp))
    (by unfold mapWF mapKeys entryFrame; simp) rfl
    (fun ir hir => by simp [entryFrame, addedRunners] at hir)
  simp only [loadInputs, hwalkErr, hrunning, reconcile, hprune]
  obtain ⟨h1, h2, h3, h4, h5, h6⟩ := hloop
  refine ⟨h3, h2, by simp [h1], h4, h5, ?_, ?_, h6⟩
  · intro h
    exact h6 _ h hname1
  · intro h
    exact h6 _ h hname2

/-- C3, witness: `new.toml` is unchanged, `other.toml` declares `A` too, and `b.toml`,
visited first, declares `B`. -/
theorem conflict_stops_running_worker_witness :
    listOrder.Valid ∧ mapWF duplicatePass.walked ∧ filedByPath duplicatePass.walked ∧
    Equals zeroConfig zeroConfig = some true ∧
    (loadInputs duplicatePass { inputs := runningNew, specified := [] }).lsdi.inputs =
      [("b.toml", mkEntry 5 "B" "b.toml" zeroConfig)] ∧
    ((∃ f, (loadInputs duplicatePass { inputs := runningNew, specified := [] }).err =
        some (duplicateNameError "A" f)) ∧
      (loadInputs duplicatePass { inputs := runningNew, specified := [] }).dups = true ∧
      (loadInputs duplicatePass { inputs := runningNew, specified := [] }).panicked = false ∧
      { id := 2, Name := "A" } ∈
        removedRunners (loadInputs duplicatePass { inputs := runningNew, specified := [] }).calls ∧
      (∀ p ∈ (loadInputs duplicatePass { inputs := runningNew, specified := [] }).lsdi.inputs,
        p.2.ir.Name ≠ "A") ∧
      { id := 3, Name := "A" } ∉
        addedRunners (loadInputs duplicatePass { inputs := runningNew, specified := [] }).calls ∧
      { id := 4, Name := "A" } ∉
        addedRunners (loadInputs duplicatePass { inputs := runningNew, specified := [] }).calls ∧
      (∀ ir ∈
        addedRunners (loadInputs duplicatePass { inputs := runningNew, specified := [] }).calls,
        ir.Name ≠ "A")) :=
  ⟨listOrder_valid, by decide, by decide, by decide, by decide,
    conflict_stops_running_worker duplicatePass { inputs := runningNew, specified := [] }
      (mkEntry 2 "A" "new.toml" zeroConfig) (mkEntry 3 "A" "new.toml" zeroConfig)
      (mkEntry 4 "A" "other.toml" zeroConfig) "new.toml" "other.toml"
      listOrder_valid rfl (by decide) (by decide) rfl rfl (by decide) (by decide) (by decide)
      rfl rfl (by decide) (by decide)⟩

/-! ## loadInputs never panics -/

theorem specifiedLoop_ne_panic (env : PassEnv) (spec : List (String × LogstreamerEntry)) :
    ∀ fr, (specifiedLoop env spec fr).1 ≠ Flow.panic := by
  induction spec with
  | nil => intro fr h; exact Flow.noConfusion h
  | cons p rest ih =>
    intro fr
    obtain ⟨name, n⟩ := p
    have hb : (loopBody env name n fr).1 ≠ Flow.panic := loopBody_ne_panic name n fr
    unfold specifiedLoop
    rcases hl : loopBody env name n fr with ⟨flow, fr1⟩
    rw [hl] at hb
    cases flow with
    | next => exact ih fr1
    | ret => intro h; exact Flow.noConfusion h
    | panic => exact absurd rfl hb

/-- No call of `loadInputs` ends in a runtime panic. -/
theorem loadInputs_never_panics (env : PassEnv) (lsdi : LogstreamerDirectoryInput) :
    (loadInputs env lsdi).panicked = false := by
  unfold loadInputs
  cases env.walkErr with
  | some e => rfl
  | none =>
    have := specifiedLoop_ne_panic env env.walked (prunePhase env lsdi.inputs)
    simpa [reconcile] using this

/-! ## The exit-permission default -/

/-- C16: for every common configuration the original preparation step returned, the hook
returns a configuration whose `CanExit` is set: `true` when it was unset, the user's value
unchanged when it was set; every field other than `Retries` and `CanExit` is returned
unchanged. -/
theorem prepCommonTypedConfig_canExit {ρ : Type} (c : CommonInputConfig ρ) :
    ∃ c1, prepCommonTypedConfig (Except.ok c) = Except.ok c1 ∧
      c1.CanExit.isSome = true ∧
      (c.CanExit = none → c1.CanExit = some true) ∧
      (∀ b, c.CanExit = some b → c1.CanExit = some b) ∧
      c1.other = c.other := by
  unfold prepCommonTypedConfig
  cases h : c.CanExit with
  | none => exact ⟨_, rfl, by simp [h], by simp [h], by simp [h], by simp [h]⟩
  | some b => exact ⟨_, rfl, by simp [h], by simp [h], by simp [h], by simp [h]⟩

/-! ## Equals never indexes out of range -/

/-- Without the length test of lines 56 and 64 the loop would index out of range: the
model of the loop does report it. -/
theorem rangeCompare_unguarded : rangeCompare [] 0 ["x"] = none := rfl

/-- C17: `Equals` never panics.  For every pair of configurations, whatever the lengths
of their slices and the contents of their tables, `Equals` returns a boolean; under the
length tests of lines 56 and 64 every index `i` used on `otherEntry.Priority` and on
`otherEntry.Differentiator` is in range, so neither loop reports an access out of
range. -/
theorem Equals_never_panics (a b : LogstreamerInputConfig) :
    (∃ r, Equals a b = some r) ∧
    (a.Priority.length = b.Priority.length →
      ∃ r, rangeCompare b.Priority 0 a.Priority = some r) ∧
    (a.Differentiator.length = b.Differentiator.length →
      ∃ r, rangeCompare b.Differentiator 0 a.Differentiator = some r) :=
  ⟨⟨_, Equals_eq a b⟩, fun h => ⟨_, rangeCompare_zero _ _ h⟩,
    fun h => ⟨_, rangeCompare_zero _ _ h⟩⟩

/-! ## Equals on sequences and mappings -/

theorem innerMapEq_self {v : GoMap Int} (h : mapWF v) : innerMapEq v v = true := by
  unfold innerMapEq
  simp only [Bool.and_eq_true, List.all_eq_true, decide_eq_true_eq, and_self]
  intro p hp
  exact mapGet_eq_some_of_mem h hp

/-- Two tables that hold the same pairs in different insertion orders are structurally
equal. -/
theorem translationEq_of_perm {t u : GoMap (GoMap Int)} (ht : translationWF t)
    (hperm : t.Perm u) : translationEq t u = true := by
  have hu : mapWF u := by
    have : (mapKeys t).Perm (mapKeys u) := hperm.map _
    exact this.nodup_iff.mp ht.1
  unfold translationEq
  simp only [Bool.and_eq_true, List.all_eq_true]
  constructor
  · intro p hp
    rw [mapGet_eq_some_of_mem hu (hperm.mem_iff.mp hp)]
    exact innerMapEq_self (ht.2 p hp)
  · intro p hp
    have hpt := hperm.mem_iff.mpr hp
    rw [mapGet_eq_some_of_mem ht.1 hpt]
    exact innerMapEq_self (ht.2 p hpt)

theorem translationWF_of_perm {t u : GoMap (GoMap Int)} (ht : translationWF t)
    (hperm : t.Perm u) : translationWF u := by
  refine ⟨?_, fun p hp => ht.2 p (hperm.mem_iff.mpr hp)⟩
  have : (mapKeys t).Perm (mapKeys u) := hperm.map _
  exact this.nodup_iff.mp ht.1

/-- C12: `Equals` on sequences and mappings.  For every pair of configurations `c`, `d`
that agree on all compared fields (their tables being Go maps): `Equals` returns true when
both priority lists are `[x, y]`; it returns false when one is `[x, y]` and the other
`[y, x]` with `x` different from `y`; it returns true when the two translation tables hold
the same pairs in different insertion orders; it returns true on `c` and `d` themselves,
and on `c` and `c`. -/
theorem Equals_structural (c d : LogstreamerInputConfig)
    (hc : translationWF c.Translation) (hd : translationWF d.Translation)
    (hcd : StructurallyEqual c d = true) :
    (∀ x y, Equals { c with Priority := [x, y] } { d with Priority := [x, y] } = some true) ∧
    (∀ x y, x ≠ y →
      Equals { c with Priority := [x, y] } { d with Priority := [y, x] } = some false) ∧
    (∀ t u, translationWF t → t.Perm u →
      Equals { c with Translation := t } { d with Translation := u } = some true) ∧
    Equals c d = some true ∧ Equals c c = some true := by
  have hparts := hcd
  unfold StructurallyEqual at hparts
  simp only [Bool.and_eq_true, decide_eq_true_eq] at hparts
  obtain ⟨⟨⟨⟨⟨⟨⟨⟨⟨⟨h1, h2⟩, h3⟩, h4⟩, h5⟩, h6⟩, h7⟩, h8⟩, h9⟩, h10⟩, h11⟩ := hparts
  refine ⟨?_, ?_, ?_, ?_, ?_⟩
  · intro x y
    rw [Equals_eq]
    congr 1
    have hs : StructurallyEqual { c with Priority := [x, y] } { d with Priority := [x, y] } =
        true := by
      simp [StructurallyEqual, h1, h2, h3, h4, h5, h6, h7, h8, h10, h11]
    exact equalsAccepts_of_structurallyEqual hs hc hd.1
  · intro x y hxy
    rw [Equals_eq]
    congr 1
    cases h : equalsAccepts { c with Priority := [x, y] } { d with Priority := [y, x] } with
    | false => rfl
    | true =>
      have := (equalsAccepts_sequences h).1
      simp only [List.cons.injEq, and_true] at this
      exact absurd this.1 hxy
  · intro t u ht hperm
    rw [Equals_eq]
    congr 1
    have hs : StructurallyEqual { c with Translation := t } { d with Translation := u } =
        true := by
      simp [StructurallyEqual, h1, h2, h3, h4, h5, h6, h7, h8, h9, h10,
        translationEq_of_perm ht hperm]
    exact equalsAccepts_of_structurallyEqual hs ht (translationWF_of_perm ht hperm).1
  · rw [Equals_eq]
    congr 1
    exact equalsAccepts_of_structurallyEqual hcd hc hd.1
  · rw [Equals_eq]
    congr 1
    exact equalsAccepts_refl hc

/-- C12, witness: the statement at the zero configuration, with the priority lists
`[Year, Month]` and `[Month, Year]` and the two insertion orders of a two-key table. -/
theorem Equals_structural_witness :
    translationWF zeroConfig.Translation ∧ StructurallyEqual zeroConfig zeroConfig = true ∧
    translationWF tableMonthYear ∧ tableMonthYear.Perm tableYearMonth ∧
    Equals { zeroConfig with Priority := ["Year", "Month"] }
      { zeroConfig with Priority := ["Year", "Month"] } = some true ∧
    Equals { zeroConfig with Priority := ["Year", "Month"] }
      { zeroConfig with Priority := ["Month", "Year"] } = some false ∧
    Equals { zeroConfig with Translation := tableMonthYear }
      { zeroConfig with Translation := tableYearMonth } = some true :=
  have h := Equals_structural zeroConfig zeroConfig (by decide) (by decide) (by decide)
  ⟨by decide, by decide, by decide, List.Perm.swap _ _ _,
    h.1 "Year" "Month", h.2.1 "Year" "Month" (by decide),
    h.2.2.1 tableMonthYear tableYearMonth (by decide) (List.Perm.swap _ _ _)⟩

/-! ## Removal of vanished files -/

/-- What any iteration of the reconcile loop may do to the running set and to the list of
stopped handles, however it ends: every entry it leaves was there or is the new entry, and
every handle it stops is the handle of an entry that was running. -/
theorem loopBody_effect {env : PassEnv} (hord : env.order.Valid) (name : String)
    (n : LogstreamerEntry) (fr : Frame) :
    (∀ p ∈ (loopBody env name n fr).2.inputs, p ∈ fr.inputs ∨ p = (name, n)) ∧
    ∃ l, removedRunners (loopBody env name n fr).2.calls = removedRunners fr.calls ++ l ∧
      ∀ ir ∈ l, ir ∈ runners fr.inputs := by
  rcases loopBody_cases hord name n fr with
    ⟨p, hp, _, heq⟩ | ⟨_, ⟨e, _, _, _, _, heq⟩ | ⟨e, hget, _, heq⟩ | ⟨_, heq⟩⟩
  · rw [heq]
    refine ⟨fun q hq => Or.inl (mem_mapDelete.mp hq).1, [p.2.ir], ?_, ?_⟩
    · simp [stopFrame, removedRunners_append, removedRunners]
    · intro ir hir
      rw [List.mem_singleton.mp hir]
      exact List.mem_map_of_mem (fun q => q.2.ir) hp
  · rw [heq]
    exact ⟨fun q hq => Or.inl hq, [], by simp, fun ir hir => absurd hir (List.not_mem_nil _)⟩
  · rw [heq]
    obtain ⟨_, h2, _, h4⟩ := startInput_effect env name n (stopFrame fr name e.ir)
    refine ⟨?_, [e.ir], ?_, ?_⟩
    · intro q hq
      rcases h2 with h2 | h2 <;> rw [h2] at hq
      · exact Or.inl (mem_mapDelete.mp hq).1
      · rcases mem_mapSet hq with h5 | h5
        · exact Or.inl (mem_mapDelete.mp h5).1
        · exact Or.inr h5
    · rw [h4]
      simp [stopFrame, removedRunners_append, removedRunners]
    · intro ir hir
      rw [List.mem_singleton.mp hir]
      exact List.mem_map_of_mem (fun q => q.2.ir) (mem_of_mapGet_eq_some hget)
  · rw [heq]
    obtain ⟨_, h2, _, h4⟩ := startInput_effect env name n fr
    refine ⟨?_, [], ?_, fun ir hir => absurd hir (List.not_mem_nil _)⟩
    · intro q hq
      rcases h2 with h2 | h2 <;> rw [h2] at hq
      · exact Or.inl hq
      · exact mem_mapSet hq
    · rw [h4]; simp

/-- C11: removal of vanished files.  For every running set (entries stored under their
file paths, no handle held by two entries) and every scan result (whose handles are new),
a running entry whose backing file is absent from the scan result has
`RemoveInputRunner` called on its handle exactly once during `loadInputs` and is absent
from the running set afterwards, whether the pass returns nil or an error; the running
set afterwards has no key outside the scan result, so a running set `{A}` whose file was
deleted becomes the empty running set. -/
theorem vanished_file_is_removed (env : PassEnv) (lsdi : LogstreamerDirectoryInput)
    (k : String) (e : LogstreamerEntry)
    (hord : env.order.Valid) (hwalkErr : env.walkErr = none)
    (hfiled : filedByPath lsdi.inputs) (hnodup : (runners lsdi.inputs).Nodup)
    (hfresh : ∀ p ∈ env.walked, p.2.ir ≠ e.ir)
    (hmem : (k, e) ∈ lsdi.inputs) (habsent : e.fileName ∉ mapKeys env.walked) :
    (removedRunners (loadInputs env lsdi).calls).count e.ir = 1 ∧
    k ∉ mapKeys (loadInputs env lsdi).lsdi.inputs ∧
    (∀ p ∈ (loadInputs env lsdi).lsdi.inputs, p.2.ir ≠ e.ir) ∧
    (∀ j ∈ mapKeys (loadInputs env lsdi).lsdi.inputs, j ∈ mapKeys env.walked) := by
  have hk : k ∉ mapKeys env.walked := by
    have := hfiled (k, e) hmem
    simp only at this
    rw [← this]
    exact habsent
  have hperm := hord.1 lsdi.inputs
  -- the frame after the prune step
  have hstart : (removedRunners (prunePhase env lsdi.inputs).calls).count e.ir = 1 ∧
      (∀ p ∈ (prunePhase env lsdi.inputs).inputs, p.2.ir ≠ e.ir) ∧
      (∀ j ∈ mapKeys (prunePhase env lsdi.inputs).inputs, j ∈ mapKeys env.walked) := by
    refine ⟨?_, ?_, ?_⟩
    · have hrem : (removedRunners (prunePhase env lsdi.inputs).calls).Perm
          (runners (lsdi.inputs.filter (fun p => decide (p.1 ∉ mapKeys env.walked)))) := by
        unfold prunePhase
        rw [pruneLoop_removed]
        simp only [entryFrame, removedRunners, List.filterMap_nil, List.nil_append, runners]
        exact (hperm.filter _).map _
      rw [hrem.count_eq]
      apply List.count_eq_one_of_mem
      · unfold runners at hnodup ⊢
        exact hnodup.sublist ((List.filter_sublist _).map _)
      · unfold runners
        apply List.mem_map.mpr
        exact ⟨(k, e), List.mem_filter.mpr ⟨hmem, by simpa using hk⟩, rfl⟩
    · intro p hp hir
      rw [prunePhase_inputs hord] at hp
      obtain ⟨hp1, hp2⟩ := List.mem_filter.mp hp
      have hpe : p = (k, e) := List.inj_on_of_nodup_map hnodup hp1 hmem hir
      rw [hpe] at hp2
      exact hk (by simpa using hp2)
    · intro j hj
      rw [prunePhase_inputs hord] at hj
      obtain ⟨v, hv⟩ := mem_mapKeys_iff.mp hj
      simpa using (List.mem_filter.mp hv).2
  have hloop := specifiedLoop_induct env
    (fun f => (removedRunners f.calls).count e.ir = 1 ∧ (∀ p ∈ f.inputs, p.2.ir ≠ e.ir) ∧
      (∀ j ∈ mapKeys f.inputs, j ∈ mapKeys env.walked)) env.walked
    (by
      intro p hp f hf
      obtain ⟨hin, l, hl, hlmem⟩ := loopBody_effect hord p.1 p.2 f
      refine ⟨?_, ?_, ?_⟩
      · rw [hl, List.count_append, hf.1]
        have : List.count e.ir l = 0 := by
          apply List.count_eq_zero.mpr
          intro hmem1
          obtain ⟨q, hq, hqe⟩ := List.mem_map.mp (hlmem _ hmem1)
          exact hf.2.1 q hq hqe
        rw [this]
      · intro q hq
        rcases hin q hq with h | h
        · exact hf.2.1 q h
        · rw [h]; exact hfresh p hp
      · intro j hj
        obtain ⟨v, hv⟩ := mem_mapKeys_iff.mp hj
        rcases hin (j, v) hv with h | h
        · exact hf.2.2 j (mem_mapKeys_iff.mpr ⟨v, h⟩)
        · have hjp : j = p.1 := congrArg Prod.fst h
          rw [hjp]
          exact List.mem_map_of_mem Prod.fst hp)
    (prunePhase env lsdi.inputs) hstart
  simp only [loadInputs, hwalkErr, reconcile]
  exact ⟨hloop.1, fun h => hk (hloop.2.2 k h), hloop.2.1, hloop.2.2⟩

/-- C11, witness: `old.toml` is gone and `new.toml` declares a worker; the running entry
of `old.toml` is stopped once and is gone.  With an empty scan the running set `{A}`
becomes the empty running set, with one stop issued, for `A`. -/
theorem vanished_file_is_removed_witness :
    listOrder.Valid ∧ filedByPath runningOld ∧ (runners runningOld).Nodup ∧
    (loadInputs emptyScanPass { inputs := runningOld, specified := [] }).lsdi.inputs = [] ∧
    removedRunners (loadInputs emptyScanPass { inputs := runningOld, specified := [] }).calls =
      [{ id := 1, Name := "A" }] ∧
    ((removedRunners
        (loadInputs movedFilePass { inputs := runningOld, specified := [] }).calls).count
        { id := 1, Name := "A" } = 1 ∧
      "old.toml" ∉
        mapKeys (loadInputs movedFilePass { inputs := runningOld, specified := [] }).lsdi.inputs ∧
      (∀ p ∈ (loadInputs movedFilePass { inputs := runningOld, specified := [] }).lsdi.inputs,
        p.2.ir ≠ { id := 1, Name := "A" }) ∧
      (∀ j ∈
        mapKeys (loadInputs movedFilePass { inputs := runningOld, specified := [] }).lsdi.inputs,
        j ∈ mapKeys movedFilePass.walked)) :=
  ⟨listOrder_valid, by decide, by decide, by decide, by decide,
    vanished_file_is_removed movedFilePass { inputs := runningOld, specified := [] }
      "old.toml" (mkEntry 1 "A" "old.toml" zeroConfig) listOrder_valid rfl (by decide)
      (by decide) (by decide) (by decide) (by decide)⟩

/-! ## The control loop -/

theorem runLoop_tick_err (env : PassEnv) (rest : List RunEvent) (st : RunState) (e : String)
    (he : (loadInputs env st.lsdi).err = some e) :
    runLoop (RunEvent.tick env :: rest) st =
      { lsdi := (loadInputs env st.lsdi).lsdi
        passes := st.passes ++ [loadInputs env st.lsdi]
        calls := st.calls ++ (loadInputs env st.lsdi).calls
        err := (loadInputs env st.lsdi).err
        returned := true
        panicked := (loadInputs env st.lsdi).panicked } := by
  simp [runLoop, loadInputs_never_panics, he]

theorem runLoop_tick_nil (env : PassEnv) (rest : List RunEvent) (st : RunState)
    (he : (loadInputs env st.lsdi).err = none) :
    runLoop (RunEvent.tick env :: rest) st =
      runLoop rest
        { lsdi := (loadInputs env st.lsdi).lsdi
          passes := st.passes ++ [loadInputs env st.lsdi]
          calls := st.calls ++ (loadInputs env st.lsdi).calls
          err := (loadInputs env st.lsdi).err
          returned := false
          panicked := (loadInputs env st.lsdi).panicked } := by
  simp [runLoop, loadInputs_never_panics, he]

theorem Run_first_err (first : PassEnv) (events : List RunEvent)
    (lsdi : LogstreamerDirectoryInput) (e : String) (he : (loadInputs first lsdi).err = some e) :
    Run first events lsdi =
      { lsdi := (loadInputs first lsdi).lsdi
        passes := [loadInputs first lsdi]
        calls := (loadInputs first lsdi).calls
        err := (loadInputs first lsdi).err
        returned := true
        panicked := (loadInputs first lsdi).panicked } := by
  simp [Run, loadInputs_never_panics, he]

theorem Run_first_nil (first : PassEnv) (events : List RunEvent)
    (lsdi : LogstreamerDirectoryInput) (he : (loadInputs first lsdi).err = none) :
    Run first events lsdi =
      runLoop events
        { lsdi := (loadInputs first lsdi).lsdi
          passes := [loadInputs first lsdi]
          calls := (loadInputs first lsdi).calls
          err := (loadInputs first lsdi).err
          returned := false
          panicked := (loadInputs first lsdi).panicked } := by
  simp [Run, loadInputs_never_panics, he]

theorem runConsistent_after (st : RunState) (hst : st.calls = st.passes.flatMap (fun r => r.calls))
    (r : PassResult) (hr : r.panicked = false) (ret : Bool) :
    RunConsistent
      { lsdi := r.lsdi, passes := st.passes ++ [r], calls := st.calls ++ r.calls,
        err := r.err, returned := ret, panicked := r.panicked } := by
  refine ⟨?_, ⟨r, by simp, rfl, rfl⟩, hr⟩
  simp only [List.flatMap_append, hst]
  simp

theorem runLoop_ticks_then_stop (later : List RunEvent) (ticks : List PassEnv) :
    ∀ st : RunState, RunConsistent st → st.err = none →
      (runLoop (ticks.map RunEvent.tick ++ RunEvent.stop :: later) st).passes =
          st.passes ++ prescribedPasses ticks st.lsdi ∧
        (runLoop (ticks.map RunEvent.tick ++ RunEvent.stop :: later) st).returned = true ∧
        RunConsistent (runLoop (ticks.map RunEvent.tick ++ RunEvent.stop :: later) st) := by
  induction ticks with
  | nil =>
    intro st hst _
    simp only [List.map_nil, List.nil_append, runLoop, prescribedPasses, List.append_nil]
    exact ⟨trivial, trivial, hst⟩
  | cons env rest ih =>
    intro st hst herr
    have hp := loadInputs_never_panics env st.lsdi
    rw [List.map_cons, List.cons_append]
    cases he : (loadInputs env st.lsdi).err with
    | some e =>
      rw [runLoop_tick_err env _ st e he]
      refine ⟨?_, rfl, runConsistent_after st hst.1 _ hp true⟩
      simp [prescribedPasses, he]
    | none =>
      rw [runLoop_tick_nil env _ st he]
      obtain ⟨h1, h2, h3⟩ := ih _ (runConsistent_after st hst.1 _ hp false) he
      refine ⟨?_, h2, h3⟩
      rw [h1]
      simp [prescribedPasses, he]

/-- C13: the control loop of `Run` over ticks followed by a cancellation (what comes
after the cancellation is never received).  `Run` returns; the passes it executed are one
pass at once, before any event, then one per tick in order, and none after the first
pass that returned an error; what it returns is what the last pass executed returned,
which is nil when the cancellation was reached; the calls it made on the host are those
of the passes, so the cancellation itself calls `RemoveInputRunner` on no worker, and the
running set is left as the last pass left it. -/
theorem Run_control_loop (first : PassEnv) (ticks : List PassEnv) (later : List RunEvent)
    (lsdi : LogstreamerDirectoryInput) :
    (Run first (ticks.map RunEvent.tick ++ RunEvent.stop :: later) lsdi).returned = true ∧
    (Run first (ticks.map RunEvent.tick ++ RunEvent.stop :: later) lsdi).panicked = false ∧
    (Run first (ticks.map RunEvent.tick ++ RunEvent.stop :: later) lsdi).passes =
      prescribedPasses (first :: ticks) lsdi ∧
    (Run first (ticks.map RunEvent.tick ++ RunEvent.stop :: later) lsdi).calls =
      (prescribedPasses (first :: ticks) lsdi).flatMap (fun r => r.calls) ∧
    (∃ r, (prescribedPasses (first :: ticks) lsdi).getLast? = some r ∧
      (Run first (ticks.map RunEvent.tick ++ RunEvent.stop :: later) lsdi).err = r.err ∧
      (Run first (ticks.map RunEvent.tick ++ RunEvent.stop :: later) lsdi).lsdi = r.lsdi) ∧
    ((∀ r ∈ prescribedPasses (first :: ticks) lsdi, r.err = none) →
      (prescribedPasses (first :: ticks) lsdi).length = ticks.length + 1 ∧
      (Run first (ticks.map RunEvent.tick ++ RunEvent.stop :: later) lsdi).err = none) := by
  have hmain : (Run first (ticks.map RunEvent.tick ++ RunEvent.stop :: later) lsdi).returned =
        true ∧
      (Run first (ticks.map RunEvent.tick ++ RunEvent.stop :: later) lsdi).passes =
        prescribedPasses (first :: ticks) lsdi ∧
      RunConsistent (Run first (ticks.map RunEvent.tick ++ RunEvent.stop :: later) lsdi) := by
    have hp := loadInputs_never_panics first lsdi
    have hst0 : ∀ ret, RunConsistent
        { lsdi := (loadInputs first lsdi).lsdi
          passes := [loadInputs first lsdi]
          calls := (loadInputs first lsdi).calls
          err := (loadInputs first lsdi).err
          returned := ret
          panicked := (loadInputs first lsdi).panicked } :=
      fun ret => ⟨by simp, ⟨loadInputs first lsdi, by simp, rfl, rfl⟩, hp⟩
    cases he : (loadInputs first lsdi).err with
    | some e =>
      rw [Run_first_err first _ lsdi e he]
      exact ⟨rfl, by simp [prescribedPasses, he], hst0 true⟩
    | none =>
      rw [Run_first_nil first _ lsdi he]
      obtain ⟨h1, h2, h3⟩ := runLoop_ticks_then_stop later ticks _ (hst0 false) he
      exact ⟨h2, by rw [h1]; simp [prescribedPasses, he], h3⟩
  obtain ⟨hret, hpasses, hcalls, ⟨r, hlast, herr, hlsdi⟩, hpanic⟩ := hmain
  rw [hpasses] at hcalls hlast
  refine ⟨hret, hpanic, hpasses, hcalls, ⟨r, hlast, herr, hlsdi⟩, ?_⟩
  intro hall
  constructor
  · clear hret hpasses hcalls hlast herr hlsdi hpanic
    have hgen : ∀ (envs : List PassEnv) (s : LogstreamerDirectoryInput),
        (∀ q ∈ prescribedPasses envs s, q.err = none) →
        (prescribedPasses envs s).length = envs.length := by
      intro envs
      induction envs with
      | nil => intro s _; rfl
      | cons env rest ih =>
        intro s hq
        have h0 : (loadInputs env s).err = none := hq _ (by simp [prescribedPasses])
        have hrest : ∀ q ∈ prescribedPasses rest (loadInputs env s).lsdi, q.err = none := by
          intro q hqm
          apply hq
          simp [prescribedPasses, h0, hqm]
        simp [prescribedPasses, h0, ih _ hrest]
    simpa using hgen (first :: ticks) lsdi hall
  · rw [herr]
    exact hall r (List.mem_of_mem_getLast? hlast)

/-! ## Section selection in loadLogstreamerFile -/

theorem getConfigFileInfo_panics (world : ScanWorld) (name : String) (conf : Primitive)
    (e : String) (h : world.NewPluginMaker name PipelineConfig.fresh conf = some e) :
    getConfigFileInfo world name conf = none := by
  simp [getConfigFileInfo, h]

theorem getConfigFileInfo_match (world : ScanWorld) (name : String) (conf : Primitive)
    (h : world.NewPluginMaker name PipelineConfig.fresh conf = none)
    (ht : conf.makerType = "LogstreamerInput") :
    getConfigFileInfo world name conf =
      some (conf.makerName, "LogstreamerInput", conf.makerCategory) := by
  have hne : conf.makerType ≠ "" := by rw [ht]; decide
  simp [getConfigFileInfo, h, hne, ht]

theorem getConfigFileInfo_other (world : ScanWorld) (name : String) (conf : Primitive)
    (h : world.NewPluginMaker name PipelineConfig.fresh conf = none)
    (ht : conf.makerType ≠ "LogstreamerInput") :
    ∃ r, getConfigFileInfo world name conf = some r ∧ r.2.1 ≠ "LogstreamerInput" := by
  by_cases hne : conf.makerType = ""
  · exact ⟨("", "", ""), by simp [getConfigFileInfo, h, hne], by decide⟩
  · exact ⟨(conf.makerName, conf.makerType, conf.makerCategory),
      by simp [getConfigFileInfo, h, hne], ht⟩

theorem selectLoop_cons_panic (world : ScanWorld) (name : String) (conf : Primitive)
    (rest : List (String × Primitive)) (vars : SelectVars) (e : String)
    (h : world.NewPluginMaker name PipelineConfig.fresh conf = some e) :
    selectLoop world ((name, conf) :: rest) vars = none := by
  simp [selectLoop, getConfigFileInfo_panics world name conf e h]

theorem selectLoop_cons_match (world : ScanWorld) (name : String) (conf : Primitive)
    (rest : List (String × Primitive)) (vars : SelectVars)
    (h : world.NewPluginMaker name PipelineConfig.fresh conf = none)
    (ht : conf.makerType = "LogstreamerInput") :
    selectLoop world ((name, conf) :: rest) vars =
      selectLoop world rest { ok := true, sectionPrim := conf, path := conf.makerName } := by
  simp [selectLoop, getConfigFileInfo_match world name conf h ht]

theorem selectLoop_cons_other (world : ScanWorld) (name : String) (conf : Primitive)
    (rest : List (String × Primitive)) (vars : SelectVars)
    (h : world.NewPluginMaker name PipelineConfig.fresh conf = none)
    (ht : conf.makerType ≠ "LogstreamerInput") :
    selectLoop world ((name, conf) :: rest) vars = selectLoop world rest vars := by
  obtain ⟨r, hr, hrt⟩ := getConfigFileInfo_other world name conf h ht
  obtain ⟨confName, confType, confCategory⟩ := r
  simp only [selectLoop, hr]
  exact if_neg hrt

/-- The loop of lines 286-294 panics exactly when the host makes no maker for one of the
sections, wherever that section stands in the order of the loop. -/
theorem selectLoop_panics_iff (world : ScanWorld) (l : List (String × Primitive)) :
    ∀ vars : SelectVars,
      selectLoop world l vars = none ↔
        ∃ p ∈ l, world.NewPluginMaker p.1 PipelineConfig.fresh p.2 ≠ none := by
  induction l with
  | nil => intro vars; simp [selectLoop]
  | cons q rest ih =>
    intro vars
    obtain ⟨name, conf⟩ := q
    cases h : world.NewPluginMaker name PipelineConfig.fresh conf with
    | some e =>
      rw [selectLoop_cons_panic world name conf rest vars e h]
      exact ⟨fun _ => ⟨(name, conf), List.mem_cons_self _ _, by simp [h]⟩, fun _ => rfl⟩
    | none =>
      have hrest : ∀ v : SelectVars, (selectLoop world rest v = none ↔
          ∃ p ∈ (name, conf) :: rest,
            world.NewPluginMaker p.1 PipelineConfig.fresh p.2 ≠ none) := by
        intro v
        rw [ih v]
        constructor
        · rintro ⟨p, hp, hne⟩
          exact ⟨p, List.mem_cons_of_mem _ hp, hne⟩
        · rintro ⟨p, hp, hne⟩
          rcases List.mem_cons.mp hp with hpq | hpq
          · rw [hpq] at hne
            exact absurd h hne
          · exact ⟨p, hpq, hne⟩
      by_cases ht : conf.makerType = "LogstreamerInput"
      · rw [selectLoop_cons_match world name conf rest vars h ht]
        exact hrest _
      · rw [selectLoop_cons_other world name conf rest vars h ht]
        exact hrest _

theorem selectLoop_spec (world : ScanWorld) (l : List (String × Primitive))
    (hmk : ∀ p ∈ l, world.NewPluginMaker p.1 PipelineConfig.fresh p.2 = none) :
    ∀ vars : SelectVars,
      ((∀ p ∈ l, p.2.makerType ≠ "LogstreamerInput") → selectLoop world l vars = some vars) ∧
      ((∃ p ∈ l, p.2.makerType = "LogstreamerInput") →
        ∃ p ∈ l, p.2.makerType = "LogstreamerInput" ∧
          selectLoop world l vars =
            some { ok := true, sectionPrim := p.2, path := p.2.makerName }) := by
  induction l with
  | nil =>
    intro vars
    exact ⟨fun _ => rfl, fun ⟨p, hp, _⟩ => absurd hp (List.not_mem_nil _)⟩
  | cons q rest ih =>
    intro vars
    obtain ⟨name, conf⟩ := q
    have hq0 : world.NewPluginMaker name PipelineConfig.fresh conf = none :=
      hmk (name, conf) (List.mem_cons_self _ _)
    have ihr := ih (fun p hp => hmk p (List.mem_cons_of_mem _ hp))
    by_cases hq : conf.makerType = "LogstreamerInput"
    · rw [selectLoop_cons_match world name conf rest vars hq0 hq]
      constructor
      · intro hall
        exact absurd hq (hall (name, conf) (List.mem_cons_self _ _))
      · intro _
        by_cases hrest : ∃ p ∈ rest, p.2.makerType = "LogstreamerInput"
        · obtain ⟨p, hp, hpt, heq⟩ := (ihr _).2 hrest
          exact ⟨p, List.mem_cons_of_mem _ hp, hpt, heq⟩
        · have hnone : ∀ p ∈ rest, p.2.makerType ≠ "LogstreamerInput" :=
            fun p hp hpt => hrest ⟨p, hp, hpt⟩
          exact ⟨(name, conf), List.mem_cons_self _ _, hq, (ihr _).1 hnone⟩
    · rw [selectLoop_cons_other world name conf rest vars hq0 hq]
      constructor
      · intro hall
        exact (ihr vars).1 (fun p hp => hall p (List.mem_cons_of_mem _ hp))
      · intro ⟨p, hp, hpt⟩
        rcases List.mem_cons.mp hp with h | h
        · rw [h] at hpt
          exact absurd hpt hq
        · obtain ⟨p1, hp1, hpt1, heq⟩ := (ihr vars).2 ⟨p, h, hpt⟩
          exact ⟨p1, List.mem_cons_of_mem _ hp1, hpt1, heq⟩

/-- Once decoding succeeded, `loadLogstreamerFile` panics exactly when the host makes no
maker for one of the sections of the file. -/
theorem loadLogstreamerFile_panics_iff (world : ScanWorld) (path : String)
    (sections : GoMap Primitive) (hdec : world.DecodeFile path = Except.ok sections) :
    loadLogstreamerFile world path = none ↔
      ∃ p ∈ sections, world.NewPluginMaker p.1 PipelineConfig.fresh p.2 ≠ none := by
  rw [← selectLoop_panics_iff world sections
    { ok := false, sectionPrim := zeroPrimitive, path := path }]
  unfold loadLogstreamerFile
  simp only [hdec]
  cases hsel : selectLoop world sections
      { ok := false, sectionPrim := zeroPrimitive, path := path } with
  | none => simp
  | some vars =>
    simp only [reduceCtorEq, iff_false]
    by_cases hok : vars.ok = true
    · cases hm : world.NewPluginMaker "LogstreamerInput" PipelineConfig.plugin
          vars.sectionPrim <;> simp [hok]
    · simp [hok]

/-- Section selection in `loadLogstreamerFile` where the host makes a maker for every
section of the file.  Once decoding succeeded, it fails with the
"No `LogstreamerInput` section." error if and only if no section has declared type
`LogstreamerInput`.  Otherwise one section of that declared type is handed to
`NewPluginMaker`, and when the maker is made its name is that same section's declared
name; the outcome is the same for every path that decodes to the same sections. -/
theorem loadLogstreamerFile_selects (world : ScanWorld) (path : String)
    (sections : GoMap Primitive) (hdec : world.DecodeFile path = Except.ok sections)
    (hmk : ∀ p ∈ sections, world.NewPluginMaker p.1 PipelineConfig.fresh p.2 = none) :
    (loadLogstreamerFile world path = some (Except.error LoadFileError.noSection) ↔
      ∀ p ∈ sections, p.2.makerType ≠ "LogstreamerInput") ∧
    ((∃ p ∈ sections, p.2.makerType = "LogstreamerInput") →
      ∃ p ∈ sections, p.2.makerType = "LogstreamerInput" ∧
        ((world.NewPluginMaker "LogstreamerInput" PipelineConfig.plugin p.2 = none ∧
            loadLogstreamerFile world path =
              some (Except.ok { sectionPrim := p.2, name := p.2.makerName,
                                prepCommonTypedConfigSet := true, prepConfigSet := false })) ∨
         (∃ e, world.NewPluginMaker "LogstreamerInput" PipelineConfig.plugin p.2 = some e ∧
            loadLogstreamerFile world path =
              some (Except.error (LoadFileError.makerFailed e))))) ∧
    (∀ other, world.DecodeFile other = Except.ok sections →
      loadLogstreamerFile world other = loadLogstreamerFile world path) := by
  have hsome : ∀ (start : String), (∃ p ∈ sections, p.2.makerType = "LogstreamerInput") →
      ∃ p ∈ sections, p.2.makerType = "LogstreamerInput" ∧
        selectLoop world sections
            { ok := false, sectionPrim := zeroPrimitive, path := start } =
          some { ok := true, sectionPrim := p.2, path := p.2.makerName } :=
    fun start h => (selectLoop_spec world sections hmk _).2 h
  have hnone : ∀ (start : String), (∀ p ∈ sections, p.2.makerType ≠ "LogstreamerInput") →
      selectLoop world sections { ok := false, sectionPrim := zeroPrimitive, path := start } =
        some { ok := false, sectionPrim := zeroPrimitive, path := start } :=
    fun start h => (selectLoop_spec world sections hmk _).1 h
  have hfound : (∃ p ∈ sections, p.2.makerType = "LogstreamerInput") →
      ∃ p ∈ sections, p.2.makerType = "LogstreamerInput" ∧
        ((world.NewPluginMaker "LogstreamerInput" PipelineConfig.plugin p.2 = none ∧
            loadLogstreamerFile world path =
              some (Except.ok { sectionPrim := p.2, name := p.2.makerName,
                                prepCommonTypedConfigSet := true, prepConfigSet := false })) ∨
         (∃ e, world.NewPluginMaker "LogstreamerInput" PipelineConfig.plugin p.2 = some e ∧
            loadLogstreamerFile world path =
              some (Except.error (LoadFileError.makerFailed e)))) := by
    intro h
    obtain ⟨p, hp, hpt, heq⟩ := hsome path h
    refine ⟨p, hp, hpt, ?_⟩
    unfold loadLogstreamerFile
    simp only [hdec, heq]
    cases hm : world.NewPluginMaker "LogstreamerInput" PipelineConfig.plugin p.2 with
    | none => left; exact ⟨rfl, by simp⟩
    | some e => right; exact ⟨e, rfl, by simp⟩
  refine ⟨?_, hfound, ?_⟩
  · constructor
    · intro hfail p hp hpt
      obtain ⟨q, _, _, hq⟩ := hfound ⟨p, hp, hpt⟩
      rcases hq with ⟨_, hq⟩ | ⟨e, _, hq⟩
      · rw [hq] at hfail
        exact Except.noConfusion (Option.some.inj hfail)
      · rw [hq] at hfail
        exact LoadFileError.noConfusion (Except.error.inj (Option.some.inj hfail))
    · intro hall
      unfold loadLogstreamerFile
      simp [hdec, hnone path hall]
  · intro other hother
    by_cases h : ∃ p ∈ sections, p.2.makerType = "LogstreamerInput"
    · have hgen : ∀ (l : List (String × Primitive)) (v w : SelectVars),
          (∃ p ∈ l, p.2.makerType = "LogstreamerInput") →
          (∀ p ∈ l, world.NewPluginMaker p.1 PipelineConfig.fresh p.2 = none) →
          selectLoop world l v = selectLoop world l w := by
        intro l
        induction l with
        | nil => intro v w ⟨p, hp, _⟩; exact absurd hp (List.not_mem_nil _)
        | cons q rest ih =>
          intro v w hex hmk1
          obtain ⟨name, conf⟩ := q
          have hq0 : world.NewPluginMaker name PipelineConfig.fresh conf = none :=
            hmk1 (name, conf) (List.mem_cons_self _ _)
          by_cases hq : conf.makerType = "LogstreamerInput"
          · rw [selectLoop_cons_match world name conf rest v hq0 hq,
              selectLoop_cons_match world name conf rest w hq0 hq]
          · rw [selectLoop_cons_other world name conf rest v hq0 hq,
              selectLoop_cons_other world name conf rest w hq0 hq]
            apply ih
            · obtain ⟨p, hp, hpt⟩ := hex
              rcases List.mem_cons.mp hp with h1 | h1
              · rw [h1] at hpt
                exact absurd hpt hq
              · exact ⟨p, h1, hpt⟩
            · exact fun p hp => hmk1 p (List.mem_cons_of_mem _ hp)
      have hpq := hgen sections
        { ok := false, sectionPrim := zeroPrimitive, path := other }
        { ok := false, sectionPrim := zeroPrimitive, path := path } h hmk
      unfold loadLogstreamerFile
      simp only [hdec, hother, hpq]
    · have hall : ∀ p ∈ sections, p.2.makerType ≠ "LogstreamerInput" :=
        fun p hp hpt => h ⟨p, hp, hpt⟩
      unfold loadLogstreamerFile
      simp [hdec, hother, hnone path hall, hnone other hall]

/-- C15, evaluated on a file with a section of an unregistered type.  The file `c.toml` of
the sample world decodes to the single section `hekad`, so no section has declared type
`LogstreamerInput`; `loadLogstreamerFile` does not return the
"No `LogstreamerInput` section." error, it panics in `getConfigFileInfo`.  The file
`d.toml` holds a `LogstreamerInput` section next to `hekad`, and no maker is named
after it: the call panics as well. -/
theorem loadLogstreamerFile_panics_on_unregistered_section :
    (∀ p ∈ hekadSections, p.2.makerType ≠ "LogstreamerInput") ∧
    getConfigFileInfo sampleWorld "hekad"
      { id := 3, makerName := "hekad", makerType := "hekad", makerCategory := "" } = none ∧
    loadLogstreamerFile sampleWorld "logstreamers.d/c.toml" = none ∧
    loadLogstreamerFile sampleWorld "logstreamers.d/c.toml" ≠
      some (Except.error LoadFileError.noSection) ∧
    (∃ p ∈ mixedSections, p.2.makerType = "LogstreamerInput") ∧
    loadLogstreamerFile sampleWorld "logstreamers.d/d.toml" = none ∧
    loadLogstreamerFile sampleWorld "logstreamers.d/a.toml" =
      some (Except.ok { sectionPrim := { id := 2, makerName := "syslog",
                                         makerType := "LogstreamerInput",
                                         makerCategory := "Input" },
                        name := "syslog", prepCommonTypedConfigSet := true,
                        prepConfigSet := false }) :=
  ⟨by decide, rfl, rfl, fun h => Option.noConfusion h, by decide, rfl, rfl⟩

/-! ## logDirWalkFunc -/

/-- The walk function panics exactly on a regular `.toml` file, visited without walk
error, on which `loadLogstreamerFile` panics. -/
theorem logDirWalkFunc_panics_iff (world : ScanWorld) (specified : GoMap LogstreamerEntry)
    (path : String) (info : Option FileInfo) (err : Option String) :
    logDirWalkFunc world specified path info err = none ↔
      (err = none ∧ ∃ fi, info = some fi ∧ fi.IsDir = false ∧ Ext path = ".toml" ∧
        loadLogstreamerFile world path = none) := by
  cases err with
  | some e0 => simp [logDirWalkFunc]
  | none =>
    cases info with
    | none => simp [logDirWalkFunc]
    | some fi =>
      by_cases hskip : fi.IsDir = true ∨ ¬ Ext path = ".toml"
      · have hres : logDirWalkFunc world specified path (some fi) none =
            some { specified := specified, logged := [], transient := [], ret := none } := by
          simp [logDirWalkFunc, hskip]
        rw [hres]
        simp only [reduceCtorEq, false_iff, true_and, not_exists, not_and]
        intro fi1 hfi hdir hext
        have : fi = fi1 := Option.some.inj hfi
        subst this
        rcases hskip with h | h
        · rw [h] at hdir; exact Bool.noConfusion hdir
        · exact absurd hext h
      · have hs := hskip
        simp only [not_or, Bool.not_eq_true, not_not] at hs
        cases hl : loadLogstreamerFile world path with
        | none =>
          have hres : logDirWalkFunc world specified path (some fi) none = none := by
            simp [logDirWalkFunc, hskip, hl]
          rw [hres]
          simp only [true_iff, true_and]
          exact ⟨fi, rfl, hs.1, hs.2, trivial⟩
        | some r =>
          have hres : logDirWalkFunc world specified path (some fi) none ≠ none := by
            cases r with
            | error e1 => simp [logDirWalkFunc, hskip, hl]
            | ok maker =>
              cases hp : world.OrigPrepConfig maker with
              | error e2 => simp [logDirWalkFunc, hskip, hl, hp]
              | ok config =>
                cases hm : world.MakeRunner { maker with prepConfigSet := true } <;>
                  simp [logDirWalkFunc, hskip, hl, hp, hm]
          constructor
          · intro h; exact absurd h hres
          · rintro ⟨_, _, _, _, _, h⟩
            exact Option.noConfusion h

theorem logDirWalkFunc_specified (world : ScanWorld) (specified : GoMap LogstreamerEntry)
    (path : String) (info : Option FileInfo) (err : Option String) (res : WalkResult)
    (hret : logDirWalkFunc world specified path info err = some res) :
    res.ret = none ∧
    (res.specified = specified ∨
      ∃ entry, entry.fileName = path ∧ res.specified = mapSet specified path entry) := by
  cases err with
  | some e0 =>
    simp only [logDirWalkFunc, Option.some.injEq] at hret
    subst hret
    exact ⟨rfl, Or.inl rfl⟩
  | none =>
    cases info with
    | none =>
      simp only [logDirWalkFunc, Option.some.injEq] at hret
      subst hret
      exact ⟨rfl, Or.inl rfl⟩
    | some fi =>
      by_cases hskip : fi.IsDir = true ∨ ¬ Ext path = ".toml"
      · simp [logDirWalkFunc, hskip] at hret
        subst hret
        exact ⟨rfl, Or.inl rfl⟩
      · cases hl : loadLogstreamerFile world path with
        | none => simp [logDirWalkFunc, hskip, hl] at hret
        | some r =>
          cases r with
          | error e1 =>
            simp [logDirWalkFunc, hskip, hl] at hret
            subst hret
            exact ⟨rfl, Or.inl rfl⟩
          | ok maker =>
            cases hp : world.OrigPrepConfig maker with
            | error e2 =>
              simp [logDirWalkFunc, hskip, hl, hp] at hret
              subst hret
              exact ⟨rfl, Or.inl rfl⟩
            | ok config =>
              cases hm : world.MakeRunner { maker with prepConfigSet := true } with
              | error e3 =>
                simp [logDirWalkFunc, hskip, hl, hp, hm] at hret
                subst hret
                exact ⟨rfl, Or.inl rfl⟩
              | ok runner =>
                simp [logDirWalkFunc, hskip, hl, hp, hm] at hret
                subst hret
                exact ⟨rfl, Or.inr ⟨{ ir := runner, config := config, fileName := path },
                  rfl, rfl⟩⟩

/-- Every specified set a scan that completes builds from the empty map is a map that
stores each entry under its file path: what the statements about `loadInputs` take for
granted about scan results. -/
theorem walkNodes_filedByPath (world : ScanWorld) (nodes : List WalkNode) :
    ∀ specified result, mapWF specified → filedByPath specified →
      walkNodes world nodes specified = some result →
      mapWF result ∧ filedByPath result := by
  induction nodes with
  | nil =>
    intro specified result h1 h2 hres
    simp only [walkNodes, Option.some.injEq] at hres
    subst hres
    exact ⟨h1, h2⟩
  | cons node rest ih =>
    intro specified result h1 h2 hres
    unfold walkNodes at hres
    cases hnode : logDirWalkFunc world specified node.path node.info node.err with
    | none => simp [hnode] at hres
    | some res =>
      simp only [hnode] at hres
      rcases (logDirWalkFunc_specified world specified node.path node.info node.err res
        hnode).2 with h | ⟨entry, hfile, h⟩
      · rw [h] at hres; exact ih specified result h1 h2 hres
      · rw [h] at hres
        refine ih _ result (mapWF_mapSet h1 _ _) ?_ hres
        intro p hp
        rcases mem_mapSet hp with h3 | h3
        · exact h2 p h3
        · rw [h3]; exact hfile

/-- A scan in which the walk function panics on one of the nodes does not complete. -/
theorem walkNodes_panics_of_mem (world : ScanWorld) (nodes : List WalkNode) :
    ∀ specified, (∃ node ∈ nodes, ∀ s, logDirWalkFunc world s node.path node.info node.err = none) →
      walkNodes world nodes specified = none := by
  induction nodes with
  | nil => intro _ ⟨n, hn, _⟩; exact absurd hn (List.not_mem_nil _)
  | cons node rest ih =>
    intro specified ⟨n, hn, hpanic⟩
    unfold walkNodes
    cases hnode : logDirWalkFunc world specified node.path node.info node.err with
    | none => rfl
    | some res =>
      rcases List.mem_cons.mp hn with h | h
      · subst h
        rw [hpanic specified] at hnode
        exact Option.noConfusion hnode
      · exact ih res.specified ⟨n, h, hpanic⟩

/-- C14, evaluated on a file with a section of an unregistered type.  `c.toml` of the
sample world is a regular file with the extension `.toml`, visited without walk error,
whose single section `hekad` the host makes no maker for: `logDirWalkFunc` does not
return nil, it panics in `getConfigFileInfo` (line 338), and the scan of the directory
is aborted although `a.toml`, visited before, was loaded. -/
theorem logDirWalkFunc_panics_on_unregistered_section :
    Ext "logstreamers.d/c.toml" = ".toml" ∧
    logDirWalkFunc sampleWorld [] "logstreamers.d/c.toml" (some { IsDir := false }) none =
      none ∧
    (logDirWalkFunc sampleWorld [] "logstreamers.d/a.toml" (some { IsDir := false }) none).map
        (fun res => mapKeys res.specified) = some ["logstreamers.d/a.toml"] ∧
    walkNodes sampleWorld
      [{ path := "logstreamers.d", info := some { IsDir := true }, err := none },
       { path := "logstreamers.d/a.toml", info := some { IsDir := false }, err := none },
       { path := "logstreamers.d/c.toml", info := some { IsDir := false }, err := none }]
      [] = none := by
  decide

/-! ## Order of the specified entries -/

/-- C18, counterexample: from the empty running set, on a host that accepts every handle,
the same three files are visited in two orders.  With `b.toml` first, `B` is started
before the conflict on `A` ends the pass, and `B` is running afterwards; with `b.toml`
last, the pass ends at the conflict, `B` is never started and the running set is
empty. -/
theorem conflict_outcome_depends_on_order :
    conflictLastPass.walked.Perm conflictFirstPass.walked ∧
    (loadInputs conflictLastPass Init).lsdi.inputs =
      [("b.toml", mkEntry 5 "B" "b.toml" zeroConfig)] ∧
    (loadInputs conflictFirstPass Init).lsdi.inputs = [] ∧
    addedRunners (loadInputs conflictLastPass Init).calls =
      [{ id := 5, Name := "B" }, { id := 1, Name := "A" }] ∧
    addedRunners (loadInputs conflictFirstPass Init).calls = [{ id := 1, Name := "A" }] := by
  refine ⟨?_, by decide, by decide, by decide, by decide⟩
  exact (List.perm_append_comm : ([("b.toml", mkEntry 5 "B" "b.toml" zeroConfig)] ++
    [("a.toml", mkEntry 1 "A" "a.toml" zeroConfig),
     ("other.toml", mkEntry 4 "A" "other.toml" zeroConfig)]).Perm _)

theorem stopFrame_effect (fr : Frame) (name : String) (ir : InputRunner) :
    (stopFrame fr name ir).dups = fr.dups ∧
    mapGet (stopFrame fr name ir).inputs name = none ∧
    (∀ k, k ≠ name → mapGet (stopFrame fr name ir).inputs k = mapGet fr.inputs k) ∧
    (mapWF fr.inputs → mapWF (stopFrame fr name ir).inputs) ∧
    addedRunners (stopFrame fr name ir).calls = addedRunners fr.calls ∧
    removedRunners (stopFrame fr name ir).calls = removedRunners fr.calls ++ [ir] := by
  refine ⟨rfl, mapGet_mapDelete_self _ _, fun k hk => mapGet_mapDelete_ne _ hk,
    fun h => mapWF_mapDelete h name, ?_, ?_⟩
  · simp [stopFrame, addedRunners_append, addedRunners]
  · simp [stopFrame, removedRunners_append, removedRunners]

theorem startInput_settle {env : PassEnv} (host : InputRunner → Option String)
    (hhost : ∀ calls ir, env.AddInputRunner calls ir = host ir)
    (name : String) (n : LogstreamerEntry) (fr : Frame) :
    (startInput env name n fr).dups = fr.dups ∧
    mapGet (startInput env name n fr).inputs name =
      (match host n.ir with
       | none => some n
       | some _ => mapGet fr.inputs name) ∧
    (∀ k, k ≠ name → mapGet (startInput env name n fr).inputs k = mapGet fr.inputs k) ∧
    (mapWF fr.inputs → mapWF (startInput env name n fr).inputs) ∧
    addedRunners (startInput env name n fr).calls = addedRunners fr.calls ++ [n.ir] ∧
    removedRunners (startInput env name n fr).calls = removedRunners fr.calls := by
  rcases startInput_cases env name n fr with ⟨e, hadd, heq⟩ | ⟨hadd, heq⟩
  · rw [hhost] at hadd
    rw [heq, hadd]
    exact ⟨rfl, rfl, fun _ _ => rfl, fun h => h,
      by simp [addedRunners_append, addedRunners],
      by simp [removedRunners_append, removedRunners]⟩
  · rw [hhost] at hadd
    rw [heq, hadd]
    exact ⟨rfl, mapGet_mapSet_self _ _ _, fun k hk => mapGet_mapSet_ne _ _ hk,
      fun h => mapWF_mapSet h name n,
      by simp [addedRunners_append, addedRunners],
      by simp [removedRunners_append, removedRunners]⟩

theorem settled_next {env : PassEnv} (hord : env.order.Valid)
    (host : InputRunner → Option String)
    (hhost : ∀ calls ir, env.AddInputRunner calls ir = host ir)
    {spec done rest : List (String × LogstreamerEntry)} {p : String × LogstreamerEntry}
    {start fr : Frame} (hsplit : done ++ p :: rest = spec) (hspec : mapWF spec)
    (hq : Settled host start done fr)
    (hnext : (loopBody env p.1 p.2 fr).1 = Flow.next) :
    Settled host start (done ++ [p]) (loopBody env p.1 p.2 fr).2 := by
  obtain ⟨hd, hwf, hdone, hrest, hrem, hadd⟩ := hq
  obtain ⟨_, _, hne⟩ := split_facts hsplit hspec
  have hpnot : p.1 ∉ mapKeys done := by
    intro h
    obtain ⟨q, hq1, hq2⟩ := List.mem_map.mp h
    exact hne q hq1 hq2
  have hstart : mapGet fr.inputs p.1 = mapGet start.inputs p.1 := hrest p.1 hpnot
  -- what is left to show once the new frame is known at the key of `p` and elsewhere
  have hfinish : ∀ fr1 : Frame, fr1.dups = false → mapWF fr1.inputs →
      mapGet fr1.inputs p.1 = settledEntry host start.inputs p →
      (∀ k, k ≠ p.1 → mapGet fr1.inputs k = mapGet fr.inputs k) →
      removedRunners fr1.calls = removedRunners fr.calls ++ stoppedFor start.inputs p →
      addedRunners fr1.calls = addedRunners fr.calls ++ startedFor start.inputs p →
      Settled host start (done ++ [p]) fr1 := by
    intro fr1 h1 h2 h3 h4 h5 h6
    refine ⟨h1, h2, ?_, ?_, ?_, ?_⟩
    · intro q hq1
      rcases List.mem_append.mp hq1 with h | h
      · rw [h4 q.1 (hne q h)]
        exact hdone q h
      · rw [List.mem_singleton.mp h]
        exact h3
    · intro k hk
      have hk1 : k ∉ mapKeys done ∧ k ≠ p.1 := by
        unfold mapKeys at hk ⊢
        simp only [List.map_append, List.map_cons, List.map_nil, List.mem_append,
          List.mem_singleton, not_or] at hk
        exact hk
      rw [h4 k hk1.2]
      exact hrest k hk1.1
    · rw [h5, hrem, List.flatMap_append]
      simp
    · rw [h6, hadd, List.flatMap_append]
      simp
  rcases loopBody_cases hord p.1 p.2 fr with
    ⟨q, _, _, heq⟩ | ⟨_, ⟨e, hget, hacc, hnm, _, heq⟩ | ⟨e, hget, hc, heq⟩ | ⟨hget, heq⟩⟩
  · rw [heq] at hnext
    exact Flow.noConfusion hnext
  · -- the running entry is kept
    rw [heq]
    have hkeep : keepsRunning start.inputs p = true := by
      unfold keepsRunning
      rw [← hstart, hget]
      simp [hacc, hnm]
    apply hfinish fr hd hwf
    · unfold settledEntry
      rw [hkeep, if_pos rfl, hstart]
    · intro _ _; rfl
    · unfold stoppedFor
      rw [← hstart, hget]
      simp [hkeep]
    · unfold startedFor
      simp [hkeep]
  · -- the running entry is stopped and the new one is started
    rw [heq]
    have hkeep : keepsRunning start.inputs p = false := by
      unfold keepsRunning
      rw [← hstart, hget]
      simpa [hd] using hc
    obtain ⟨s1, s2, s3, s4, s5, s6⟩ := stopFrame_effect fr p.1 e.ir
    obtain ⟨t1, t2, t3, t4, t5, t6⟩ :=
      startInput_settle host hhost p.1 p.2 (stopFrame fr p.1 e.ir)
    apply hfinish _ (by rw [t1, s1]; exact hd) (t4 (s4 hwf))
    · rw [t2]
      unfold settledEntry
      rw [hkeep]
      cases host p.2.ir with
      | none => rfl
      | some _ => simp [s2]
    · intro k hk
      rw [t3 k hk, s3 k hk]
    · rw [t6, s6]
      unfold stoppedFor
      rw [← hstart, hget]
      simp [hkeep]
    · rw [t5, s5]
      unfold startedFor
      simp [hkeep]
  · -- no entry runs under this key: the new one is started
    rw [heq]
    have hkeep : keepsRunning start.inputs p = false := by
      unfold keepsRunning
      rw [← hstart, hget]
    obtain ⟨t1, t2, t3, t4, t5, t6⟩ := startInput_settle host hhost p.1 p.2 fr
    apply hfinish _ (by rw [t1]; exact hd) (t4 hwf)
    · rw [t2]
      unfold settledEntry
      rw [hkeep]
      cases host p.2.ir with
      | none => rfl
      | some _ => simp [hget]
    · intro k hk
      exact t3 k hk
    · rw [t6]
      unfold stoppedFor
      rw [← hstart, hget]
      simp
    · rw [t5]
      unfold startedFor
      simp [hkeep]

/-- A reconcile loop that detects no conflict settles every specified entry on its own:
the result is told by the frame it started from, entry by entry. -/
theorem specifiedLoop_settled {env : PassEnv} (hord : env.order.Valid)
    (host : InputRunner → Option String)
    (hhost : ∀ calls ir, env.AddInputRunner calls ir = host ir)
    (spec : GoMap LogstreamerEntry) (hspec : mapWF spec) (start : Frame)
    (hwf : mapWF start.inputs) (hd : start.dups = false)
    (hdups : (specifiedLoop env spec start).2.dups = false) :
    Settled host start spec (specifiedLoop env spec start).2 := by
  have hnext : (specifiedLoop env spec start).1 = Flow.next := by
    rcases specifiedLoop_flow hord spec start with h | h
    · exact h
    · rw [h.2] at hdups
      exact absurd hdups (by decide)
  have h0 : Settled host start [] start := by
    refine ⟨hd, hwf, ?_, fun _ _ => rfl, by simp, by simp⟩
    intro p hp
    exact absurd hp (List.not_mem_nil _)
  exact specifiedLoop_prefix_induct env spec (fun done fr => Settled host start done fr)
    (fun done p rest fr hsplit hq hn => settled_next hord host hhost hsplit hspec hq hn)
    spec [] start rfl h0 hnext

theorem perm_of_mapGet_eq {a b : GoMap LogstreamerEntry} (ha : mapWF a) (hb : mapWF b)
    (h : ∀ k, mapGet a k = mapGet b k) : a.Perm b := by
  have hna : a.Nodup := List.Nodup.of_map Prod.fst ha
  have hnb : b.Nodup := List.Nodup.of_map Prod.fst hb
  apply (List.perm_ext_iff_of_nodup hna hnb).mpr
  intro p
  constructor
  · intro hp
    have := mapGet_eq_some_of_mem ha hp
    rw [h] at this
    exact mem_of_mapGet_eq_some this
  · intro hp
    have := mapGet_eq_some_of_mem hb hp
    rw [← h] at this
    exact mem_of_mapGet_eq_some this

theorem prunePhase_removed_perm {env : PassEnv} (hord : env.order.Valid)
    (inputs : GoMap LogstreamerEntry) :
    (removedRunners (prunePhase env inputs).calls).Perm
      (runners (inputs.filter (fun p => decide (p.1 ∉ mapKeys env.walked)))) := by
  unfold prunePhase
  rw [pruneLoop_removed]
  simp only [entryFrame, removedRunners, List.filterMap_nil, List.nil_append, runners]
  exact ((hord.1 inputs).filter _).map _

theorem prunePhase_added (env : PassEnv) (inputs : GoMap LogstreamerEntry) :
    addedRunners (prunePhase env inputs).calls = [] := by
  unfold prunePhase
  rw [pruneLoop_added]
  rfl

/-- C18, amended: order independence of a pass without conflict.  For every running set,
every specified set and every host that answers `AddInputRunner` by the handle alone, if
the pass detects no conflict in either of two visiting orders of the specified entries
(and whatever the orders in which the running set is ranged over), then both orders leave
the same running set, the same entry under each key, and start and stop the same
handles.  What the pass returns is left out. -/
theorem pass_without_conflict_order_independent (env1 env2 : PassEnv)
    (lsdi : LogstreamerDirectoryInput) (host : InputRunner → Option String)
    (hord1 : env1.order.Valid) (hord2 : env2.order.Valid)
    (hwalk1 : env1.walkErr = none) (hwalk2 : env2.walkErr = none)
    (hhost1 : ∀ calls ir, env1.AddInputRunner calls ir = host ir)
    (hhost2 : ∀ calls ir, env2.AddInputRunner calls ir = host ir)
    (hperm : env1.walked.Perm env2.walked)
    (hwf : mapWF lsdi.inputs) (hspec : mapWF env1.walked)
    (hd1 : (loadInputs env1 lsdi).dups = false) (hd2 : (loadInputs env2 lsdi).dups = false) :
    (∀ k, mapGet (loadInputs env1 lsdi).lsdi.inputs k =
      mapGet (loadInputs env2 lsdi).lsdi.inputs k) ∧
    (loadInputs env1 lsdi).lsdi.inputs.Perm (loadInputs env2 lsdi).lsdi.inputs ∧
    (addedRunners (loadInputs env1 lsdi).calls).Perm
      (addedRunners (loadInputs env2 lsdi).calls) ∧
    (removedRunners (loadInputs env1 lsdi).calls).Perm
      (removedRunners (loadInputs env2 lsdi).calls) := by
  have hkeys : ∀ k, k ∈ mapKeys env1.walked ↔ k ∈ mapKeys env2.walked := by
    intro k
    have : (mapKeys env1.walked).Perm (mapKeys env2.walked) := hperm.map _
    exact this.mem_iff
  have hspec2 : mapWF env2.walked := by
    have : (mapKeys env1.walked).Perm (mapKeys env2.walked) := hperm.map _
    exact this.nodup_iff.mp hspec
  have hin : (prunePhase env1 lsdi.inputs).inputs = (prunePhase env2 lsdi.inputs).inputs := by
    rw [prunePhase_inputs hord1, prunePhase_inputs hord2]
    apply List.filter_congr
    intro p _
    exact decide_eq_decide.mpr (hkeys p.1)
  have hwfR : mapWF (prunePhase env1 lsdi.inputs).inputs := by
    rw [prunePhase_inputs hord1]
    unfold mapWF mapKeys at hwf ⊢
    exact hwf.sublist ((List.filter_sublist _).map Prod.fst)
  simp only [loadInputs, hwalk1, hwalk2, reconcile] at hd1 hd2 ⊢
  obtain ⟨_, a2, a3, a4, a5, a6⟩ := specifiedLoop_settled hord1 host hhost1 env1.walked hspec
    (prunePhase env1 lsdi.inputs) hwfR (prunePhase_locals env1 lsdi.inputs).1 hd1
  obtain ⟨_, b2, b3, b4, b5, b6⟩ := specifiedLoop_settled hord2 host hhost2 env2.walked hspec2
    (prunePhase env2 lsdi.inputs) (hin ▸ hwfR) (prunePhase_locals env2 lsdi.inputs).1 hd2
  have hpoint : ∀ k, mapGet (specifiedLoop env1 env1.walked (prunePhase env1 lsdi.inputs)).2.inputs k =
      mapGet (specifiedLoop env2 env2.walked (prunePhase env2 lsdi.inputs)).2.inputs k := by
    intro k
    by_cases hk : k ∈ mapKeys env1.walked
    · obtain ⟨v, hv⟩ := mem_mapKeys_iff.mp hk
      have h1 := a3 (k, v) hv
      have h2 := b3 (k, v) (hperm.mem_iff.mp hv)
      rw [h1, h2, hin]
    · rw [a4 k hk, b4 k (fun h => hk ((hkeys k).mpr h)), hin]
  refine ⟨hpoint, perm_of_mapGet_eq a2 b2 hpoint, ?_, ?_⟩
  · rw [a6, b6, prunePhase_added, prunePhase_added, hin]
    exact hperm.flatMap_right _
  · rw [a5, b5, hin]
    apply List.Perm.append
    · apply (prunePhase_removed_perm hord1 lsdi.inputs).trans
      apply List.Perm.trans _ (prunePhase_removed_perm hord2 lsdi.inputs).symm
      have : lsdi.inputs.filter (fun p => decide (p.1 ∉ mapKeys env1.walked)) =
          lsdi.inputs.filter (fun p => decide (p.1 ∉ mapKeys env2.walked)) := by
        apply List.filter_congr
        intro p _
        exact decide_eq_decide.mpr (not_congr (hkeys p.1))
      rw [this]
    · exact hperm.flatMap_right _

/-- C18, witness: two files in two orders on a host that rejects `A`, from a running set
holding an older `B`: both orders stop the old `B`, start `B` and `A`, and leave `B`
running. -/
theorem pass_without_conflict_order_independent_witness :
    listOrder.Valid ∧ rejectsAPass.walked.Perm rejectsAPassSwapped.walked ∧
    mapWF runningB ∧ mapWF rejectsAPass.walked ∧
    (loadInputs rejectsAPass { inputs := runningB, specified := [] }).dups = false ∧
    (loadInputs rejectsAPassSwapped { inputs := runningB, specified := [] }).dups = false ∧
    (loadInputs rejectsAPass { inputs := runningB, specified := [] }).lsdi.inputs =
      [("b.toml", mkEntry 5 "B" "b.toml" longTable)] ∧
    ((∀ k, mapGet (loadInputs rejectsAPass { inputs := runningB, specified := [] }).lsdi.inputs k =
        mapGet
          (loadInputs rejectsAPassSwapped { inputs := runningB, specified := [] }).lsdi.inputs k) ∧
      (loadInputs rejectsAPass { inputs := runningB, specified := [] }).lsdi.inputs.Perm
        (loadInputs rejectsAPassSwapped { inputs := runningB, specified := [] }).lsdi.inputs ∧
      (addedRunners (loadInputs rejectsAPass { inputs := runningB, specified := [] }).calls).Perm
        (addedRunners
          (loadInputs rejectsAPassSwapped { inputs := runningB, specified := [] }).calls) ∧
      (removedRunners (loadInputs rejectsAPass { inputs := runningB, specified := [] }).calls).Perm
        (removedRunners
          (loadInputs rejectsAPassSwapped { inputs := runningB, specified := [] }).calls)) :=
  ⟨listOrder_valid, List.Perm.swap _ _ _, by decide, by decide, by decide, by decide, by decide,
    pass_without_conflict_order_independent rejectsAPass rejectsAPassSwapped
      { inputs := runningB, specified := [] } rejectsA listOrder_valid listOrder_valid rfl rfl
      (fun _ _ => rfl) (fun _ _ => rfl) (List.Perm.swap _ _ _) (by decide) (by decide)
      (by decide) (by decide)⟩

/-- The walk function on the sample world: the directory and a file that cannot be decoded
are skipped, `a.toml` is stored under its path with the worker name of its section. -/
theorem logDirWalkFunc_sample :
    (logDirWalkFunc sampleWorld [] "logstreamers.d" (some { IsDir := true }) none).map
      (fun res => res.specified) = some [] ∧
    (logDirWalkFunc sampleWorld [] "logstreamers.d/b.toml" (some { IsDir := false })
      none).map (fun res => (res.specified, res.ret)) = some ([], none) ∧
    (logDirWalkFunc sampleWorld [] "logstreamers.d/a.toml" (some { IsDir := false })
      none).map (fun res => (res.specified, res.ret)) =
      some ([("logstreamers.d/a.toml",
        { ir := { id := 11, Name := "syslog" }, config := zeroConfig,
          fileName := "logstreamers.d/a.toml" })], none) := by
  decide

/-- `Run` on the accepting pass followed by one tick and the cancellation: two passes,
nil returned, and the two workers still running. -/
theorem Run_sample :
    (Run acceptingPass [RunEvent.tick rescanPass, RunEvent.stop] Init).returned = true ∧
    (Run acceptingPass [RunEvent.tick rescanPass, RunEvent.stop] Init).err = none ∧
    (Run acceptingPass [RunEvent.tick rescanPass, RunEvent.stop] Init).passes.length = 2 ∧
    mapKeys (Run acceptingPass [RunEvent.tick rescanPass, RunEvent.stop] Init).lsdi.inputs =
      ["b.toml", "a.toml"] ∧
    removedRunners (Run acceptingPass [RunEvent.tick rescanPass, RunEvent.stop] Init).calls =
      [] := by
  decide

/-! ## The update rule -/

theorem loopBody_next_absent {env : PassEnv} (hord : env.order.Valid) (name : String)
    (n : LogstreamerEntry) (fr : Frame) (hget : mapGet fr.inputs name = none)
    (hnext : (loopBody env name n fr).1 = Flow.next) :
    loopBody env name n fr = (Flow.next, startInput env name n fr) := by
  rcases loopBody_cases hord name n fr with
    ⟨p, _, _, heq⟩ | ⟨_, ⟨e, hg, _, _, _, _⟩ | ⟨e, hg, _, _⟩ | ⟨_, heq⟩⟩
  · rw [heq] at hnext
    exact Flow.noConfusion hnext
  · rw [hget] at hg
    exact Option.noConfusion hg
  · rw [hget] at hg
    exact Option.noConfusion hg
  · exact heq

theorem loopBody_next_present {env : PassEnv} (hord : env.order.Valid) (name : String)
    (n : LogstreamerEntry) (fr : Frame) (e : LogstreamerEntry)
    (hget : mapGet fr.inputs name = some e) (hdups : fr.dups = false)
    (hnext : (loopBody env name n fr).1 = Flow.next) :
    (equalsAccepts e.config n.config = true ∧ e.ir.Name = n.ir.Name ∧
      loopBody env name n fr = (Flow.next, fr)) ∨
    ((equalsAccepts e.config n.config && decide (e.ir.Name = n.ir.Name)) = false ∧
      loopBody env name n fr = (Flow.next, startInput env name n (stopFrame fr name e.ir))) := by
  rcases loopBody_cases hord name n fr with
    ⟨p, _, _, heq⟩ | ⟨_, ⟨e1, hg, hacc, hnm, _, heq⟩ | ⟨e1, hg, hacc, heq⟩ | ⟨hg, _⟩⟩
  · rw [heq] at hnext
    exact Flow.noConfusion hnext
  · rw [hget] at hg
    have he : e = e1 := Option.some.inj hg
    subst he
    exact Or.inl ⟨hacc, hnm, heq⟩
  · rw [hget] at hg
    have he : e = e1 := Option.some.inj hg
    subst he
    rw [hdups] at hacc
    simp only [Bool.not_false, Bool.and_true] at hacc
    exact Or.inr ⟨hacc, heq⟩
  · rw [hget] at hg
    exact Option.noConfusion hg

/-- What starting the entry of another file does to a frame: the entry under `file`, the
flag `dups` and the handles stopped are untouched, and the calls grow at their end by one
`AddInputRunner` call, on the handle of the entry started. -/
theorem startInput_elsewhere (env : PassEnv) (k : String) (n : LogstreamerEntry) (fr : Frame)
    (file : String) (hk : k ≠ file) :
    (startInput env k n fr).dups = fr.dups ∧
    (mapWF fr.inputs → mapWF (startInput env k n fr).inputs) ∧
    (∀ j ∈ mapKeys (startInput env k n fr).inputs, j ∈ mapKeys fr.inputs ∨ j = k) ∧
    mapGet (startInput env k n fr).inputs file = mapGet fr.inputs file ∧
    removedRunners (startInput env k n fr).calls = removedRunners fr.calls ∧
    addedRunners (startInput env k n fr).calls = addedRunners fr.calls ++ [n.ir] ∧
    ∃ t, (startInput env k n fr).calls = fr.calls ++ t := by
  have hfk : file ≠ k := fun h => hk h.symm
  obtain ⟨h1, _, h3, h4⟩ := startInput_effect env k n fr
  rcases startInput_cases env k n fr with ⟨e, _, heq⟩ | ⟨_, heq⟩
  · refine ⟨h1, ?_, ?_, ?_, h4, h3, ?_⟩
    · rw [heq]; exact fun h => h
    · rw [heq]; exact fun j hj => Or.inl hj
    · rw [heq]
    · rw [heq]; exact ⟨_, rfl⟩
  · refine ⟨h1, ?_, ?_, ?_, h4, h3, ?_⟩
    · rw [heq]; exact fun h => mapWF_mapSet h k n
    · rw [heq]
      intro j hj
      obtain ⟨v, hv⟩ := mem_mapKeys_iff.mp hj
      rcases mem_mapSet hv with h5 | h5
      · exact Or.inl (mem_mapKeys_iff.mpr ⟨v, h5⟩)
      · exact Or.inr (congrArg Prod.fst h5)
    · rw [heq]; exact mapGet_mapSet_ne _ _ hfk
    · rw [heq]; exact ⟨_, rfl⟩

theorem mapKeys_append_singleton {β : Type} (m : GoMap β) (p : String × β) (k : String) :
    k ∈ mapKeys (m ++ [p]) ↔ k ∈ mapKeys m ∨ k = p.1 := by
  simp [mapKeys]

/-- One iteration of the reconcile loop that goes on to the next entry keeps
`UpdateReached`. -/
theorem updateReached_next {env : PassEnv} (hord : env.order.Valid)
    (old new : LogstreamerEntry) (file : String)
    (hscan : mapWF env.walked) (hfile : mapGet env.walked file = some new)
    (hname : new.ir.Name = old.ir.Name)
    (done : GoMap LogstreamerEntry) (p : String × LogstreamerEntry)
    (rest : GoMap LogstreamerEntry) (fr : Frame)
    (hsplit : done ++ p :: rest = env.walked) (hq : UpdateReached file old new done fr)
    (hnext : (loopBody env p.1 p.2 fr).1 = Flow.next) :
    UpdateReached file old new (done ++ [p]) (loopBody env p.1 p.2 fr).2 := by
  obtain ⟨hpmem, _, hfresh⟩ := split_facts hsplit hscan
  obtain ⟨k, n⟩ := p
  obtain ⟨hdups, hwf, hkeys, hkept, hrepl⟩ := hq
  have hknot : k ∉ mapKeys done := by
    intro hmem
    obtain ⟨v, hv⟩ := mem_mapKeys_iff.mp hmem
    exact hfresh (k, v) hv rfl
  by_cases hkf : k = file
  · -- the entry of `file` itself
    subst hkf
    have hn : n = new := by
      have := mapGet_eq_some_of_mem hscan hpmem
      rw [hfile] at this
      exact (Option.some.inj this).symm
    subst hn
    obtain ⟨hrem, hadd, hget⟩ := hkept (Or.inl hknot)
    have hin : k ∈ mapKeys (done ++ [(k, n)]) :=
      (mapKeys_append_singleton done (k, n) k).mpr (Or.inr rfl)
    rcases loopBody_next_present hord k n fr old hget hdups hnext with
      ⟨hacc, _, heq⟩ | ⟨hacc, heq⟩
    · rw [heq]
      refine ⟨hdups, hwf, ?_, ?_, ?_⟩
      · intro j hj
        rcases hkeys j hj with h | h
        · exact Or.inl h
        · exact Or.inr ((mapKeys_append_singleton done (k, n) j).mpr (Or.inl h))
      · intro _
        refine ⟨hrem, ?_, hget⟩
        intro ir hir
        obtain ⟨q, hq1, hq2, hq3⟩ := hadd ir hir
        exact ⟨q, List.mem_append_left _ hq1, hq2, hq3⟩
      · intro _ hno
        rw [hacc] at hno
        exact Bool.noConfusion hno
    · have hacc1 : equalsAccepts old.config n.config = false := by
        simpa [hname] using hacc
      rw [heq]
      have hkeys1 : ∀ j ∈ mapKeys (mapDelete fr.inputs k), j = k ∨
          j ∈ mapKeys (done ++ [(k, n)]) := by
        intro j hj
        obtain ⟨v, hv⟩ := mem_mapKeys_iff.mp hj
        rcases hkeys j (mem_mapKeys_iff.mpr ⟨v, (mem_mapDelete.mp hv).1⟩) with h | h
        · exact Or.inl h
        · exact Or.inr ((mapKeys_append_singleton done (k, n) j).mpr (Or.inl h))
      have hnotkept : ¬ (k ∉ mapKeys (done ++ [(k, n)]) ∨
          equalsAccepts old.config n.config = true) := by
        rintro (h | h)
        · exact h hin
        · rw [hacc1] at h
          exact Bool.noConfusion h
      rcases startInput_cases env k n (stopFrame fr k old.ir) with ⟨e, _, hst⟩ | ⟨_, hst⟩
      · rw [hst]
        refine ⟨hdups, mapWF_mapDelete hwf k, hkeys1, fun h => absurd h hnotkept, ?_⟩
        intro _ _
        refine ⟨?_, fr.calls,
          [HostCall.LogError ("creating input '" ++ k ++ "': " ++ e)], some e, ?_, ?_⟩
        · simp only [stopFrame, removedRunners_append, hrem, List.nil_append]
          rfl
        · simp [stopFrame]
        · intro h
          exact Option.noConfusion h
      · rw [hst]
        refine ⟨hdups, mapWF_mapSet (mapWF_mapDelete hwf k) k n, ?_,
          fun h => absurd h hnotkept, ?_⟩
        · intro j hj
          obtain ⟨v, hv⟩ := mem_mapKeys_iff.mp hj
          rcases mem_mapSet hv with h5 | h5
          · exact hkeys1 j (mem_mapKeys_iff.mpr ⟨v, h5⟩)
          · exact Or.inl (congrArg Prod.fst h5)
        · intro _ _
          refine ⟨?_, fr.calls, [HostCall.LogMessage ("Added: " ++ k)], none, ?_, ?_⟩
          · simp only [stopFrame, removedRunners_append, hrem, List.nil_append]
            rfl
          · simp [stopFrame]
          · intro _
            exact mapGet_mapSet_self _ _ _
  · -- the entry of another file
    have hgetk : mapGet fr.inputs k = none := by
      apply mapGet_eq_none_iff.mpr
      intro hmem
      rcases hkeys k hmem with h | h
      · exact hkf h
      · exact hknot h
    rw [loopBody_next_absent hord k n fr hgetk hnext]
    obtain ⟨h1, h2, h3, h4, h5, h6, t, h7⟩ := startInput_elsewhere env k n fr file hkf
    have hfk : file ≠ k := fun h => hkf h.symm
    have hdone : file ∈ mapKeys (done ++ [(k, n)]) ↔ file ∈ mapKeys done := by
      rw [mapKeys_append_singleton]
      exact ⟨fun h => h.resolve_right hfk, Or.inl⟩
    refine ⟨by rw [h1]; exact hdups, h2 hwf, ?_, ?_, ?_⟩
    · intro j hj
      rcases h3 j hj with h | h
      · rcases hkeys j h with h8 | h8
        · exact Or.inl h8
        · exact Or.inr ((mapKeys_append_singleton done (k, n) j).mpr (Or.inl h8))
      · exact Or.inr ((mapKeys_append_singleton done (k, n) j).mpr (Or.inr h))
    · intro hpre
      have hpre1 : file ∉ mapKeys done ∨ equalsAccepts old.config new.config = true := by
        rcases hpre with h | h
        · exact Or.inl (fun hm => h (hdone.mpr hm))
        · exact Or.inr h
      obtain ⟨hrem, hadd, hget⟩ := hkept hpre1
      refine ⟨by rw [h5]; exact hrem, ?_, by rw [h4]; exact hget⟩
      intro ir hir
      rw [h6] at hir
      rcases List.mem_append.mp hir with h | h
      · obtain ⟨q, hq1, hq2, hq3⟩ := hadd ir h
        exact ⟨q, List.mem_append_left _ hq1, hq2, hq3⟩
      · exact ⟨(k, n), List.mem_append_right _ (List.mem_singleton_self _), hkf,
          (List.mem_singleton.mp h).symm⟩
    · intro hin hacc
      obtain ⟨hrem, pre, post, r, hcalls, hget⟩ := hrepl (hdone.mp hin) hacc
      refine ⟨by rw [h5]; exact hrem, pre, post ++ t, r, ?_, ?_⟩
      · rw [h7, hcalls]
        simp only [List.append_assoc]
      · intro hr
        rw [h4]
        exact hget hr

/-- The reconcile phase from the running set that holds only `old`, under `file`, when
the scan holds `new` under `file` and no conflict is detected. -/
theorem reconcile_update {env : PassEnv} (hord : env.order.Valid)
    (old new : LogstreamerEntry) (file : String)
    (hscan : mapWF env.walked) (hfile : mapGet env.walked file = some new)
    (hname : new.ir.Name = old.ir.Name)
    (hdups : (reconcile env [(file, old)]).2.dups = false) :
    UpdateReached file old new env.walked (reconcile env [(file, old)]).2 := by
  have hprune : prunePhase env [(file, old)] = entryFrame [(file, old)] := by
    unfold prunePhase
    apply pruneLoop_noop
    intro p hp
    have hp1 : p ∈ [(file, old)] := (hord.1 _).mem_iff.mp hp
    rw [List.mem_singleton.mp hp1]
    exact mem_mapKeys_of_mapGet hfile
  have hnext : (reconcile env [(file, old)]).1 = Flow.next := by
    rcases specifiedLoop_flow hord env.walked (prunePhase env [(file, old)]) with h | h
    · exact h
    · unfold reconcile at hdups
      rw [h.2] at hdups
      exact absurd hdups (by decide)
  have hstart : UpdateReached file old new [] (entryFrame [(file, old)]) := by
    refine ⟨rfl, ?_, ?_, ?_, ?_⟩
    · simp [entryFrame, mapWF, mapKeys]
    · intro k hk
      left
      simpa [entryFrame, mapKeys] using hk
    · intro _
      refine ⟨rfl, ?_, ?_⟩
      · intro ir hir
        simp [entryFrame, addedRunners] at hir
      · simp [entryFrame, mapGet]
    · intro h
      simp [mapKeys] at h
  unfold reconcile at hnext ⊢
  rw [hprune] at hnext ⊢
  exact specifiedLoop_prefix_induct env env.walked (UpdateReached file old new)
    (fun done p rest fr hsplit hq hn =>
      updateReached_next hord old new file hscan hfile hname done p rest fr hsplit hq hn)
    env.walked [] (entryFrame [(file, old)]) rfl hstart hnext

/-- C9, counterexample: the running set is `{A}`, loaded from `new.toml`, and in the rescan
`new.toml` declares `A` with a priority list, while `other.toml` declares `A` too.  With
`other.toml` visited first the old `A` is stopped and `AddInputRunner` is never called on
the new `A`; with `new.toml` visited first that call is made and succeeds, and the
running set does not hold the new entry afterwards.  With the configuration of `new.toml`
unchanged and `other.toml` visited first, the old `A` is stopped and is not running
afterwards; with the configuration unchanged and `b.toml` declaring another worker, no
conflict is detected and `AddInputRunner` is called, on the handle of `B`. -/
theorem update_rule_fails_with_duplicate :
    mapGet updateWithDuplicatePass.walked "new.toml" =
      some (mkEntry 7 "A" "new.toml" withPriority) ∧
    zeroConfig.Priority ≠ withPriority.Priority ∧
    addedRunners
      (loadInputs updateWithDuplicatePass { inputs := runningNew, specified := [] }).calls =
      [] ∧
    (HostCall.AddInputRunner { id := 7, Name := "A" } none ∈
        (loadInputs updateThenDuplicatePass { inputs := runningNew, specified := [] }).calls ∧
      (loadInputs updateThenDuplicatePass
        { inputs := runningNew, specified := [] }).lsdi.inputs = []) ∧
    (mapGet unchangedWithDuplicatePass.walked "new.toml" =
        some (mkEntry 8 "A" "new.toml" zeroConfig) ∧
      StructurallyEqual zeroConfig zeroConfig = true ∧
      removedRunners
        (loadInputs unchangedWithDuplicatePass
          { inputs := runningNew, specified := [] }).calls = [{ id := 2, Name := "A" }] ∧
      (loadInputs unchangedWithDuplicatePass
        { inputs := runningNew, specified := [] }).lsdi.inputs = []) ∧
    ((loadInputs unchangedAmongOthersPass
        { inputs := runningNew, specified := [] }).dups = false ∧
      addedRunners
        (loadInputs unchangedAmongOthersPass
          { inputs := runningNew, specified := [] }).calls = [{ id := 5, Name := "B" }]) := by
  decide

/-- C9, amended: the update rule of a pass that detects no conflict, for a running set
`{A: cfg1}` loaded from `file` and every rescan in which that same file decodes to `cfg2`
under the same worker name, whatever other files the rescan holds, whatever the order
and whatever the host answers.  (i) If `cfg2` differs from `cfg1` in `Priority` or in
`Differentiator`, the only handle stopped is the old `A`, its stop is followed at once by
`AddInputRunner` on the new `A`, and when that call succeeded the running set holds the
new entry under `file`.  (ii) If `cfg2` is structurally equal to `cfg1`, no
`RemoveInputRunner` call is made, every `AddInputRunner` call is for the entry of another
file, and the running set still holds the old entry under `file`. -/
theorem update_rule_without_conflict (env : PassEnv) (lsdi : LogstreamerDirectoryInput)
    (old new : LogstreamerEntry) (file : String)
    (hord : env.order.Valid) (hwalkErr : env.walkErr = none)
    (hscan : mapWF env.walked) (hfile : mapGet env.walked file = some new)
    (hrunning : lsdi.inputs = [(file, old)])
    (hname : new.ir.Name = old.ir.Name)
    (hwf1 : translationWF old.config.Translation)
    (hwf2 : translationWF new.config.Translation)
    (hnoconflict : (loadInputs env lsdi).dups = false) :
    ((old.config.Priority ≠ new.config.Priority ∨
        old.config.Differentiator ≠ new.config.Differentiator) →
      removedRunners (loadInputs env lsdi).calls = [old.ir] ∧
      new.ir ∈ addedRunners (loadInputs env lsdi).calls ∧
      ∃ pre post r,
        (loadInputs env lsdi).calls =
          pre ++ [HostCall.RemoveInputRunner old.ir,
            HostCall.LogMessage ("Removed: " ++ file), HostCall.AddInputRunner new.ir r] ++
            post ∧
        (r = none → mapGet (loadInputs env lsdi).lsdi.inputs file = some new)) ∧
    (StructurallyEqual old.config new.config = true →
      removedRunners (loadInputs env lsdi).calls = [] ∧
      (∀ ir ∈ addedRunners (loadInputs env lsdi).calls,
        ∃ q ∈ env.walked, q.1 ≠ file ∧ q.2.ir = ir) ∧
      mapGet (loadInputs env lsdi).lsdi.inputs file = some old) := by
  have hres : (loadInputs env lsdi).calls = (reconcile env [(file, old)]).2.calls ∧
      (loadInputs env lsdi).lsdi.inputs = (reconcile env [(file, old)]).2.inputs ∧
      (loadInputs env lsdi).dups = (reconcile env [(file, old)]).2.dups := by
    simp [loadInputs, hwalkErr, hrunning]
  rw [hres.2.2] at hnoconflict
  rw [hres.1, hres.2.1]
  obtain ⟨_, _, _, hkept, hrepl⟩ :=
    reconcile_update hord old new file hscan hfile hname hnoconflict
  have hin : file ∈ mapKeys env.walked := mem_mapKeys_of_mapGet hfile
  constructor
  · intro hdiff
    have hacc : equalsAccepts old.config new.config = false := by
      cases h : equalsAccepts old.config new.config with
      | false => rfl
      | true =>
        have := equalsAccepts_sequences h
        rcases hdiff with hd | hd
        · exact absurd this.1 hd
        · exact absurd this.2 hd
    obtain ⟨hrem, pre, post, r, hcalls, hget⟩ := hrepl hin hacc
    refine ⟨hrem, ?_, pre, post, r, hcalls, hget⟩
    rw [hcalls]
    simp [addedRunners_append, addedRunners]
  · intro hsame
    have hacc : equalsAccepts old.config new.config = true :=
      equalsAccepts_of_structurallyEqual hsame hwf1 hwf2.1
    exact hkept (Or.inr hacc)

/-- C9, witness: `new.toml` gains a priority list, between `b.toml` and `c.toml`, which
declare other workers; no conflict is detected, the old `A` is the only handle stopped,
the new `A` is started and, the host having accepted it, the running set holds the new
entry. -/
theorem update_rule_without_conflict_witness :
    listOrder.Valid ∧ mapWF updateAmongOthersPass.walked ∧
    (loadInputs updateAmongOthersPass { inputs := runningNew, specified := [] }).dups = false ∧
    removedRunners
      (loadInputs updateAmongOthersPass { inputs := runningNew, specified := [] }).calls =
      [{ id := 2, Name := "A" }] ∧
    mapGet (loadInputs updateAmongOthersPass
      { inputs := runningNew, specified := [] }).lsdi.inputs "new.toml" =
      some (mkEntry 7 "A" "new.toml" withPriority) ∧
    (removedRunners
        (loadInputs updateAmongOthersPass { inputs := runningNew, specified := [] }).calls =
        [{ id := 2, Name := "A" }] ∧
      { id := 7, Name := "A" } ∈ addedRunners
        (loadInputs updateAmongOthersPass { inputs := runningNew, specified := [] }).calls ∧
      ∃ pre post r,
        (loadInputs updateAmongOthersPass { inputs := runningNew, specified := [] }).calls =
          pre ++ [HostCall.RemoveInputRunner { id := 2, Name := "A" },
            HostCall.LogMessage ("Removed: " ++ "new.toml"),
            HostCall.AddInputRunner { id := 7, Name := "A" } r] ++ post ∧
        (r = none →
          mapGet (loadInputs updateAmongOthersPass
            { inputs := runningNew, specified := [] }).lsdi.inputs "new.toml" =
            some (mkEntry 7 "A" "new.toml" withPriority))) :=
  ⟨listOrder_valid, by decide, by decide, by decide, by decide,
    (update_rule_without_conflict updateAmongOthersPass
      { inputs := runningNew, specified := [] }
      (mkEntry 2 "A" "new.toml" zeroConfig) (mkEntry 7 "A" "new.toml" withPriority) "new.toml"
      listOrder_valid rfl (by decide) (by decide) rfl rfl (by decide) (by decide)
      (by decide)).1 (Or.inl (by decide))⟩

end Logstreamer
